import Mathlib

/-!
# MidiMet: a metronome sequencer and its LV2 render loop

A shallow embedding of `src/midimet.cpp`, `src/midimet.h`, `src/midimet_lv2.cpp`
and `src/midimet_lv2.h`.

Conventions of the embedding.

* Signed C++ integers (`int`, `int64_t`) are `Int`; signed overflow is undefined
  behaviour in C++ and is not given a meaning here.  Signed division and
  remainder are the truncating `Int.tdiv` and `Int.tmod`.
* Unsigned integers (`uint32_t`, `uint64_t`, `unsigned char`) are `Nat` reduced
  modulo `2 ^ w` at every store (`toU64`, `toU32`, `toU8`).
* Undefined behaviour that the code can reach from well-typed data (a division
  by zero, an array index outside `[0, JQ_BUFSZ)`) is an explicit `Fault`;
  every operation that may fault returns `Except Fault _`.
* Floating-point expressions are not evaluated.  The per-sample tick derived
  from the frame counter, the time shift in ticks, the position tick of
  `updatePos` and the audio table values enter as parameters or as symbolic
  values.  The tempo members, which the modelled code only copies and
  compares, hold rational numbers.
-/

/-! ## The embedding and the vocabulary of the statements -/

/-- The ways in which a C++ operation of the embedding can leave defined behaviour. -/
inductive Fault where
  | divByZero
  | outOfBounds (index : Int)
deriving DecidableEq, Repr

/-- Ticks per quarter note, `#define TPQN 48000`. -/
def TPQN : Int := 48000

/-- Capacity of the note-off queue, `#define JQ_BUFSZ 1024`. -/
def JQ_BUFSZ : Int := 1024

/-- The available resolution values, `seqResValues[13]`. -/
def seqResValues : List Int := [1, 2, 3, 4, 5, 6, 7, 8, 9, 10, 11, 12, 16]

/-- The available size values, `seqSizeValues[20]`. -/
def seqSizeValues : List Int :=
  [1, 2, 3, 4, 5, 6, 7, 8, 9, 10, 11, 12, 13, 14, 15, 16, 24, 32, 64, 128]

/-- Conversion of an integer value to `uint64_t`. -/
@[irreducible] def toU64 (x : Int) : Nat := (x % 18446744073709551616).toNat

/-- Conversion of an integer value to `uint32_t`. -/
@[irreducible] def toU32 (x : Int) : Nat := (x % 4294967296).toNat

/-- Conversion of an integer value to `unsigned char`. -/
@[irreducible] def toU8 (x : Int) : Nat := (x % 256).toNat

/-- Conversion of an integer value to `int` (two's complement, 32 bits). -/
@[irreducible] def toI32 (x : Int) : Int := (x + 2147483648) % 4294967296 - 2147483648

/-- Conversion of an integer value to `int64_t` (two's complement). -/
@[irreducible] def toI64 (x : Int) : Int :=
  (x + 9223372036854775808) % 18446744073709551616 - 9223372036854775808

/-- Modelled from the spec: the `Sample` record of `midievent.h`, which is not
under `src/`.  The spec's ClickEvent is "scheduled tick, note number, muted
flag"; the source initialises it as `{0, 0, 0, false}` and uses the members
`data`, `value`, `tick` and `muted`.  The tick is taken as wide as `nextTick`. -/
structure Sample where
  data : Int
  value : Int
  tick : Int
  muted : Bool
deriving DecidableEq, Repr

/-- The data members of `class MidiMet` (`midimet.h`); `outFrame0` and `outFrame1`
are the two elements `outFrame[0]` and `outFrame[1]` of the vector `outFrame`. -/
structure MidiMet where
  vel : Int
  notelength : Int
  timeshift : Int
  timeshift_ticks : Int
  res : Int
  size : Int
  channelOut : Int
  midiNoteKey : Int
  isMuted : Bool
  nextTick : Int
  framePtr : Int
  nPoints : Int
  midiSample : Sample
  outFrame0 : Sample
  outFrame1 : Sample
deriving DecidableEq, Repr

namespace MidiMet

/-- The constructor `MidiMet::MidiMet()`, statement by statement.  The member
`nextTick` is not assigned by the constructor; its indeterminate value is the
argument `nextTick0`. -/
def new (nextTick0 : Int) : MidiMet :=
  let vel : Int := 0
  let size : Int := 4
  let res : Int := 1
  let nPoints : Int := res * size
  let channelOut : Int := 0
  let notelength : Int := 180
  let timeshift : Int := 0
  let timeshift_ticks : Int := 0
  let midiNoteKey : Int := 57
  let isMuted : Bool := false
  let nPoints : Int := 1
  let framePtr : Int := 0
  let midiSample : Sample := { data := 0, value := 0, tick := 0, muted := false }
  let midiSample : Sample := { midiSample with data := 60 }
  let midiSample : Sample := { midiSample with value := 0 }
  let midiSample : Sample := { midiSample with tick := TPQN.tdiv res }
  let midiSample : Sample := { midiSample with muted := false }
  let outFrame0 : Sample := midiSample
  let midiSample : Sample := { midiSample with data := -1 }
  let outFrame1 : Sample := midiSample
  { vel := vel, notelength := notelength, timeshift := timeshift,
    timeshift_ticks := timeshift_ticks, res := res, size := size, channelOut := channelOut,
    midiNoteKey := midiNoteKey, isMuted := isMuted, nextTick := nextTick0,
    framePtr := framePtr, nPoints := nPoints, midiSample := midiSample,
    outFrame0 := outFrame0, outFrame1 := outFrame1 }

/-- The method `MidiMet::getNextFrame(int64_t tick)`.  The three divisions
(`TPQN / res`, `framePtr %= res * size`, `nextTick /= frame_nticks`) fault on a
zero divisor. -/
def getNextFrame (m : MidiMet) (tick : Int) : Except Fault MidiMet :=
  if m.res = 0 then .error .divByZero else
  let frame_nticks : Int := TPQN.tdiv m.res
  let sample : Sample := { data := 0, value := 0, tick := 0, muted := false }
  let sample : Sample :=
    if m.framePtr = 0 then { sample with data := m.midiNoteKey + 12 }
    else { sample with data := m.midiNoteKey }
  let framePtr : Int := m.framePtr + 1
  if m.res * m.size = 0 then .error .divByZero else
  let framePtr : Int := framePtr.tmod (m.res * m.size)
  let nextTick : Int := if m.nextTick < tick - frame_nticks then tick else m.nextTick
  if framePtr.tmod 2 = 0 ∧ frame_nticks = 0 then .error .divByZero else
  let nextTick : Int :=
    if framePtr.tmod 2 = 0 then nextTick.tdiv frame_nticks * frame_nticks else nextTick
  let sample : Sample := { sample with tick := nextTick }
  let outFrame0 : Sample := sample
  let nextTick : Int := nextTick + frame_nticks
  let sample : Sample := { sample with tick := nextTick }
  .ok { m with framePtr := framePtr, nextTick := nextTick, outFrame0 := outFrame0,
               outFrame1 := sample }

/-- The method `MidiMet::resizeAll()`; `framePtr %= npoints` faults when `npoints` is zero. -/
def resizeAll (m : MidiMet) : Except Fault MidiMet :=
  let npoints : Int := m.res * m.size
  if npoints = 0 then .error .divByZero else
  .ok { m with framePtr := m.framePtr.tmod npoints, nPoints := npoints }

/-- The method `MidiMet::updateResolution(int val)`. -/
def updateResolution (m : MidiMet) (val : Int) : Except Fault MidiMet :=
  resizeAll { m with res := val }

/-- The method `MidiMet::updateSize(int val)`. -/
def updateSize (m : MidiMet) (val : Int) : Except Fault MidiMet :=
  resizeAll { m with size := val }

/-- The method `MidiMet::updateNoteLength(int val)`. -/
def updateNoteLength (m : MidiMet) (val : Int) : MidiMet := { m with notelength := val }

/-- The method `MidiMet::updateVelocity(int val)`. -/
def updateVelocity (m : MidiMet) (val : Int) : MidiMet := { m with vel := val }

/-- The method `MidiMet::setFramePtr(int ix)`. -/
def setFramePtr (m : MidiMet) (ix : Int) : MidiMet := { m with framePtr := ix }

/-- The method `MidiMet::getFramePtr()`. -/
def getFramePtr (m : MidiMet) : Int := m.framePtr

/-- The method `MidiMet::setMuted(bool on)`. -/
def setMuted (m : MidiMet) (val : Bool) : MidiMet := { m with isMuted := val }

/-- The method `MidiMet::setNextTick(uint64_t tick)`.  The expression
`(tick * res / TPQN) % nPoints` is evaluated in `uint64_t` (the `int` operands
are converted), the result is narrowed to `int`, and `nextTick = tick` narrows
the argument to `int64_t`. -/
def setNextTick (m : MidiMet) (tick : Nat) : Except Fault MidiMet :=
  if toU64 m.nPoints = 0 then .error .divByZero else
  let pos : Int :=
    toI32 (((toU64 ((tick : Int) * (toU64 m.res : Int)) / toU64 TPQN) % toU64 m.nPoints : Nat) : Int)
  .ok { setFramePtr m pos with nextTick := toI64 tick }

end MidiMet

/-- One MIDI event forged into the output sequence by `forgeMidiEvent(f, d, 3)`:
the sample offset `f` and the three bytes `d[0]`, `d[1]`, `d[2]`. -/
structure MidiEvent where
  frame : Nat
  status : Nat
  note : Nat
  velocity : Nat
deriving DecidableEq, Repr

/-- The value written to `output[f]`.  The table entries are floating-point
numbers and stay symbolic: `waveH i v` stands for `wave_h[i] * v / 128` and
`waveL i v` for `wave_l[i] * v / 128`; `silence` is `0.0f`. -/
inductive AudioSample where
  | silence
  | waveH (i : Nat) (vel : Int)
  | waveL (i : Nat) (vel : Int)
deriving DecidableEq, Repr

/-- The data members of `class MidiMetLV2 : public MidiMet` that `run`,
`updateParams`, `updatePos` and `initTransport` read or write outside
floating-point expressions.  `evQueue` and `evTickQueue` are the two arrays of
`JQ_BUFSZ` elements as maps from index to value; `cursorPos` is the output port
`*val[CURSOR_POS]`; `events` is the content of the forged output sequence and
`output` the audio buffer `outputPort`.  `transportSpeed` is a `float` in the
source that only ever holds converted `int` values.  The three tempo members
(`tempo` and `internalTempo` of type `double`, `transportBpm` of type `float`)
are only copied and compared by the modelled code; they hold rational numbers,
and the conversions between `float` and `double` are taken as exact. -/
structure MidiMetLV2 extends MidiMet where
  wave_len : Nat
  curFrame : Nat
  soundOnFrame : Nat
  tempoChangeTick : Nat
  curTick : Nat
  elapsed_len : Nat
  transportFramesDelta : Nat
  transportSpeed : Int
  hostTransport : Bool
  tempoFromHost : Bool
  evQueue : Nat → Nat
  evTickQueue : Nat → Nat
  bufPtr : Int
  cursorPos : Int
  events : List MidiEvent
  output : Nat → AudioSample
  tempo : Rat
  internalTempo : Rat
  transportBpm : Rat
  transportAtomReceived : Bool

namespace MidiMetLV2

/-- The integer part of the constructor `MidiMetLV2::MidiMetLV2`.  `wave_len` is
`(int)(30 * T[0] * sampleRate)`, a floating-point value taken as the argument
`wave_len0`; `nextTick` and `tempoFromHost` are not assigned by the
constructors and are the arguments `nextTick0` and `tempoFromHost0`. -/
def new (wave_len0 : Nat) (nextTick0 : Int) (tempoFromHost0 : Bool) : MidiMetLV2 :=
  { toMidiMet := MidiMet.new nextTick0,
    wave_len := wave_len0,
    curFrame := 0,
    soundOnFrame := 0,
    tempoChangeTick := 0,
    curTick := 0,
    elapsed_len := 0,
    transportFramesDelta := 0,
    transportSpeed := 1,
    hostTransport := false,
    tempoFromHost := tempoFromHost0,
    evQueue := fun _ => 0,
    evTickQueue := fun _ => 0,
    bufPtr := 0,
    cursorPos := 0,
    events := [],
    output := fun _ => AudioSample.silence,
    tempo := 120,
    internalTempo := 120,
    transportBpm := 120,
    transportAtomReceived := false }

/-- The method `MidiMetLV2::forgeMidiEvent(f, buffer, 3)`: one time-stamped
event is appended to the output sequence. -/
def forgeMidiEvent (s : MidiMetLV2) (f : Nat) (d0 d1 d2 : Nat) : MidiMetLV2 :=
  { s with events := s.events ++ [{ frame := f, status := d0, note := d1, velocity := d2 }] }

/-- Lines 233 to 240 of `run`: the time shift applied to the derived tick
`curTick` (a `uint64_t`), with `timeshift_ticks` an `int32_t`. -/
def shiftTick (curTick : Nat) (timeshift_ticks : Int) : Nat :=
  if timeshift_ticks > 0 then
    if curTick > toU32 timeshift_ticks then toU64 ((curTick : Int) - (toU64 timeshift_ticks : Int))
    else curTick
  else toU64 ((curTick : Int) - (toU64 timeshift_ticks : Int))

/-- Lines 241 to 256 of `run`: when the tick has reached `nextTick` and the
transport is running, the sequencer is advanced and, unless muted, a note-on is
forged and its note-off is queued at index `bufPtr`.  The two array stores
fault when `bufPtr` is outside `[0, JQ_BUFSZ)`. -/
def noteOnPart (s : MidiMetLV2) (f : Nat) : Except Fault MidiMetLV2 :=
  if s.curTick ≥ toU64 s.nextTick ∧ s.transportSpeed ≠ 0 then
    match s.toMidiMet.getNextFrame s.nextTick with
    | .error e => .error e
    | .ok m =>
      let s : MidiMetLV2 := { s with toMidiMet := m }
      if !s.outFrame0.muted && !s.isMuted then
        let d0 : Nat := toU8 (0x90 + s.channelOut)
        let d1 : Nat := toU8 s.outFrame0.data
        let d2 : Nat := toU8 s.vel
        let s : MidiMetLV2 := forgeMidiEvent s f d0 d1 d2
        let s : MidiMetLV2 := { s with soundOnFrame := s.curFrame }
        if s.bufPtr < 0 ∨ JQ_BUFSZ ≤ s.bufPtr then .error (.outOfBounds s.bufPtr) else
        let s : MidiMetLV2 :=
          { s with evTickQueue := Function.update s.evTickQueue s.bufPtr.toNat
                     (toU64 ((s.curTick : Int) + (toU64 (s.notelength.tdiv 4) : Int))) }
        let s : MidiMetLV2 :=
          { s with evQueue := Function.update s.evQueue s.bufPtr.toNat (toU32 s.outFrame0.data) }
        let s : MidiMetLV2 := { s with bufPtr := s.bufPtr + 1 }
        .ok { s with cursorPos := s.getFramePtr }
      else
        .ok { s with cursorPos := s.getFramePtr }
  else .ok s

/-- The scan of lines 260 to 266 of `run`, started at index `l1` with `n`
iterations left: it returns the final `(idx, noteofftick)`. -/
def scanLoop (evTickQueue : Nat → Nat) : Nat → Nat → Nat → Nat → Nat × Nat
  | 0, _, idx, noteofftick => (idx, noteofftick)
  | n + 1, l1, idx, noteofftick =>
    let tmptick : Nat := evTickQueue l1
    if noteofftick > tmptick then scanLoop evTickQueue n (l1 + 1) l1 tmptick
    else scanLoop evTickQueue n (l1 + 1) idx noteofftick

/-- The shift of lines 270 to 273 of `run`, started at index `l4` with `n`
iterations left: both arrays are moved down by one element, in place. -/
def shiftLoop : Nat → Nat → (Nat → Nat) × (Nat → Nat) → (Nat → Nat) × (Nat → Nat)
  | 0, _, q => q
  | n + 1, l4, (evQueue, evTickQueue) =>
    let evQueue : Nat → Nat := Function.update evQueue l4 (evQueue (l4 + 1))
    let evTickQueue : Nat → Nat := Function.update evTickQueue l4 (evTickQueue (l4 + 1))
    shiftLoop n (l4 + 1) (evQueue, evTickQueue)

/-- Lines 257 to 281 of `run`: the note-off queue handling of one sample.  The
scan reads `evTickQueue[0 .. bufPtr)` and faults when that leaves the array. -/
def noteOffPoll (s : MidiMetLV2) (f : Nat) : Except Fault MidiMetLV2 :=
  if JQ_BUFSZ < s.bufPtr then .error (.outOfBounds JQ_BUFSZ) else
  let noteofftick : Nat := s.evTickQueue 0
  let idx : Nat := 0
  let found : Nat × Nat := scanLoop s.evTickQueue s.bufPtr.toNat 0 idx noteofftick
  let idx : Nat := found.1
  let noteofftick : Nat := found.2
  if s.bufPtr ≠ 0 ∧ (s.curTick ≥ noteofftick ∨ (s.hostTransport ∧ s.transportSpeed = 0)) then
    let outval : Int := toI32 (s.evQueue idx)
    let moved : (Nat → Nat) × (Nat → Nat) :=
      shiftLoop (s.bufPtr - 1 - idx).toNat idx (s.evQueue, s.evTickQueue)
    let s : MidiMetLV2 := { s with evQueue := moved.1, evTickQueue := moved.2 }
    let s : MidiMetLV2 := { s with bufPtr := s.bufPtr - 1 }
    let d0 : Nat := toU8 (0x80 + s.channelOut)
    let d1 : Nat := toU8 outval
    let d2 : Nat := 127
    .ok (forgeMidiEvent s f d0 d1 d2)
  else .ok s

/-- Lines 282 to 294 of `run`: the audio sample of this frame and the advance
of the frame counter. -/
def audioPart (s : MidiMetLV2) (f : Nat) : MidiMetLV2 :=
  let s : MidiMetLV2 :=
    { s with elapsed_len := toU32 ((s.curFrame : Int) - (s.soundOnFrame : Int)) }
  let s : MidiMetLV2 :=
    if s.elapsed_len < s.wave_len then
      if s.framePtr = 1 then
        { s with output := Function.update s.output f (AudioSample.waveH s.elapsed_len s.vel) }
      else
        { s with output := Function.update s.output f (AudioSample.waveL s.elapsed_len s.vel) }
    else
      { s with output := Function.update s.output f AudioSample.silence }
  { s with curFrame := toU64 ((s.curFrame : Int) + 1) }

/-- The body of the loop `for (f = 0; f < nframes; f++)` of `run` for one
sample `f`.  `derivedTick` is the `uint64_t` value of the floating-point
expression of lines 231 and 232, `timeshift_ticks` the constant of line 206. -/
def runSample (timeshift_ticks : Int) (s : MidiMetLV2) (f : Nat) (derivedTick : Nat) :
    Except Fault MidiMetLV2 :=
  let s : MidiMetLV2 := { s with curTick := toU64 derivedTick }
  let s : MidiMetLV2 := { s with curTick := shiftTick s.curTick timeshift_ticks }
  match noteOnPart s f with
  | .error e => .error e
  | .ok s =>
    match noteOffPoll s f with
    | .error e => .error e
    | .ok s => .ok (audioPart s f)

/-- The loop of lines 230 to 296 of `run`, from sample `f` with `n` samples
left; `derivedTick f` is the derived tick of sample `f`. -/
def runFrom (timeshift_ticks : Int) (derivedTick : Nat → Nat) :
    Nat → Nat → MidiMetLV2 → Except Fault MidiMetLV2
  | 0, _, s => .ok s
  | n + 1, f, s =>
    match runSample timeshift_ticks s f (derivedTick f) with
    | .error e => .error e
    | .ok s => runFrom timeshift_ticks derivedTick n (f + 1) s

/-- The render loop of `MidiMetLV2::run(nframes)`, entered with an empty
output sequence (`lv2_atom_forge_sequence_head`). -/
def runLoop (timeshift_ticks : Int) (derivedTick : Nat → Nat) (s : MidiMetLV2) (nframes : Nat) :
    Except Fault MidiMetLV2 :=
  runFrom timeshift_ticks derivedTick nframes 0 { s with events := [] }

end MidiMetLV2

namespace MidiMet

/-- The resolution and the size are values of the two enumerated tables. -/
def Valid (m : MidiMet) : Prop := m.res ∈ seqResValues ∧ m.size ∈ seqSizeValues

/-- The pattern invariant: a valid resolution and size, `nPoints = res * size > 0`
and `framePtr` in `[0, nPoints)`. -/
def Inv (m : MidiMet) : Prop :=
  m.Valid ∧ m.nPoints = m.res * m.size ∧ 0 < m.nPoints ∧ 0 ≤ m.framePtr ∧ m.framePtr < m.nPoints

/-- A call of one of the four operations that move the pattern position. -/
inductive Call where
  | updateResolution (val : Int)
  | updateSize (val : Int)
  | setNextTick (tick : Nat)
  | getNextFrame (tick : Int)
deriving DecidableEq, Repr

/-- A configuration call takes its value from the enumerated table; the other
calls take any tick. -/
def Call.admissible : Call → Prop
  | .updateResolution val => val ∈ seqResValues
  | .updateSize val => val ∈ seqSizeValues
  | .setNextTick _ => True
  | .getNextFrame _ => True

/-- The call is `updateResolution` or `updateSize`. -/
def Call.isConfig : Call → Prop
  | .updateResolution _ => True
  | .updateSize _ => True
  | .setNextTick _ => False
  | .getNextFrame _ => False

/-- Performs one call. -/
def call (m : MidiMet) : Call → Except Fault MidiMet
  | .updateResolution val => m.updateResolution val
  | .updateSize val => m.updateSize val
  | .setNextTick tick => m.setNextTick tick
  | .getNextFrame tick => m.getNextFrame tick

/-- Performs a sequence of calls, in order, stopping at the first fault. -/
def calls : MidiMet → List Call → Except Fault MidiMet
  | m, [] => .ok m
  | m, c :: cs =>
    match m.call c with
    | .error e => .error e
    | .ok m1 => calls m1 cs

/-- The state after `k` successive calls `getNextFrame(nextTick)`, the call made
by the render loop (line 242 of `midimet_lv2.cpp`). -/
def clicks : MidiMet → Nat → Except Fault MidiMet
  | m, 0 => .ok m
  | m, k + 1 =>
    match clicks m k with
    | .error e => .error e
    | .ok m1 => m1.getNextFrame m1.nextTick

/-- The tick `getNextFrame` writes to `outFrame[0]`: the cursor, snapped to the
requested tick when it lags by more than one step, and rounded down to the
grid when the new frame pointer is even. -/
def emittedTick (m : MidiMet) (tick : Int) : Int :=
  if ((m.framePtr + 1).tmod (m.res * m.size)).tmod 2 = 0 then
    (if m.nextTick < tick - TPQN.tdiv m.res then tick else m.nextTick).tdiv
      (TPQN.tdiv m.res) * TPQN.tdiv m.res
  else (if m.nextTick < tick - TPQN.tdiv m.res then tick else m.nextTick)

end MidiMet

namespace MidiMetLV2

/-- The pending note-offs: the first `bufPtr` entries of the two arrays, paired
as (note, end tick). -/
def pending (s : MidiMetLV2) : List (Nat × Nat) :=
  (List.range s.bufPtr.toNat).map fun i => (s.evQueue i, s.evTickQueue i)

/-- The index the scan of the poll ends with (`idx` after line 266). -/
def minIdx (s : MidiMetLV2) : Nat :=
  (scanLoop s.evTickQueue s.bufPtr.toNat 0 0 (s.evTickQueue 0)).1

/-- The tick the scan of the poll ends with (`noteofftick` after line 266). -/
def minTick (s : MidiMetLV2) : Nat :=
  (scanLoop s.evTickQueue s.bufPtr.toNat 0 0 (s.evTickQueue 0)).2

/-- The condition of line 267 under which the poll emits a note-off. -/
def pollFires (s : MidiMetLV2) : Prop :=
  s.bufPtr ≠ 0 ∧ (s.curTick ≥ s.minTick ∨ (s.hostTransport ∧ s.transportSpeed = 0))

/-- The condition of line 241 under which the sequencer is advanced. -/
def clickDue (s : MidiMetLV2) : Prop :=
  s.curTick ≥ toU64 s.nextTick ∧ s.transportSpeed ≠ 0

/-- The note bytes of the pending note-offs, as a multiset. -/
def pendingNotes (s : MidiMetLV2) : Multiset Nat :=
  ((s.pending.map fun e => e.1 % 256 : List Nat) : Multiset Nat)

/-- The note bytes of the note-on events of channel `c` in an event list. -/
def noteOns (c : Int) (evs : List MidiEvent) : List Nat :=
  (evs.filter fun e => e.status = toU8 (0x90 + c)).map fun e => e.note

/-- The note bytes of the note-off events of channel `c` in an event list. -/
def noteOffs (c : Int) (evs : List MidiEvent) : List Nat :=
  (evs.filter fun e => e.status = toU8 (0x80 + c)).map fun e => e.note

end MidiMetLV2

/-- A state with two pending note-offs, (69, 500) and (57, 300), at tick 400:
the fresh plugin with the first two entries of the queue filled. -/
def twoPending : MidiMetLV2 :=
  { MidiMetLV2.new 100 0 false with
    bufPtr := 2,
    evQueue := fun i => if i = 0 then 69 else if i = 1 then 57 else 0,
    evTickQueue := fun i => if i = 0 then 500 else if i = 1 then 300 else 0,
    curTick := 400 }

namespace MidiMetLV2

/-- The state of a sample after lines 231 to 240: `curTick` holds the shifted
derived tick. -/
def tickState (timeshift_ticks : Int) (s : MidiMetLV2) (derivedTick : Nat) : MidiMetLV2 :=
  { s with curTick := shiftTick (toU64 derivedTick) timeshift_ticks }

end MidiMetLV2

/-- The state with two pending note-offs, host transport enabled and the
transport stopped. -/
def twoPendingStopped : MidiMetLV2 :=
  { twoPending with hostTransport := true, transportSpeed := 0 }

/-- The fresh plugin (wave length 100, `nextTick` and `tempoFromHost` zero) after
`updateNoteLength(48000)`. -/
def overflowStart : MidiMetLV2 :=
  { MidiMetLV2.new 100 0 false with toMidiMet := (MidiMet.new 0).updateNoteLength 48000 }

/-- The derived ticks of a transport that is 1025 quarter notes ahead of the
sequencer cursor and advances by two ticks per sample. -/
def overflowTicks (f : Nat) : Nat := 49200000 + 2 * f

namespace MidiMetLV2

/-- The states of the overflow run: after `k` samples the queue holds `k`
entries, none of them due, and the sequencer cursor is at `48000 * k`. -/
def Filling (k : Nat) (s : MidiMetLV2) : Prop :=
  s.res = 1 ∧ s.size = 4 ∧ s.isMuted = false ∧ s.notelength = 48000 ∧ s.transportSpeed = 1 ∧
  s.hostTransport = false ∧ s.nextTick = 48000 * (k : Int) ∧ s.bufPtr = (k : Int) ∧
  ∀ i < k, 49212000 ≤ s.evTickQueue i

end MidiMetLV2

/-- The fresh sequencer with the member `size` set to -1, a value outside the
size table. -/
def negativeSize : MidiMet := { MidiMet.new 0 with size := -1 }

namespace MidiMet

/-- The ticks `outFrame[0].tick` written by a sequence of calls
`getNextFrame(t)`, one call per requested tick of the list, in order. -/
def emittedTicks : MidiMet → List Int → Except Fault (List Int)
  | _, [] => .ok []
  | m, t :: ts =>
    match m.getNextFrame t with
    | .error e => .error e
    | .ok m1 =>
      match emittedTicks m1 ts with
      | .error e => .error e
      | .ok l => .ok (m1.outFrame0.tick :: l)

end MidiMet

/-- The fresh sequencer after `updateResolution(4)` and `updateSize(4)`:
sixteen pattern points. -/
def sixteenPoints : MidiMet := { MidiMet.new 0 with res := 4, size := 4, nPoints := 16 }

/-- The fresh plugin (wave length 100, `nextTick` and `tempoFromHost` zero) after
`updateNoteLength(2000)`, with the click of tick 0 due. -/
def noteLengthStart : MidiMetLV2 :=
  { MidiMetLV2.new 100 0 false with toMidiMet := (MidiMet.new 0).updateNoteLength 2000 }

/-- The fresh sequencer after `updateResolution(4)`, `updateSize(4)` and
`setNextTick(13000)`: the frame pointer is 1 and the cursor 13000. -/
def oddInRange : MidiMet := { sixteenPoints with framePtr := 1, nextTick := 13000 }

/-- The plugin at 48 kHz (`wave_len = 28800`) with velocity 100, host transport
enabled and the transport stopped, no click so far (`soundOnFrame = 0`), when
the frame counter has reached `2 ^ 32 + 1`. -/
def idleLong : MidiMetLV2 :=
  { MidiMetLV2.new 28800 0 true with
    toMidiMet := (MidiMet.new 0).updateVelocity 100,
    hostTransport := true,
    transportSpeed := 0,
    curFrame := 4294967297 }

/-- The plugin at 48 kHz (`wave_len = 28800`) after `updateVelocity(100)` and
`updateSize(1)`: a pattern of one point. -/
def onePoint : MidiMetLV2 :=
  { MidiMetLV2.new 28800 0 false with
    toMidiMet := { (MidiMet.new 0).updateVelocity 100 with size := 1, nPoints := 1 } }

namespace MidiMet

/-- The method `MidiMet::updateTimeShift(int val)`.  The member
`timeshift_ticks` receives the value of the floating-point expression
`timeshift * TPQN * 1e-3`, which is the argument `ticks`. -/
def updateTimeShift (m : MidiMet) (val : Int) (ticks : Int) : MidiMet :=
  { m with timeshift := val, timeshift_ticks := ticks }

end MidiMet

/-- The values of the control input ports `*val[...]` at one call of
`updateParams`, named as in `enum FloatField`, each after the conversion the
code applies where it reads the port: to `int` for the velocity, the note
length slider, the two table indices, the time shift and the host speed, to
`bool` for the three switches, to `uint64_t` for the host position; the two
tempo ports keep their value. -/
structure Ports where
  VELOCITY : Int
  NOTELENGTH : Int
  RESOLUTION : Int
  SIZE : Int
  CH_OUT : Int
  MUTE : Bool
  TRANSPORT_MODE : Bool
  TEMPO_MODE : Bool
  TEMPO : Rat
  HOST_TEMPO : Rat
  HOST_POSITION : Nat
  HOST_SPEED : Int
  TIMESHIFT : Int

/-- A time position object received on the atom input port: each of the three
members `updatePosAtom` reads is present with the atom type the code checks
for, or absent.  `posTick` is the value of the floating-point expression of
line 191 in the call of `updatePos` this object leads to. -/
structure PositionAtom where
  frame : Option Int
  beatsPerMinute : Option Rat
  speed : Option Int
  posTick : Nat

/-- The read `table[i]` of one of the two constant arrays `seqResValues` and
`seqSizeValues`: an index outside the array is a fault. -/
def tableAt (table : List Int) (i : Int) : Except Fault Int :=
  if 0 ≤ i ∧ i < table.length then .ok (table.getD i.toNat 0) else .error (.outOfBounds i)

namespace MidiMetLV2

/-- The inline method `sliderToTickLen(int val)` of `midimet_lv2.h`. -/
def sliderToTickLen (val : Int) : Int := (val * TPQN).tdiv 64

/-- The state with the sequencer part replaced by the result of a sequencer
method, or the fault of that method. -/
def withMidiMet (s : MidiMetLV2) (r : Except Fault MidiMet) : Except Fault MidiMetLV2 :=
  match r with
  | .error e => .error e
  | .ok m => .ok { s with toMidiMet := m }

/-- The method `MidiMetLV2::initTransport()`. -/
def initTransport (s : MidiMetLV2) : Except Fault MidiMetLV2 :=
  let s : MidiMetLV2 :=
    if s.tempoFromHost then { s with tempo := s.transportBpm }
    else { s with tempo := s.internalTempo }
  if !s.hostTransport then
    let s : MidiMetLV2 := { s with transportFramesDelta := s.curFrame }
    let s : MidiMetLV2 := if s.curTick > 0 then { s with tempoChangeTick := s.curTick } else s
    .ok { s with transportSpeed := 1 }
  else
    let s : MidiMetLV2 := { s with transportSpeed := 0 }
    withMidiMet s (s.toMidiMet.setNextTick s.tempoChangeTick)

/-- Lines 175 to 186 of `updatePos`: the host tempo is stored and, in host
transport or tempo-from-host mode, taken over when it differs from `tempo`. -/
def updatePosTempo (s : MidiMetLV2) (bpm : Rat) : Except Fault MidiMetLV2 :=
  let s : MidiMetLV2 := { s with transportBpm := bpm }
  if s.hostTransport ∨ s.tempoFromHost then
    if s.tempo ≠ bpm then
      let s : MidiMetLV2 := { s with tempo := s.transportBpm }
      let s : MidiMetLV2 := if s.hostTransport then { s with transportSpeed := 0 } else s
      initTransport s
    else .ok s
  else .ok s

/-- Lines 187 to 201 of `updatePos`: in host transport mode the position is
taken over and a change of the transport speed repositions the sequencer.
`posTick` is the `uint64_t` value of the floating-point expression
`pos * TPQN / frames_per_beat` of line 191. -/
def updatePosPosition (s : MidiMetLV2) (pos : Nat) (speed : Int) (ignore_pos : Bool)
    (posTick : Nat) : Except Fault MidiMetLV2 :=
  if s.hostTransport then
    let s : MidiMetLV2 :=
      if !ignore_pos then
        { s with transportFramesDelta := toU64 pos, tempoChangeTick := toU64 posTick }
      else s
    if s.transportSpeed ≠ speed then
      let s : MidiMetLV2 := { s with transportSpeed := speed }
      let s : MidiMetLV2 := { s with curFrame := s.transportFramesDelta }
      if s.transportSpeed ≠ 0 then
        withMidiMet s (s.toMidiMet.setNextTick s.tempoChangeTick)
      else .ok s
    else .ok s
  else .ok s

/-- The method `MidiMetLV2::updatePos(pos, bpm, speed, ignore_pos)`. -/
def updatePos (s : MidiMetLV2) (pos : Nat) (bpm : Rat) (speed : Int) (ignore_pos : Bool)
    (posTick : Nat) : Except Fault MidiMetLV2 :=
  match updatePosTempo s bpm with
  | .error e => .error e
  | .ok s => updatePosPosition s pos speed ignore_pos posTick

/-- The method `MidiMetLV2::updatePosAtom(obj)`. -/
def updatePosAtom (s : MidiMetLV2) (obj : PositionAtom) : Except Fault MidiMetLV2 :=
  let pos1 : Nat := s.transportFramesDelta
  let bpm1 : Rat := s.tempo
  let speed1 : Int := s.transportSpeed
  let s : MidiMetLV2 := { s with transportAtomReceived := true }
  let bpm1 : Rat := match obj.beatsPerMinute with
    | some b => b
    | none => bpm1
  let pos1 : Nat := match obj.frame with
    | some x => toU64 x
    | none => pos1
  let speed1 : Int := match obj.speed with
    | some x => x
    | none => speed1
  updatePos s pos1 bpm1 speed1 false obj.posTick

/-- Lines 312 to 315 of `updateParams`: the velocity port. -/
def pollVelocity (s : MidiMetLV2) (p : Ports) : MidiMetLV2 :=
  if s.vel ≠ p.VELOCITY then
    let s : MidiMetLV2 := { s with vel := p.VELOCITY }
    { s with toMidiMet := s.toMidiMet.updateVelocity s.vel }
  else s

/-- Lines 317 to 319 of `updateParams`: the note length port. -/
def pollNoteLength (s : MidiMetLV2) (p : Ports) : MidiMetLV2 :=
  if s.notelength ≠ sliderToTickLen p.NOTELENGTH then
    { s with toMidiMet := s.toMidiMet.updateNoteLength (sliderToTickLen p.NOTELENGTH) }
  else s

/-- Lines 321 to 323 of `updateParams`: the time shift port.  `shiftTicks` is
the value of the floating-point expression of `updateTimeShift`. -/
def pollTimeShift (s : MidiMetLV2) (p : Ports) (shiftTicks : Int) : MidiMetLV2 :=
  if s.timeshift ≠ p.TIMESHIFT then
    { s with toMidiMet := s.toMidiMet.updateTimeShift p.TIMESHIFT shiftTicks }
  else s

/-- Lines 326 to 328 of `updateParams`: the resolution port, an index into
`seqResValues`. -/
def pollResolution (s : MidiMetLV2) (p : Ports) : Except Fault MidiMetLV2 :=
  match tableAt seqResValues p.RESOLUTION with
  | .error e => .error e
  | .ok r => if s.res ≠ r then withMidiMet s (s.toMidiMet.updateResolution r) else .ok s

/-- Lines 330 to 332 of `updateParams`: the size port, an index into
`seqSizeValues`. -/
def pollSize (s : MidiMetLV2) (p : Ports) : Except Fault MidiMetLV2 :=
  match tableAt seqSizeValues p.SIZE with
  | .error e => .error e
  | .ok z => if s.size ≠ z then withMidiMet s (s.toMidiMet.updateSize z) else .ok s

/-- Line 334 of `updateParams`: the mute port. -/
def pollMute (s : MidiMetLV2) (p : Ports) : MidiMetLV2 :=
  if s.isMuted ≠ p.MUTE then { s with toMidiMet := s.toMidiMet.setMuted p.MUTE } else s

/-- Lines 336 to 341 of `updateParams`: the internal tempo port. -/
def pollTempo (s : MidiMetLV2) (p : Ports) : Except Fault MidiMetLV2 :=
  if s.internalTempo ≠ p.TEMPO then
    let s : MidiMetLV2 := { s with internalTempo := p.TEMPO }
    if !s.hostTransport then initTransport s else .ok s
  else .ok s

/-- Lines 343 to 346 of `updateParams`: the tempo mode port. -/
def pollTempoMode (s : MidiMetLV2) (p : Ports) : Except Fault MidiMetLV2 :=
  if s.tempoFromHost ≠ p.TEMPO_MODE then
    initTransport { s with tempoFromHost := p.TEMPO_MODE }
  else .ok s

/-- Lines 348 to 354 of `updateParams`: the transport mode port. -/
def pollTransportMode (s : MidiMetLV2) (p : Ports) : Except Fault MidiMetLV2 :=
  if s.hostTransport ≠ p.TRANSPORT_MODE then
    let s : MidiMetLV2 := { s with hostTransport := p.TRANSPORT_MODE }
    let s : MidiMetLV2 := if s.hostTransport then { s with tempoFromHost := true } else s
    initTransport s
  else .ok s

/-- Lines 356 to 361 of `updateParams`: the host position, tempo and speed
ports, read in host transport mode as long as no time position object has
arrived.  `posTick` is the value of the floating-point expression of line 191
of `updatePos`. -/
def pollHostPosition (s : MidiMetLV2) (p : Ports) (posTick : Nat) : Except Fault MidiMetLV2 :=
  if s.hostTransport && !s.transportAtomReceived then
    updatePos s p.HOST_POSITION p.HOST_TEMPO p.HOST_SPEED false posTick
  else .ok s

/-- The method `MidiMetLV2::updateParams()`: the ten polls of its body, in the
order of the source.  No poll reads the port `CH_OUT`. -/
def updateParams (s : MidiMetLV2) (p : Ports) (shiftTicks : Int) (posTick : Nat) :
    Except Fault MidiMetLV2 := do
  let s := pollVelocity s p
  let s := pollNoteLength s p
  let s := pollTimeShift s p shiftTicks
  let s ← pollResolution s p
  let s ← pollSize s p
  let s := pollMute s p
  let s ← pollTempo s p
  let s ← pollTempoMode s p
  let s ← pollTransportMode s p
  pollHostPosition s p posTick

/-- The handling of the atom input port in `run`: `updatePosAtom` for each time
position object of the sequence, in order. -/
def updatePosAtoms : MidiMetLV2 → List PositionAtom → Except Fault MidiMetLV2
  | s, [] => .ok s
  | s, obj :: objs =>
    match updatePosAtom s obj with
    | .error e => .error e
    | .ok s => updatePosAtoms s objs

/-- The method `MidiMetLV2::run(nframes)`: the output sequence is started, the
ports are polled, the time position objects of the atom input are handled and
the render loop runs.  `timeshift_ticks` is the constant of line 206 and
`derivedTick f` the derived tick of sample `f`, both floating-point values. -/
def run (s : MidiMetLV2) (nframes : Nat) (timeshift_ticks : Int) (p : Ports) (shiftTicks : Int)
    (posTick : Nat) (objs : List PositionAtom) (derivedTick : Nat → Nat) :
    Except Fault MidiMetLV2 :=
  let s : MidiMetLV2 := { s with events := [] }
  match updateParams s p shiftTicks posTick with
  | .error e => .error e
  | .ok s =>
    match updatePosAtoms s objs with
    | .error e => .error e
    | .ok s => runFrom timeshift_ticks derivedTick nframes 0 s

/-- Lines 231 and 232 of `run`, the tick derived from the frame counter.  The
floating-point part is the argument `ticksAt`: `ticksAt x c` is the `uint64_t`
value of `x * tempo / 60 / sampleRate + c` for the `uint64_t` values
`x = (curFrame - transportFramesDelta) * TPQN` and `c = tempoChangeTick`. -/
def deriveTick (ticksAt : Nat → Nat → Nat) (s : MidiMetLV2) : Nat :=
  ticksAt
    (toU64 ((toU64 ((s.curFrame : Int) - (s.transportFramesDelta : Int)) : Int) * TPQN))
    s.tempoChangeTick

end MidiMetLV2

/-- The fresh plugin at 48 kHz in tempo-from-host mode (internal transport). -/
def tempoFromHostMode : MidiMetLV2 := MidiMetLV2.new 28800 0 true

/-- The fresh plugin at 48 kHz after host transport has been enabled:
`updateParams` has set `hostTransport` and `tempoFromHost`, and `initTransport`
has stopped the transport. -/
def hostTransportMode : MidiMetLV2 :=
  { MidiMetLV2.new 28800 0 false with
    hostTransport := true, tempoFromHost := true, transportSpeed := 0 }

/-- Port values that agree with the fresh plugin except for the velocity 100,
a note length slider of 1 (750 ticks) and the output channel 5. -/
def channelFive : Ports :=
  { VELOCITY := 100, NOTELENGTH := 1, RESOLUTION := 0, SIZE := 3, CH_OUT := 5, MUTE := false,
    TRANSPORT_MODE := false, TEMPO_MODE := false, TEMPO := 120, HOST_TEMPO := 120,
    HOST_POSITION := 0, HOST_SPEED := 0, TIMESHIFT := 0 }

/-- The fresh plugin at 48 kHz after `updateResolution(16)` and
`updateTimeShift(-100)`: a step of 3000 ticks and, at the tempo 120, a time
shift of -9600 ticks. -/
def reanchorStart : MidiMetLV2 :=
  { MidiMetLV2.new 28800 0 false with
    toMidiMet := { MidiMet.new 0 with res := 16, nPoints := 64, timeshift := -100 } }

/-- The fresh sequencer with the frame pointer at 1 and the cursor at -100000,
a tick below zero. -/
def negativeCursor : MidiMet := { MidiMet.new (-100000) with framePtr := 1 }

/-- The fresh sequencer after `updateResolution(7)` and `updateSize(1)`: seven
pattern points, a step of `48000 / 7 = 6857` ticks. -/
def sevenPoints : MidiMet := { MidiMet.new 0 with res := 7, size := 1, nPoints := 7 }

/-! ## Lemmas -/

theorem mem_seqResValues_bounds {r : Int} (h : r ∈ seqResValues) : 1 ≤ r ∧ r ≤ 16 := by
  simp only [seqResValues, List.mem_cons, List.mem_singleton, List.mem_nil_iff, or_false] at h
  omega

theorem mem_seqSizeValues_bounds {s : Int} (h : s ∈ seqSizeValues) : 1 ≤ s ∧ s ≤ 128 := by
  simp only [seqSizeValues, List.mem_cons, List.mem_singleton, List.mem_nil_iff, or_false] at h
  omega

theorem tdiv_TPQN_pos {r : Int} (h1 : 0 < r) (h2 : r ≤ 48000) : 0 < TPQN.tdiv r := by
  unfold TPQN
  rw [Int.tdiv_eq_ediv (by norm_num) h1.le]
  have : 1 ≤ (48000 : Int) / r := by
    apply Int.le_ediv_of_mul_le h1; omega
  omega

theorem valid_mul_bounds {r s : Int} (hr : r ∈ seqResValues) (hs : s ∈ seqSizeValues) :
    0 < r * s ∧ r * s ≤ 2048 := by
  obtain ⟨hr1, hr2⟩ := mem_seqResValues_bounds hr
  obtain ⟨hs1, hs2⟩ := mem_seqSizeValues_bounds hs
  constructor
  · positivity
  · nlinarith

namespace MidiMet

/-- The value `getNextFrame` returns whenever none of its divisions is by zero. -/
theorem getNextFrame_eq (m : MidiMet) (tick : Int) (hres : m.res ≠ 0)
    (hsz : m.res * m.size ≠ 0) (hstep : TPQN.tdiv m.res ≠ 0) :
    m.getNextFrame tick = .ok
      { m with
        framePtr := (m.framePtr + 1).tmod (m.res * m.size),
        nextTick :=
          (if ((m.framePtr + 1).tmod (m.res * m.size)).tmod 2 = 0 then
            (if m.nextTick < tick - TPQN.tdiv m.res then tick else m.nextTick).tdiv
              (TPQN.tdiv m.res) * TPQN.tdiv m.res
          else (if m.nextTick < tick - TPQN.tdiv m.res then tick else m.nextTick))
            + TPQN.tdiv m.res,
        outFrame0 :=
          { data := if m.framePtr = 0 then m.midiNoteKey + 12 else m.midiNoteKey,
            value := 0,
            tick :=
              if ((m.framePtr + 1).tmod (m.res * m.size)).tmod 2 = 0 then
                (if m.nextTick < tick - TPQN.tdiv m.res then tick else m.nextTick).tdiv
                  (TPQN.tdiv m.res) * TPQN.tdiv m.res
              else (if m.nextTick < tick - TPQN.tdiv m.res then tick else m.nextTick),
            muted := false },
        outFrame1 :=
          { data := if m.framePtr = 0 then m.midiNoteKey + 12 else m.midiNoteKey,
            value := 0,
            tick :=
              (if ((m.framePtr + 1).tmod (m.res * m.size)).tmod 2 = 0 then
                (if m.nextTick < tick - TPQN.tdiv m.res then tick else m.nextTick).tdiv
                  (TPQN.tdiv m.res) * TPQN.tdiv m.res
              else (if m.nextTick < tick - TPQN.tdiv m.res then tick else m.nextTick))
                + TPQN.tdiv m.res,
            muted := false } } := by
  unfold getNextFrame
  simp only [if_neg hres, if_neg hsz, hstep, and_false, if_false]
  by_cases h0 : m.framePtr = 0 <;> simp [h0]

/-- With a valid resolution and size no division of `getNextFrame` is by zero. -/
theorem valid_defined (m : MidiMet) (hv : m.Valid) :
    m.res ≠ 0 ∧ m.res * m.size ≠ 0 ∧ TPQN.tdiv m.res ≠ 0 := by
  obtain ⟨hr, hs⟩ := hv
  have hb := mem_seqResValues_bounds hr
  have hm := valid_mul_bounds hr hs
  have hp : 0 < TPQN.tdiv m.res := tdiv_TPQN_pos (by omega) (by omega)
  refine ⟨by omega, by omega, by omega⟩

/-- Field by field, the state `getNextFrame` returns whenever none of its
divisions is by zero. -/
theorem getNextFrame_fields (m : MidiMet) (tick : Int) (hres : m.res ≠ 0)
    (hsz : m.res * m.size ≠ 0) (hstep : TPQN.tdiv m.res ≠ 0) :
    ∃ m1, m.getNextFrame tick = .ok m1 ∧
      m1.res = m.res ∧ m1.size = m.size ∧ m1.nPoints = m.nPoints ∧
      m1.midiNoteKey = m.midiNoteKey ∧ m1.vel = m.vel ∧ m1.notelength = m.notelength ∧
      m1.channelOut = m.channelOut ∧ m1.isMuted = m.isMuted ∧
      m1.framePtr = (m.framePtr + 1).tmod (m.res * m.size) ∧
      m1.nextTick = m.emittedTick tick + TPQN.tdiv m.res ∧
      m1.outFrame0.tick = m.emittedTick tick ∧
      m1.outFrame0.data = (if m.framePtr = 0 then m.midiNoteKey + 12 else m.midiNoteKey) ∧
      m1.outFrame0.muted = false ∧
      m1.outFrame1.tick = m.emittedTick tick + TPQN.tdiv m.res :=
  ⟨_, getNextFrame_eq m tick hres hsz hstep, rfl, rfl, rfl, rfl, rfl, rfl, rfl, rfl, rfl, rfl,
    rfl, rfl, rfl, rfl⟩

end MidiMet

theorem toU64_of_nonneg_lt {x : Int} (h0 : 0 ≤ x) (h1 : x < 18446744073709551616) :
    (toU64 x : Int) = x := by
  unfold toU64; omega

theorem toI32_of_nonneg_lt {x : Int} (h0 : 0 ≤ x) (h1 : x < 2147483648) : toI32 x = x := by
  unfold toI32; omega

namespace MidiMet

theorem resizeAll_fields (m : MidiMet) (hne : m.res * m.size ≠ 0) :
    ∃ m1, m.resizeAll = .ok m1 ∧ m1.res = m.res ∧ m1.size = m.size ∧
      m1.midiNoteKey = m.midiNoteKey ∧ m1.nPoints = m.res * m.size ∧
      m1.framePtr = m.framePtr.tmod (m.res * m.size) ∧ m1.nextTick = m.nextTick := by
  refine ⟨{ m with framePtr := m.framePtr.tmod (m.res * m.size), nPoints := m.res * m.size },
    ?_, rfl, rfl, rfl, rfl, rfl, rfl⟩
  simp [resizeAll, hne]

theorem resizeAll_inv (m : MidiMet) (hv : m.Valid) (hfp : 0 ≤ m.framePtr) :
    ∃ m1, m.resizeAll = .ok m1 ∧ m1.Inv ∧ m1.res = m.res ∧ m1.size = m.size := by
  have hm := valid_mul_bounds hv.1 hv.2
  have hne : m.res * m.size ≠ 0 := by omega
  refine ⟨{ m with framePtr := m.framePtr.tmod (m.res * m.size), nPoints := m.res * m.size },
    ?_, ?_, rfl, rfl⟩
  · simp [resizeAll, hne]
  · exact ⟨hv, rfl, hm.1, Int.tmod_nonneg _ hfp, Int.tmod_lt_of_pos _ hm.1⟩

theorem getNextFrame_inv (m : MidiMet) (tick : Int) (hi : m.Inv) :
    ∃ m1, m.getNextFrame tick = .ok m1 ∧ m1.Inv ∧
      m1.framePtr = (m.framePtr + 1) % m.nPoints := by
  obtain ⟨hv, hn, hpos, hf0, hf1⟩ := hi
  obtain ⟨h1, h2, h3⟩ := valid_defined m hv
  refine ⟨_, getNextFrame_eq m tick h1 h2 h3, ?_, ?_⟩
  · refine ⟨hv, hn, hpos, ?_, ?_⟩
    · exact Int.tmod_nonneg _ (by omega)
    · show (m.framePtr + 1).tmod (m.res * m.size) < m.nPoints
      rw [← hn]; exact Int.tmod_lt_of_pos _ hpos
  · show (m.framePtr + 1).tmod (m.res * m.size) = (m.framePtr + 1) % m.nPoints
    rw [← hn, Int.tmod_eq_emod (by omega) hpos.le]

theorem inv_of_fields (m m1 : MidiMet) (hi : m.Inv) (hres : m1.res = m.res)
    (hsize : m1.size = m.size) (hn : m1.nPoints = m.nPoints) (h0 : 0 ≤ m1.framePtr)
    (h1 : m1.framePtr < m.nPoints) : m1.Inv := by
  obtain ⟨hv, hn1, hpos, -, -⟩ := hi
  refine ⟨?_, ?_, ?_, h0, ?_⟩
  · unfold Valid; rw [hres, hsize]; exact hv
  · rw [hn, hres, hsize]; exact hn1
  · rw [hn]; exact hpos
  · rw [hn]; exact h1

/-- The value `setNextTick` returns when `nPoints` is not zero; the new frame
pointer is named `pos` as in the source. -/
theorem setNextTick_eq (m : MidiMet) (tick : Nat) (hne : toU64 m.nPoints ≠ 0) :
    ∃ pos : Int,
      pos = toI32 (((toU64 ((tick : Int) * (toU64 m.res : Int)) / toU64 TPQN)
        % toU64 m.nPoints : Nat) : Int) ∧
      m.setNextTick tick = .ok { setFramePtr m pos with nextTick := toI64 tick } :=
  ⟨_, rfl, by simp only [setNextTick, if_neg hne]⟩

theorem setNextTick_inv (m : MidiMet) (tick : Nat) (hi : m.Inv) :
    ∃ m1, m.setNextTick tick = .ok m1 ∧ m1.Inv := by
  obtain ⟨hv, hn, hpos, hf0, hf1⟩ := id hi
  have hm := valid_mul_bounds hv.1 hv.2
  have hN : (toU64 m.nPoints : Int) = m.nPoints := toU64_of_nonneg_lt hpos.le (by omega)
  have hne : toU64 m.nPoints ≠ 0 := by
    intro h; rw [h] at hN; simp at hN; omega
  obtain ⟨pos, hp, heq⟩ := setNextTick_eq m tick hne
  generalize toU64 ((tick : Int) * (toU64 m.res : Int)) / toU64 TPQN = x at hp
  have hlt : x % toU64 m.nPoints < toU64 m.nPoints := Nat.mod_lt _ (Nat.pos_of_ne_zero hne)
  have hlt2 := Int.ofNat_lt.mpr hlt
  rw [hN] at hlt2
  rw [toI32_of_nonneg_lt (Int.natCast_nonneg _) (by omega)] at hp
  refine ⟨_, heq, inv_of_fields m _ hi rfl rfl rfl ?_ ?_⟩
  · show 0 ≤ pos
    rw [hp]; exact Int.natCast_nonneg _
  · show pos < m.nPoints
    rw [hp]; exact hlt2

theorem call_config (m : MidiMet) (c : Call) (hv : m.Valid) (hfp : 0 ≤ m.framePtr)
    (hc : c.isConfig) (ha : c.admissible) : ∃ m1, m.call c = .ok m1 ∧ m1.Inv := by
  cases c with
  | updateResolution val =>
    obtain ⟨m1, h1, h2, -, -⟩ := resizeAll_inv { m with res := val } ⟨ha, hv.2⟩ hfp
    exact ⟨m1, h1, h2⟩
  | updateSize val =>
    obtain ⟨m1, h1, h2, -, -⟩ := resizeAll_inv { m with size := val } ⟨hv.1, ha⟩ hfp
    exact ⟨m1, h1, h2⟩
  | setNextTick tick => exact absurd hc (by simp [Call.isConfig])
  | getNextFrame tick => exact absurd hc (by simp [Call.isConfig])

theorem call_inv (m : MidiMet) (c : Call) (hi : m.Inv) (ha : c.admissible) :
    ∃ m1, m.call c = .ok m1 ∧ m1.Inv := by
  cases c with
  | updateResolution val => exact call_config m _ hi.1 hi.2.2.2.1 trivial ha
  | updateSize val => exact call_config m _ hi.1 hi.2.2.2.1 trivial ha
  | setNextTick tick => exact setNextTick_inv m tick hi
  | getNextFrame tick =>
    obtain ⟨m1, h1, h2, -⟩ := getNextFrame_inv m tick hi
    exact ⟨m1, h1, h2⟩

theorem calls_inv (cs : List Call) : ∀ (m : MidiMet), m.Inv → (∀ c ∈ cs, c.admissible) →
    ∃ m1, m.calls cs = .ok m1 ∧ m1.Inv := by
  induction cs with
  | nil => intro m hi _; exact ⟨m, rfl, hi⟩
  | cons c cs ih =>
    intro m hi ha
    obtain ⟨m1, h1, h2⟩ := call_inv m c hi (ha c (List.mem_cons_self _ _))
    obtain ⟨m2, h3, h4⟩ := ih m1 h2 (fun d hd => ha d (List.mem_cons_of_mem _ hd))
    exact ⟨m2, by simp only [calls, h1, h3], h4⟩

/-- After `k` clicks from a state on the grid origin (`framePtr = 0`,
`nextTick = 0`) the pattern position is `k mod (res * size)`, the cursor is
`k * (TPQN / res)`, and the last event emitted is the one of slot `k - 1`. -/
theorem clicks_grid (m : MidiMet) (hv : m.Valid) (hf : m.framePtr = 0) (ht : m.nextTick = 0)
    (k : Nat) :
    ∃ m1, m.clicks k = .ok m1 ∧ m1.res = m.res ∧ m1.size = m.size ∧
      m1.midiNoteKey = m.midiNoteKey ∧
      m1.framePtr = (k : Int) % (m.res * m.size) ∧
      m1.nextTick = (k : Int) * TPQN.tdiv m.res ∧
      (∀ j : Nat, k = j + 1 →
        m1.outFrame0.tick = (j : Int) * TPQN.tdiv m.res ∧
        m1.outFrame0.data =
          if (j : Int) % (m.res * m.size) = 0 then m.midiNoteKey + 12 else m.midiNoteKey) := by
  induction k with
  | zero =>
    refine ⟨m, rfl, rfl, rfl, rfl, ?_, ?_, ?_⟩
    · simpa using hf
    · simpa using ht
    · intro j hj; omega
  | succ k ih =>
    obtain ⟨m1, h1, hres, hsize, hkey, hfp, hnt, -⟩ := ih
    have hv1 : m1.Valid := by unfold Valid; rw [hres, hsize]; exact hv
    obtain ⟨d1, d2, d3⟩ := valid_defined m1 hv1
    have hm := valid_mul_bounds hv.1 hv.2
    have hb := mem_seqResValues_bounds hv.1
    have hstep : 0 < TPQN.tdiv m.res := tdiv_TPQN_pos (by omega) (by omega)
    have hq : ((k : Int) * TPQN.tdiv m.res).tdiv (TPQN.tdiv m.res) * TPQN.tdiv m.res
        = (k : Int) * TPQN.tdiv m.res := by
      rw [Int.tdiv_eq_ediv (by positivity) hstep.le, Int.mul_ediv_cancel _ (by omega)]
    have hsnap : ¬ ((k : Int) * TPQN.tdiv m.res
        < (k : Int) * TPQN.tdiv m.res - TPQN.tdiv m.res) := by omega
    have hemit : m1.emittedTick m1.nextTick = (k : Int) * TPQN.tdiv m.res := by
      unfold emittedTick
      rw [hnt, hres]
      simp only [hsnap, if_false, hq, ite_self]
    obtain ⟨m2, hcall, gres, gsize, -, gkey, -, -, -, -, gfp, gnt, gtick, gdata, -, -⟩ :=
      getNextFrame_fields m1 m1.nextTick d1 d2 d3
    refine ⟨m2, by simp only [clicks, h1]; exact hcall, by rw [gres, hres], by rw [gsize, hsize],
      by rw [gkey, hkey], ?_, ?_, ?_⟩
    · rw [gfp, hres, hsize, hfp]
      rw [Int.tmod_eq_emod
        (by have := Int.emod_nonneg (k : Int) (show m.res * m.size ≠ 0 by omega); omega)
        hm.1.le]
      rw [Int.emod_add_emod]
      push_cast; rfl
    · rw [gnt, hemit, hres]
      push_cast; ring
    · intro j hj
      have hjk : j = k := by omega
      subst hjk
      exact ⟨by rw [gtick, hemit], by rw [gdata, hfp, hkey]⟩

end MidiMet

namespace MidiMetLV2

/-- The scan keeps the first index holding the least tick seen so far. -/
theorem scanLoop_spec (tq : Nat → Nat) (n : Nat) : ∀ (l1 idx t : Nat),
    t = tq idx → (idx < l1 ∨ idx = 0) → (∀ i < l1, t ≤ tq i) → (∀ i < idx, t < tq i) →
    (scanLoop tq n l1 idx t).2 = tq (scanLoop tq n l1 idx t).1 ∧
    ((scanLoop tq n l1 idx t).1 < l1 + n ∨ (scanLoop tq n l1 idx t).1 = 0) ∧
    (∀ i < l1 + n, (scanLoop tq n l1 idx t).2 ≤ tq i) ∧
    (∀ i < (scanLoop tq n l1 idx t).1, (scanLoop tq n l1 idx t).2 < tq i) := by
  induction n with
  | zero =>
    intro l1 idx t h1 h2 h3 h4
    simp only [scanLoop, Nat.add_zero]
    exact ⟨h1, h2, h3, h4⟩
  | succ n ih =>
    intro l1 idx t h1 h2 h3 h4
    simp only [scanLoop]
    by_cases hgt : t > tq l1
    · simp only [hgt, if_true]
      have := ih (l1 + 1) l1 (tq l1) rfl (Or.inl (Nat.lt_succ_self _))
        (fun i hi => by
          rcases Nat.lt_succ_iff_lt_or_eq.mp hi with h | h
          · have := h3 i h; omega
          · rw [h])
        (fun i hi => by have := h3 i hi; omega)
      rw [show l1 + (n + 1) = l1 + 1 + n by omega]
      exact this
    · simp only [hgt, if_false]
      have := ih (l1 + 1) idx t h1 (by omega)
        (fun i hi => by
          rcases Nat.lt_succ_iff_lt_or_eq.mp hi with h | h
          · exact h3 i h
          · rw [h]; omega)
        h4
      rw [show l1 + (n + 1) = l1 + 1 + n by omega]
      exact this

/-- The scan of a non-empty queue: the index found is inside the queue, holds
the least end tick, and is the lowest index holding it. -/
theorem scan_min (tq : Nat → Nat) (n : Nat) (hn : 0 < n) :
    (scanLoop tq n 0 0 (tq 0)).2 = tq (scanLoop tq n 0 0 (tq 0)).1 ∧
    (scanLoop tq n 0 0 (tq 0)).1 < n ∧
    (∀ i < n, tq (scanLoop tq n 0 0 (tq 0)).1 ≤ tq i) ∧
    (∀ i < (scanLoop tq n 0 0 (tq 0)).1, tq (scanLoop tq n 0 0 (tq 0)).1 < tq i) := by
  obtain ⟨h1, h2, h3, h4⟩ := scanLoop_spec tq n 0 0 (tq 0) rfl (Or.inr rfl)
    (fun i hi => absurd hi (Nat.not_lt_zero _)) (fun i hi => absurd hi (Nat.not_lt_zero _))
  refine ⟨h1, by omega, ?_, ?_⟩
  · intro i hi; rw [← h1]; exact h3 i (by omega)
  · intro i hi; rw [← h1]; exact h4 i hi

/-- The shift moves the elements `l4 + 1 .. l4 + n` of both arrays down by one
and leaves every other element as it was. -/
theorem shiftLoop_spec (n : Nat) : ∀ (l4 : Nat) (q tq : Nat → Nat) (i : Nat),
    (shiftLoop n l4 (q, tq)).1 i = (if l4 ≤ i ∧ i < l4 + n then q (i + 1) else q i) ∧
    (shiftLoop n l4 (q, tq)).2 i = (if l4 ≤ i ∧ i < l4 + n then tq (i + 1) else tq i) := by
  induction n with
  | zero =>
    intro l4 q tq i
    have : ¬ (l4 ≤ i ∧ i < l4 + 0) := by omega
    simp only [shiftLoop, this, if_false, and_self]
  | succ n ih =>
    intro l4 q tq i
    simp only [shiftLoop]
    obtain ⟨h1, h2⟩ := ih (l4 + 1) (Function.update q l4 (q (l4 + 1)))
      (Function.update tq l4 (tq (l4 + 1))) i
    rw [h1, h2]
    by_cases hin : l4 + 1 ≤ i ∧ i < l4 + 1 + n
    · have hin2 : l4 ≤ i ∧ i < l4 + (n + 1) := by omega
      have hne : i + 1 ≠ l4 := by omega
      simp only [hin, hin2, and_self, if_true, Function.update_noteq hne]
    · simp only [hin, if_false]
      by_cases heq : i = l4
      · subst heq
        have hin2 : i ≤ i ∧ i < i + (n + 1) := by omega
        simp only [hin2, and_self, if_true, Function.update_same]
      · have hin2 : ¬ (l4 ≤ i ∧ i < l4 + (n + 1)) := by omega
        simp only [hin2, if_false, Function.update_noteq heq, and_self]

/-- Erasing index `idx` from the list of the first `n + 1` values of `g` gives
the first `n` values of the map that skips `idx`. -/
theorem map_range_eraseIdx {α : Type} (g g1 : Nat → α) (n idx : Nat) (hidx : idx ≤ n)
    (hg : ∀ i < n, g1 i = if idx ≤ i then g (i + 1) else g i) :
    (List.range n).map g1 = ((List.range (n + 1)).map g).eraseIdx idx := by
  apply List.ext_getElem
  · rw [List.length_eraseIdx]
    simp only [List.length_map, List.length_range]
    rw [if_pos (by omega)]; rfl
  · intro i h1 h2
    rw [List.getElem_eraseIdx]
    simp only [List.length_map, List.length_range] at h1
    simp only [List.getElem_map, List.getElem_range]
    rw [hg i h1]
    by_cases h : i < idx
    · simp only [h, dif_pos, if_neg (show ¬ idx ≤ i by omega)]
    · simp only [h, dif_neg, if_pos (show idx ≤ i by omega), not_false_eq_true]

end MidiMetLV2

theorem toU8_toI32 (x : Nat) : toU8 (toI32 (x : Int)) = x % 256 := by
  unfold toU8 toI32; omega

theorem toU32_mod_256 (d : Int) : toU32 d % 256 = toU8 d := by
  unfold toU8 toU32; omega

theorem toU8_on_ne_off (c : Int) : toU8 (0x90 + c) ≠ toU8 (0x80 + c) := by
  unfold toU8; omega

theorem multiset_eraseIdx {α : Type} (l : List α) : ∀ (idx : Nat) (h : idx < l.length),
    (l : Multiset α) = l[idx] ::ₘ ((l.eraseIdx idx : List α) : Multiset α) := by
  induction l with
  | nil => intro idx h; exact absurd h (Nat.not_lt_zero _)
  | cons a t ih =>
    intro idx h
    cases idx with
    | zero => rfl
    | succ j =>
      have hj : j < t.length := by simpa using h
      have := ih j hj
      simp only [List.eraseIdx_cons_succ, List.getElem_cons_succ]
      rw [← Multiset.cons_coe, ← Multiset.cons_coe, this, Multiset.cons_swap]

namespace MidiMet

/-- What a returning `getNextFrame` leaves unchanged, and the event it emits. -/
theorem getNextFrame_ok_inv (m m1 : MidiMet) (tick : Int) (h : m.getNextFrame tick = .ok m1) :
    m1.channelOut = m.channelOut ∧ m1.vel = m.vel ∧ m1.isMuted = m.isMuted ∧
    m1.notelength = m.notelength ∧ m1.res = m.res ∧ m1.size = m.size ∧
    m1.nPoints = m.nPoints ∧ m1.midiNoteKey = m.midiNoteKey ∧ m1.outFrame0.muted = false ∧
    m1.outFrame0.data = (if m.framePtr = 0 then m.midiNoteKey + 12 else m.midiNoteKey) := by
  unfold getNextFrame at h
  by_cases h1 : m.res = 0
  · simp [h1] at h
  · by_cases h2 : m.res * m.size = 0
    · simp [h1, h2] at h
    · by_cases h3 : ((m.framePtr + 1).tmod (m.res * m.size)).tmod 2 = 0 ∧ TPQN.tdiv m.res = 0
      · simp [h1, h2, h3] at h
      · simp only [if_neg h1, if_neg h2, if_neg h3] at h
        injection h with h
        rw [← h]
        by_cases h0 : m.framePtr = 0 <;> simp [h0]

end MidiMet

namespace MidiMetLV2

theorem noteOffPoll_idle (s : MidiMetLV2) (f : Nat) (hb : s.bufPtr ≤ JQ_BUFSZ)
    (h : ¬ s.pollFires) : noteOffPoll s f = .ok s := by
  unfold pollFires minTick at h
  simp only [noteOffPoll, if_neg (not_lt.mpr hb), if_neg h]

/-- The state the poll returns when it fires, field by field. -/
theorem noteOffPoll_fire (s : MidiMetLV2) (f : Nat) (hb : s.bufPtr ≤ JQ_BUFSZ)
    (h : s.pollFires) :
    ∃ s1, noteOffPoll s f = .ok s1 ∧ s1.toMidiMet = s.toMidiMet ∧
      s1.transportSpeed = s.transportSpeed ∧ s1.hostTransport = s.hostTransport ∧
      s1.curTick = s.curTick ∧ s1.curFrame = s.curFrame ∧ s1.soundOnFrame = s.soundOnFrame ∧
      s1.cursorPos = s.cursorPos ∧ s1.wave_len = s.wave_len ∧
      s1.bufPtr = s.bufPtr - 1 ∧
      s1.events = s.events ++
        [{ frame := f, status := toU8 (0x80 + s.channelOut),
           note := s.evQueue s.minIdx % 256, velocity := 127 }] ∧
      (∀ i, s1.evQueue i =
        if s.minIdx ≤ i ∧ i < s.minIdx + (s.bufPtr - 1 - s.minIdx).toNat
        then s.evQueue (i + 1) else s.evQueue i) ∧
      (∀ i, s1.evTickQueue i =
        if s.minIdx ≤ i ∧ i < s.minIdx + (s.bufPtr - 1 - s.minIdx).toNat
        then s.evTickQueue (i + 1) else s.evTickQueue i) := by
  have h2 := h
  unfold pollFires minTick at h2
  have hEq : noteOffPoll s f = .ok (forgeMidiEvent
      { s with evQueue := (shiftLoop (s.bufPtr - 1 - s.minIdx).toNat s.minIdx
                 (s.evQueue, s.evTickQueue)).1,
               evTickQueue := (shiftLoop (s.bufPtr - 1 - s.minIdx).toNat s.minIdx
                 (s.evQueue, s.evTickQueue)).2,
               bufPtr := s.bufPtr - 1 }
      f (toU8 (0x80 + s.channelOut)) (toU8 (toI32 (s.evQueue s.minIdx))) 127) := by
    simp only [noteOffPoll, if_neg (not_lt.mpr hb), if_pos h2, minIdx]
  refine ⟨_, hEq, rfl, rfl, rfl, rfl, rfl, rfl, rfl, rfl, rfl, ?_, ?_, ?_⟩
  · show s.events ++ [_] = _
    rw [toU8_toI32]
  · intro i
    exact (shiftLoop_spec _ s.minIdx s.evQueue s.evTickQueue i).1
  · intro i
    exact (shiftLoop_spec _ s.minIdx s.evQueue s.evTickQueue i).2

/-- When the poll fires on a queue within bounds, the pending list afterwards
is the previous one with the entry at `minIdx` erased. -/
theorem pending_after_fire (s s1 : MidiMetLV2) (h0 : 0 < s.bufPtr)
    (hidx : s.minIdx < s.bufPtr.toNat)
    (hb : s1.bufPtr = s.bufPtr - 1)
    (hq : ∀ i, s1.evQueue i =
      if s.minIdx ≤ i ∧ i < s.minIdx + (s.bufPtr - 1 - s.minIdx).toNat
      then s.evQueue (i + 1) else s.evQueue i)
    (htq : ∀ i, s1.evTickQueue i =
      if s.minIdx ≤ i ∧ i < s.minIdx + (s.bufPtr - 1 - s.minIdx).toNat
      then s.evTickQueue (i + 1) else s.evTickQueue i) :
    s1.pending = s.pending.eraseIdx s.minIdx := by
  unfold pending
  obtain ⟨n, hn⟩ : ∃ n : Nat, s.bufPtr.toNat = n + 1 := ⟨s.bufPtr.toNat - 1, by omega⟩
  have hn1 : s1.bufPtr.toNat = n := by omega
  rw [hn, hn1]
  apply map_range_eraseIdx _ _ n s.minIdx (by omega)
  intro i hi
  have hrange : (s.minIdx ≤ i ∧ i < s.minIdx + (s.bufPtr - 1 - s.minIdx).toNat) ↔ s.minIdx ≤ i := by
    constructor
    · exact fun h => h.1
    · intro h; exact ⟨h, by omega⟩
  rw [hq i, htq i]
  by_cases hle : s.minIdx ≤ i
  · rw [if_pos (hrange.mpr hle), if_pos (hrange.mpr hle), if_pos hle]
  · rw [if_neg (fun h => hle (hrange.mp h)), if_neg (fun h => hle (hrange.mp h)), if_neg hle]

/-- The audio part of a sample touches neither the sequencer, the transport
flags, the queue nor the event sequence. -/
theorem audioPart_frame (s : MidiMetLV2) (f : Nat) :
    (audioPart s f).toMidiMet = s.toMidiMet ∧
    (audioPart s f).transportSpeed = s.transportSpeed ∧
    (audioPart s f).hostTransport = s.hostTransport ∧
    (audioPart s f).bufPtr = s.bufPtr ∧ (audioPart s f).evQueue = s.evQueue ∧
    (audioPart s f).evTickQueue = s.evTickQueue ∧ (audioPart s f).events = s.events := by
  unfold audioPart
  simp only
  split_ifs <;> exact ⟨rfl, rfl, rfl, rfl, rfl, rfl, rfl⟩

theorem runSample_def (timeshift_ticks : Int) (s : MidiMetLV2) (f derivedTick : Nat) :
    runSample timeshift_ticks s f derivedTick =
      match noteOnPart (tickState timeshift_ticks s derivedTick) f with
      | .error e => .error e
      | .ok s1 =>
        match noteOffPoll s1 f with
        | .error e => .error e
        | .ok s2 => .ok (audioPart s2 f) := rfl

theorem runSample_ok (timeshift_ticks : Int) (s s1 s2 : MidiMetLV2) (f derivedTick : Nat)
    (h1 : noteOnPart (tickState timeshift_ticks s derivedTick) f = .ok s1)
    (h2 : noteOffPoll s1 f = .ok s2) :
    runSample timeshift_ticks s f derivedTick = .ok (audioPart s2 f) := by
  rw [runSample_def, h1]
  simp only [h2]

theorem runSample_ok_inv (timeshift_ticks : Int) (s s3 : MidiMetLV2) (f derivedTick : Nat)
    (h : runSample timeshift_ticks s f derivedTick = .ok s3) :
    ∃ s1 s2, noteOnPart (tickState timeshift_ticks s derivedTick) f = .ok s1 ∧
      noteOffPoll s1 f = .ok s2 ∧ s3 = audioPart s2 f := by
  rw [runSample_def] at h
  cases h1 : noteOnPart (tickState timeshift_ticks s derivedTick) f with
  | error e => rw [h1] at h; cases h
  | ok s1 =>
    rw [h1] at h
    cases h2 : noteOffPoll s1 f with
    | error e => simp only [h2] at h; cases h
    | ok s2 =>
      simp only [h2] at h
      injection h with h
      exact ⟨s1, s2, rfl, h2, h.symm⟩

theorem noteOnPart_idle (s : MidiMetLV2) (f : Nat) (h : ¬ s.clickDue) :
    noteOnPart s f = .ok s := by
  unfold clickDue at h
  simp only [noteOnPart, if_neg h]

/-- The note-on part when the click is due, the sequencer returns `m` and the
output is not muted: a fault when `bufPtr` is outside the array, otherwise the
state named field by field. -/
theorem noteOnPart_due (s : MidiMetLV2) (f : Nat) (m : MidiMet) (hdue : s.clickDue)
    (hg : s.toMidiMet.getNextFrame s.nextTick = .ok m) (hmute : s.isMuted = false) :
    ((s.bufPtr < 0 ∨ JQ_BUFSZ ≤ s.bufPtr) →
      noteOnPart s f = .error (.outOfBounds s.bufPtr)) ∧
    (0 ≤ s.bufPtr → s.bufPtr < JQ_BUFSZ →
      ∃ s1, noteOnPart s f = .ok s1 ∧ s1.toMidiMet = m ∧
        s1.transportSpeed = s.transportSpeed ∧ s1.hostTransport = s.hostTransport ∧
        s1.curTick = s.curTick ∧ s1.bufPtr = s.bufPtr + 1 ∧
        s1.events = s.events ++
          [{ frame := f, status := toU8 (0x90 + s.channelOut),
             note := toU8 m.outFrame0.data, velocity := toU8 s.vel }] ∧
        s1.evQueue = Function.update s.evQueue s.bufPtr.toNat (toU32 m.outFrame0.data) ∧
        s1.evTickQueue = Function.update s.evTickQueue s.bufPtr.toNat
          (toU64 ((s.curTick : Int) + (toU64 (s.notelength.tdiv 4) : Int)))) := by
  obtain ⟨i1, i2, i3, i4, -, -, -, -, i5, -⟩ := MidiMet.getNextFrame_ok_inv _ _ _ hg
  have hdue2 := hdue
  unfold clickDue at hdue2
  have hcond : (!m.outFrame0.muted && !m.isMuted) = true := by
    rw [i5, i3, hmute]; rfl
  constructor
  · intro hout
    simp only [noteOnPart, if_pos hdue2, hg, hcond, if_true, forgeMidiEvent, if_pos hout]
  · intro h0 h1
    have hin : ¬ (s.bufPtr < 0 ∨ JQ_BUFSZ ≤ s.bufPtr) := by omega
    have hEq : noteOnPart s f = .ok
        { s with toMidiMet := m,
                 events := s.events ++
                   [{ frame := f, status := toU8 (0x90 + m.channelOut),
                      note := toU8 m.outFrame0.data, velocity := toU8 m.vel }],
                 soundOnFrame := s.curFrame,
                 evTickQueue := Function.update s.evTickQueue s.bufPtr.toNat
                   (toU64 ((s.curTick : Int) + (toU64 (m.notelength.tdiv 4) : Int))),
                 evQueue := Function.update s.evQueue s.bufPtr.toNat (toU32 m.outFrame0.data),
                 bufPtr := s.bufPtr + 1,
                 cursorPos := m.framePtr } := by
      simp only [noteOnPart, if_pos hdue2, hg, hcond, if_true, forgeMidiEvent, if_neg hin,
        MidiMet.getFramePtr]
    refine ⟨_, hEq, rfl, rfl, rfl, rfl, rfl, ?_, rfl, ?_⟩
    · show s.events ++ [_] = _
      rw [i1, i2]
    · show Function.update s.evTickQueue s.bufPtr.toNat _ = _
      rw [i4]

/-- What a returning note-on part can have done: nothing to the queue and the
event sequence, or one note-on forged and its entry stored at index `bufPtr`,
which then lies inside the array. -/
theorem noteOnPart_ok_inv (s s1 : MidiMetLV2) (f : Nat) (h : noteOnPart s f = .ok s1) :
    s1.channelOut = s.channelOut ∧ s1.transportSpeed = s.transportSpeed ∧
    s1.hostTransport = s.hostTransport ∧ s1.curTick = s.curTick ∧
    ((s1.events = s.events ∧ s1.bufPtr = s.bufPtr ∧ s1.evQueue = s.evQueue ∧
        s1.evTickQueue = s.evTickQueue) ∨
      (0 ≤ s.bufPtr ∧ s.bufPtr < JQ_BUFSZ ∧ s.clickDue ∧ ∃ data : Int,
        s1.events = s.events ++
          [{ frame := f, status := toU8 (0x90 + s.channelOut),
             note := toU8 data, velocity := toU8 s.vel }] ∧
        s1.bufPtr = s.bufPtr + 1 ∧
        s1.evQueue = Function.update s.evQueue s.bufPtr.toNat (toU32 data) ∧
        s1.evTickQueue = Function.update s.evTickQueue s.bufPtr.toNat
          (toU64 ((s.curTick : Int) + (toU64 (s.notelength.tdiv 4) : Int))))) := by
  by_cases hdue : s.clickDue
  · cases hg : s.toMidiMet.getNextFrame s.nextTick with
    | error e =>
      unfold clickDue at hdue
      simp only [noteOnPart, if_pos hdue, hg] at h
      cases h
    | ok m =>
      obtain ⟨i1, i2, i3, i4, -, -, -, -, i5, -⟩ := MidiMet.getNextFrame_ok_inv _ _ _ hg
      by_cases hmute : s.isMuted = false
      · obtain ⟨hout, hin⟩ := noteOnPart_due s f m hdue hg hmute
        by_cases hb : s.bufPtr < 0 ∨ JQ_BUFSZ ≤ s.bufPtr
        · rw [hout hb] at h; cases h
        · obtain ⟨s2, e, j1, j2, j3, j4, j5, j6, j7, j8⟩ := hin (by omega) (by omega)
          rw [e] at h
          injection h with h
          subst h
          refine ⟨by show s2.toMidiMet.channelOut = _; rw [j1, i1], j2, j3, j4, Or.inr
            ⟨by omega, by omega, hdue, m.outFrame0.data, j6, j5, j7, j8⟩⟩
      · have hm : s.isMuted = true := by simpa using hmute
        have hcond : (!m.outFrame0.muted && !m.isMuted) = false := by
          rw [i5, i3, hm]; rfl
        have hdue2 := hdue
        unfold clickDue at hdue2
        have hEq : noteOnPart s f = .ok { s with toMidiMet := m, cursorPos := m.framePtr } := by
          simp only [noteOnPart, if_pos hdue2, hg, hcond, MidiMet.getFramePtr]
          rfl
        rw [hEq] at h
        injection h with h
        subst h
        exact ⟨i1, rfl, rfl, rfl, Or.inl ⟨rfl, rfl, rfl, rfl⟩⟩
  · rw [noteOnPart_idle s f hdue] at h
    injection h with h
    subst h
    exact ⟨rfl, rfl, rfl, rfl, Or.inl ⟨rfl, rfl, rfl, rfl⟩⟩

theorem noteOns_append (c : Int) (a b : List MidiEvent) :
    noteOns c (a ++ b) = noteOns c a ++ noteOns c b := by
  simp only [noteOns, List.filter_append, List.map_append]

theorem noteOffs_append (c : Int) (a b : List MidiEvent) :
    noteOffs c (a ++ b) = noteOffs c a ++ noteOffs c b := by
  simp only [noteOffs, List.filter_append, List.map_append]

theorem noteOns_on (c : Int) (f n v : Nat) :
    noteOns c [{ frame := f, status := toU8 (0x90 + c), note := n, velocity := v }] = [n] := by
  simp [noteOns]

theorem noteOffs_on (c : Int) (f n v : Nat) :
    noteOffs c [{ frame := f, status := toU8 (0x90 + c), note := n, velocity := v }] = [] := by
  simp [noteOffs, toU8_on_ne_off]

theorem noteOns_off (c : Int) (f n v : Nat) :
    noteOns c [{ frame := f, status := toU8 (0x80 + c), note := n, velocity := v }] = [] := by
  simp [noteOns, (toU8_on_ne_off c).symm]

theorem noteOffs_off (c : Int) (f n v : Nat) :
    noteOffs c [{ frame := f, status := toU8 (0x80 + c), note := n, velocity := v }] = [n] := by
  simp [noteOffs]

theorem pendingNotes_eq (s : MidiMetLV2) :
    s.pendingNotes =
      (((List.range s.bufPtr.toNat).map fun i => s.evQueue i % 256 : List Nat) : Multiset Nat) := by
  unfold pendingNotes pending
  rw [List.map_map]
  rfl

/-- Storing a note at index `bufPtr` and incrementing `bufPtr` adds that note
to the pending notes. -/
theorem pendingNotes_push (s s1 : MidiMetLV2) (v : Nat) (h0 : 0 ≤ s.bufPtr)
    (hb : s1.bufPtr = s.bufPtr + 1)
    (hq : s1.evQueue = Function.update s.evQueue s.bufPtr.toNat v) :
    s1.pendingNotes = s.pendingNotes + (([v % 256] : List Nat) : Multiset Nat) := by
  rw [pendingNotes_eq, pendingNotes_eq, Multiset.coe_add]
  have hn : s1.bufPtr.toNat = s.bufPtr.toNat + 1 := by omega
  rw [hn, List.range_succ, List.map_append, hq]
  congr 2
  · apply List.map_congr_left
    intro i hi
    have : i ≠ s.bufPtr.toNat := by
      have := List.mem_range.mp hi
      omega
    simp only [Function.update_noteq this]
  · simp only [List.map_cons, List.map_nil, Function.update_same]

/-- Erasing the entry at `idx` removes its note from the pending notes. -/
theorem pendingNotes_erase (s s1 : MidiMetLV2) (idx : Nat) (hidx : idx < s.bufPtr.toNat)
    (hp : s1.pending = s.pending.eraseIdx idx) :
    s.pendingNotes = s1.pendingNotes + (([s.evQueue idx % 256] : List Nat) : Multiset Nat) := by
  have hlen : idx < s.pending.length := by
    unfold pending; simpa using hidx
  have hm := multiset_eraseIdx s.pending idx hlen
  have hget : s.pending[idx] = (s.evQueue idx, s.evTickQueue idx) := by
    unfold pending
    simp only [List.getElem_map, List.getElem_range]
  unfold pendingNotes
  rw [hp, ← Multiset.map_coe, ← Multiset.map_coe, hm, Multiset.map_cons, hget]
  rw [← Multiset.singleton_add, add_comm]
  rfl

theorem noteOnPart_balance (s s1 : MidiMetLV2) (f : Nat) (h : noteOnPart s f = .ok s1)
    (h0 : 0 ≤ s.bufPtr) :
    s1.channelOut = s.channelOut ∧ 0 ≤ s1.bufPtr ∧
    ∃ new, s1.events = s.events ++ new ∧
      s1.pendingNotes = s.pendingNotes + ((noteOns s.channelOut new : List Nat) : Multiset Nat) ∧
      noteOffs s.channelOut new = [] := by
  obtain ⟨hc, -, -, -, hcase⟩ := noteOnPart_ok_inv s s1 f h
  rcases hcase with ⟨he, hb, hq, -⟩ | ⟨-, -, -, data, he, hb, hq, -⟩
  · refine ⟨hc, by omega, [], by rw [he, List.append_nil], ?_, rfl⟩
    rw [pendingNotes_eq, pendingNotes_eq, hb, hq]
    simp [noteOns]
  · refine ⟨hc, by omega, _, he, ?_, noteOffs_on _ _ _ _⟩
    rw [noteOns_on, pendingNotes_push s s1 _ h0 hb hq, toU32_mod_256]

theorem noteOffPoll_overflow (s : MidiMetLV2) (f : Nat) (h : JQ_BUFSZ < s.bufPtr) :
    noteOffPoll s f = .error (.outOfBounds JQ_BUFSZ) := by
  simp only [noteOffPoll, if_pos h]

theorem noteOffPoll_balance (s s2 : MidiMetLV2) (f : Nat) (h : noteOffPoll s f = .ok s2)
    (h0 : 0 ≤ s.bufPtr) :
    s2.channelOut = s.channelOut ∧ 0 ≤ s2.bufPtr ∧
    ∃ new, s2.events = s.events ++ new ∧
      s.pendingNotes = s2.pendingNotes + ((noteOffs s.channelOut new : List Nat) : Multiset Nat) ∧
      noteOns s.channelOut new = [] := by
  by_cases hb : s.bufPtr ≤ JQ_BUFSZ
  · by_cases hf : s.pollFires
    · have hpos : 0 < s.bufPtr := lt_of_le_of_ne h0 (Ne.symm hf.1)
      obtain ⟨-, m2, -, -⟩ := scan_min s.evTickQueue s.bufPtr.toNat (by omega)
      have hidx : s.minIdx < s.bufPtr.toNat := m2
      obtain ⟨s1, e, hm, -, -, -, -, -, -, -, hbp, hev, hq, htq⟩ := noteOffPoll_fire s f hb hf
      rw [e] at h
      injection h with h
      subst h
      have hp := pending_after_fire s s1 hpos hidx hbp hq htq
      have hc : s1.channelOut = s.channelOut := by
        show s1.toMidiMet.channelOut = _
        rw [hm]
      refine ⟨hc, by omega, _, hev, ?_, noteOns_off _ _ _ _⟩
      rw [noteOffs_off]
      exact pendingNotes_erase s s1 s.minIdx hidx hp
    · rw [noteOffPoll_idle s f hb hf] at h
      injection h with h
      subst h
      refine ⟨rfl, h0, [], by rw [List.append_nil], ?_, rfl⟩
      simp [noteOffs]
  · rw [noteOffPoll_overflow s f (by omega)] at h
    cases h

/-- One sample keeps the books: the pending notes before plus the note-ons
emitted equal the pending notes after plus the note-offs emitted. -/
theorem runSample_balance (ts : Int) (s s3 : MidiMetLV2) (f dt : Nat)
    (h : runSample ts s f dt = .ok s3) (h0 : 0 ≤ s.bufPtr) :
    s3.channelOut = s.channelOut ∧ 0 ≤ s3.bufPtr ∧
    ∃ new, s3.events = s.events ++ new ∧
      s.pendingNotes + ((noteOns s.channelOut new : List Nat) : Multiset Nat) =
        s3.pendingNotes + ((noteOffs s.channelOut new : List Nat) : Multiset Nat) := by
  obtain ⟨s1, s2, e1, e2, e3⟩ := runSample_ok_inv ts s s3 f dt h
  obtain ⟨c1, b1, new1, v1, p1, o1⟩ := noteOnPart_balance _ s1 f e1 h0
  obtain ⟨c2, b2, new2, v2, p2, o2⟩ := noteOffPoll_balance s1 s2 f e2 b1
  obtain ⟨a1, -, -, a4, a5, -, a7⟩ := audioPart_frame s2 f
  have hc0 : (tickState ts s dt).channelOut = s.channelOut := rfl
  have hp0 : (tickState ts s dt).pendingNotes = s.pendingNotes := rfl
  have he0 : (tickState ts s dt).events = s.events := rfl
  rw [hc0] at c1 p1 o1
  rw [hp0] at p1
  rw [he0] at v1
  rw [c1] at p2 o2
  have hp3 : s3.pendingNotes = s2.pendingNotes := by
    rw [pendingNotes_eq, pendingNotes_eq, e3, a4, a5]
  refine ⟨?_, ?_, new1 ++ new2, ?_, ?_⟩
  · rw [e3]
    show (audioPart s2 f).toMidiMet.channelOut = _
    rw [a1]
    exact c2.trans c1
  · rw [e3, a4]; exact b2
  · rw [e3, a7, v2, v1, List.append_assoc]
  · rw [noteOns_append, noteOffs_append, o1, o2, List.append_nil, List.nil_append, hp3, ← p1, p2]

theorem runFrom_succ_ok_inv (ts : Int) (dt : Nat → Nat) (n f : Nat) (s s3 : MidiMetLV2)
    (h : runFrom ts dt (n + 1) f s = .ok s3) :
    ∃ s1, runSample ts s f (dt f) = .ok s1 ∧ runFrom ts dt n (f + 1) s1 = .ok s3 := by
  cases h1 : runSample ts s f (dt f) with
  | error e => simp only [runFrom, h1] at h; cases h
  | ok s1 => simp only [runFrom, h1] at h; exact ⟨s1, rfl, h⟩

theorem runFrom_balance (ts : Int) (dt : Nat → Nat) (n : Nat) :
    ∀ (f : Nat) (s s3 : MidiMetLV2), runFrom ts dt n f s = .ok s3 → 0 ≤ s.bufPtr →
      s3.channelOut = s.channelOut ∧ 0 ≤ s3.bufPtr ∧
      ∃ new, s3.events = s.events ++ new ∧
        s.pendingNotes + ((noteOns s.channelOut new : List Nat) : Multiset Nat) =
          s3.pendingNotes + ((noteOffs s.channelOut new : List Nat) : Multiset Nat) := by
  induction n with
  | zero =>
    intro f s s3 h h0
    simp only [runFrom] at h
    injection h with h
    subst h
    exact ⟨rfl, h0, [], by rw [List.append_nil], by simp [noteOns, noteOffs]⟩
  | succ n ih =>
    intro f s s3 h h0
    obtain ⟨s1, e1, e2⟩ := runFrom_succ_ok_inv ts dt n f s s3 h
    obtain ⟨c1, b1, new1, v1, p1⟩ := runSample_balance ts s s1 f (dt f) e1 h0
    obtain ⟨c2, b2, new2, v2, p2⟩ := ih (f + 1) s1 s3 e2 b1
    rw [c1] at p2
    refine ⟨c2.trans c1, b2, new1 ++ new2, by rw [v2, v1, List.append_assoc], ?_⟩
    rw [noteOns_append, noteOffs_append, ← Multiset.coe_add, ← Multiset.coe_add, ← add_assoc, p1,
      add_right_comm, p2]
    abel

theorem card_pendingNotes (s : MidiMetLV2) : Multiset.card s.pendingNotes = s.bufPtr.toNat := by
  rw [pendingNotes_eq]
  simp

/-- One sample while host transport is enabled and the transport is stopped:
no note-on; if the queue is not empty exactly one note-off is emitted, at this
sample, and one entry leaves the queue. -/
theorem stopped_sample (ts : Int) (s : MidiMetLV2) (f dt : Nat)
    (hhost : s.hostTransport = true) (hstop : s.transportSpeed = 0) (h0 : 0 ≤ s.bufPtr)
    (hb : s.bufPtr ≤ JQ_BUFSZ) :
    ∃ s3, runSample ts s f dt = .ok s3 ∧ s3.hostTransport = true ∧ s3.transportSpeed = 0 ∧
      s3.channelOut = s.channelOut ∧
      ((s.bufPtr = 0 ∧ s3.bufPtr = 0 ∧ s3.events = s.events) ∨
       (0 < s.bufPtr ∧ s3.bufPtr = s.bufPtr - 1 ∧ ∃ note,
          s3.events = s.events ++
            [{ frame := f, status := toU8 (0x80 + s.channelOut), note := note, velocity := 127 }] ∧
          s.pendingNotes = s3.pendingNotes + (([note] : List Nat) : Multiset Nat))) := by
  have hnd : ¬ (tickState ts s dt).clickDue := fun h => h.2 hstop
  have e1 := noteOnPart_idle (tickState ts s dt) f hnd
  have hb1 : (tickState ts s dt).bufPtr ≤ JQ_BUFSZ := hb
  by_cases hz : s.bufPtr = 0
  · have hnf : ¬ (tickState ts s dt).pollFires := fun h => h.1 hz
    have e2 := noteOffPoll_idle (tickState ts s dt) f hb1 hnf
    obtain ⟨a1, a2, a3, a4, -, -, a7⟩ := audioPart_frame (tickState ts s dt) f
    refine ⟨_, runSample_ok ts s _ _ f dt e1 e2, by rw [a3]; exact hhost, by rw [a2]; exact hstop,
      ?_, Or.inl ⟨hz, by rw [a4]; exact hz, by rw [a7]; rfl⟩⟩
    show (audioPart (tickState ts s dt) f).toMidiMet.channelOut = _
    rw [a1]; rfl
  · have hpos : 0 < s.bufPtr := lt_of_le_of_ne h0 (Ne.symm hz)
    have hf : (tickState ts s dt).pollFires := ⟨hz, Or.inr ⟨hhost, hstop⟩⟩
    obtain ⟨-, m2, -, -⟩ := scan_min s.evTickQueue s.bufPtr.toNat (by omega)
    have hidx : (tickState ts s dt).minIdx < (tickState ts s dt).bufPtr.toNat := m2
    obtain ⟨s2, e2, hm, hsp, hho, -, -, -, -, -, hbp, hev, hq, htq⟩ :=
      noteOffPoll_fire (tickState ts s dt) f hb1 hf
    have hp := pending_after_fire (tickState ts s dt) s2 hpos hidx hbp hq htq
    have hpn := pendingNotes_erase (tickState ts s dt) s2 _ hidx hp
    obtain ⟨a1, a2, a3, a4, a5, -, a7⟩ := audioPart_frame s2 f
    have hp3 : (audioPart s2 f).pendingNotes = s2.pendingNotes := by
      rw [pendingNotes_eq, pendingNotes_eq, a4, a5]
    refine ⟨_, runSample_ok ts s _ _ f dt e1 e2, by rw [a3, hho]; exact hhost,
      by rw [a2, hsp]; exact hstop, ?_, Or.inr ⟨hpos, by rw [a4, hbp]; rfl,
        (tickState ts s dt).evQueue (tickState ts s dt).minIdx % 256, ?_, ?_⟩⟩
    · show (audioPart s2 f).toMidiMet.channelOut = _
      rw [a1, hm]; rfl
    · rw [a7, hev]; rfl
    · rw [hp3]; exact hpn

/-- The loop while host transport is enabled and the transport is stopped: one
note-off per sample until the queue is empty. -/
theorem stopped_run (ts : Int) (dt : Nat → Nat) (n : Nat) :
    ∀ (f : Nat) (s : MidiMetLV2), s.hostTransport = true → s.transportSpeed = 0 →
      0 ≤ s.bufPtr → s.bufPtr ≤ JQ_BUFSZ →
      ∃ s3 new, runFrom ts dt n f s = .ok s3 ∧ s3.events = s.events ++ new ∧
        s3.bufPtr = s.bufPtr - (min n s.bufPtr.toNat : Nat) ∧
        new.map (fun e => e.frame) = List.range' f (min n s.bufPtr.toNat) ∧
        noteOns s.channelOut new = [] ∧
        s.pendingNotes =
          s3.pendingNotes + ((noteOffs s.channelOut new : List Nat) : Multiset Nat) := by
  induction n with
  | zero =>
    intro f s _ _ _ _
    refine ⟨s, [], rfl, by rw [List.append_nil], by simp, by simp, rfl, by simp [noteOffs]⟩
  | succ n ih =>
    intro f s hhost hstop h0 hb
    obtain ⟨s1, e1, g1, g2, g3, hcase⟩ := stopped_sample ts s f (dt f) hhost hstop h0 hb
    rcases hcase with ⟨hz, hz1, hev⟩ | ⟨hpos, hbp, note, hev, hpn⟩
    · obtain ⟨s3, new, e3, v3, b3, fr3, on3, p3⟩ := ih (f + 1) s1 g1 g2 (by omega) (by omega)
      have hmin : min n s1.bufPtr.toNat = 0 := by rw [hz1]; simp
      have hmin2 : min (n + 1) s.bufPtr.toNat = 0 := by rw [hz]; simp
      have hpn : s.pendingNotes = s1.pendingNotes := by
        rw [pendingNotes_eq, pendingNotes_eq, hz, hz1]; rfl
      rw [hmin] at b3 fr3
      rw [g3] at on3 p3
      refine ⟨s3, new, by simp only [runFrom, e1, e3], by rw [v3, hev], ?_, ?_, on3, ?_⟩
      · rw [hmin2, b3, hz1, hz]
      · rw [hmin2, fr3]; rfl
      · rw [hpn]; exact p3
    · obtain ⟨s3, new, e3, v3, b3, fr3, on3, p3⟩ := ih (f + 1) s1 g1 g2 (by omega) (by omega)
      have hmin : min (n + 1) s.bufPtr.toNat = min n s1.bufPtr.toNat + 1 := by
        rw [hbp]; omega
      rw [g3] at on3 p3
      refine ⟨s3, _ :: new, by simp only [runFrom, e1, e3],
        by rw [v3, hev, List.append_assoc]; rfl, ?_, ?_, ?_, ?_⟩
      · rw [hmin, b3, hbp]; push_cast; ring
      · rw [hmin, List.map_cons, fr3, List.range'_succ]
      · rw [← List.singleton_append, noteOns_append, noteOns_off, on3]; rfl
      · rw [← List.singleton_append, noteOffs_append, noteOffs_off, hpn, p3,
          ← Multiset.coe_add, add_assoc, add_comm ((noteOffs s.channelOut new : List Nat) :
            Multiset Nat)]

theorem shiftTick_zero (x : Nat) (hx : x < 18446744073709551616) :
    shiftTick (toU64 x) 0 = x := by
  unfold shiftTick toU64
  simp only [gt_iff_lt, lt_self_iff_false, if_false]
  omega

theorem filling_tickState (k : Nat) (s : MidiMetLV2) (hF : Filling k s) (hk : k ≤ 1024) :
    (tickState 0 s (overflowTicks k)).curTick = 49200000 + 2 * k ∧
    (tickState 0 s (overflowTicks k)).clickDue := by
  obtain ⟨-, -, -, -, hsp, -, hnt, -, -⟩ := hF
  have hcur : (tickState 0 s (overflowTicks k)).curTick = 49200000 + 2 * k :=
    shiftTick_zero _ (by unfold overflowTicks; omega)
  refine ⟨hcur, ?_, ?_⟩
  · rw [hcur]
    show toU64 s.nextTick ≤ 49200000 + 2 * k
    have := toU64_of_nonneg_lt (show 0 ≤ s.nextTick by omega)
      (show s.nextTick < 18446744073709551616 by omega)
    omega
  · show s.transportSpeed ≠ 0
    omega

theorem filling_getNextFrame (k : Nat) (s : MidiMetLV2) (hF : Filling k s) :
    ∃ m, s.toMidiMet.getNextFrame s.nextTick = .ok m ∧ m.res = 1 ∧ m.size = 4 ∧
      m.isMuted = false ∧ m.notelength = 48000 ∧ m.nextTick = 48000 * ((k + 1 : Nat) : Int) := by
  obtain ⟨hres, hsize, hmu, hnl, -, -, hnt, -, -⟩ := hF
  have hstep : TPQN.tdiv s.res = 48000 := by rw [hres]; decide
  obtain ⟨m, e, g1, g2, -, -, -, g6, -, g8, -, g10, -⟩ :=
    MidiMet.getNextFrame_fields s.toMidiMet s.nextTick (by rw [hres]; decide)
      (by rw [hres, hsize]; decide) (by rw [hstep]; decide)
  have hemit : s.toMidiMet.emittedTick s.nextTick = 48000 * (k : Int) := by
    unfold MidiMet.emittedTick
    rw [hstep, hnt, Int.tdiv_eq_ediv (by split_ifs <;> omega) (by decide)]
    split_ifs <;> omega
  refine ⟨m, e, g1.trans hres, g2.trans hsize, g8.trans hmu, g6.trans hnl, ?_⟩
  rw [g10, hemit, hstep]
  push_cast; ring

theorem filling_sample (k : Nat) (s : MidiMetLV2) (hF : Filling k s) (hk : k < 1024) :
    ∃ s3, runSample 0 s k (overflowTicks k) = .ok s3 ∧ Filling (k + 1) s3 := by
  obtain ⟨hcur, hdue⟩ := filling_tickState k s hF (by omega)
  obtain ⟨m, hg, m1, m2, m3, m4, m5⟩ := filling_getNextFrame k s hF
  obtain ⟨-, -, hmu, hnl, hsp, hho, -, hbp, htq⟩ := hF
  obtain ⟨-, hin⟩ := noteOnPart_due (tickState 0 s (overflowTicks k)) k m hdue hg hmu
  obtain ⟨s1, e1, j1, j2, j3, j4, j5, -, -, j8⟩ :=
    hin (show 0 ≤ s.bufPtr by omega) (show s.bufPtr < JQ_BUFSZ by unfold JQ_BUFSZ; omega)
  have hb1 : s1.bufPtr = ((k + 1 : Nat) : Int) := by
    rw [j5]; show s.bufPtr + 1 = _; rw [hbp]; push_cast; rfl
  have hend : toU64 (((tickState 0 s (overflowTicks k)).curTick : Int)
      + (toU64 ((tickState 0 s (overflowTicks k)).notelength.tdiv 4) : Int))
      = 49212000 + 2 * k := by
    rw [hcur]
    have h4 : (tickState 0 s (overflowTicks k)).notelength.tdiv 4 = 12000 := by
      show s.notelength.tdiv 4 = 12000
      rw [hnl]; decide
    rw [h4]
    unfold toU64
    omega
  have htq1 : ∀ i < k + 1, 49212000 ≤ s1.evTickQueue i := by
    intro i hi
    rw [j8, hend]
    have hkk : (tickState 0 s (overflowTicks k)).bufPtr.toNat = k := by
      show s.bufPtr.toNat = k
      omega
    rw [hkk]
    by_cases hik : i = k
    · subst hik
      rw [Function.update_same]; omega
    · rw [Function.update_noteq hik]
      exact htq i (by omega)
  have hnf : ¬ s1.pollFires := by
    intro hf
    obtain ⟨q1, q2, -, -⟩ := scan_min s1.evTickQueue s1.bufPtr.toNat (by omega)
    rcases hf.2 with hc | hc
    · have hmt : s1.minTick = s1.evTickQueue s1.minIdx := q1
      have hlt : s1.minIdx < k + 1 := by
        have : s1.minIdx < s1.bufPtr.toNat := q2
        omega
      have := htq1 _ hlt
      rw [j4, hcur] at hc
      omega
    · rw [j3] at hc
      have : s.hostTransport = true := hc.1
      rw [hho] at this
      cases this
  have e2 := noteOffPoll_idle s1 k (by rw [hb1]; unfold JQ_BUFSZ; omega) hnf
  obtain ⟨a1, a2, a3, a4, -, a6, -⟩ := audioPart_frame s1 k
  refine ⟨_, runSample_ok 0 s _ _ k _ e1 e2, ?_⟩
  have hm : (audioPart s1 k).toMidiMet = m := a1.trans j1
  refine ⟨by show (audioPart s1 k).toMidiMet.res = 1; rw [hm]; exact m1,
    by show (audioPart s1 k).toMidiMet.size = 4; rw [hm]; exact m2,
    by show (audioPart s1 k).toMidiMet.isMuted = false; rw [hm]; exact m3,
    by show (audioPart s1 k).toMidiMet.notelength = 48000; rw [hm]; exact m4,
    by rw [a2, j2]; exact hsp, by rw [a3, j3]; exact hho,
    by show (audioPart s1 k).toMidiMet.nextTick = _; rw [hm]; exact m5,
    by rw [a4]; exact hb1, by rw [a6]; exact htq1⟩

theorem filling_overflow (s : MidiMetLV2) (hF : Filling 1024 s) :
    runSample 0 s 1024 (overflowTicks 1024) = .error (.outOfBounds 1024) := by
  obtain ⟨-, hdue⟩ := filling_tickState 1024 s hF (by omega)
  obtain ⟨m, hg, -⟩ := filling_getNextFrame 1024 s hF
  obtain ⟨-, -, hmu, -, -, -, -, hbp, -⟩ := hF
  obtain ⟨hout, -⟩ := noteOnPart_due (tickState 0 s (overflowTicks 1024)) 1024 m hdue hg hmu
  have hbp2 : (tickState 0 s (overflowTicks 1024)).bufPtr = 1024 := hbp
  have := hout (Or.inr (by rw [hbp2]; decide))
  rw [hbp2] at this
  rw [runSample_def, this]

theorem filling_run (n : Nat) : ∀ (k : Nat) (s : MidiMetLV2), Filling k s → k + n = 1024 →
    runFrom 0 overflowTicks (n + 1) k s = .error (.outOfBounds 1024) := by
  induction n with
  | zero =>
    intro k s hF hk
    have hk2 : k = 1024 := by omega
    subst hk2
    simp only [runFrom, filling_overflow s hF]
  | succ n ih =>
    intro k s hF hk
    obtain ⟨s3, e, hF3⟩ := filling_sample k s hF (by omega)
    have := ih (k + 1) s3 hF3 (by omega)
    rw [runFrom, e]
    exact this

/-- The note-on part when the click is due, the sequencer returns `m` and the
output is muted: only the sequencer state and the cursor port change. -/
theorem noteOnPart_muted (s : MidiMetLV2) (f : Nat) (m : MidiMet) (hdue : s.clickDue)
    (hg : s.toMidiMet.getNextFrame s.nextTick = .ok m) (hmute : s.isMuted = true) :
    ∃ s1, noteOnPart s f = .ok s1 ∧ s1.toMidiMet = m ∧ s1.bufPtr = s.bufPtr := by
  obtain ⟨-, -, i3, -, -, -, -, -, i5, -⟩ := MidiMet.getNextFrame_ok_inv _ _ _ hg
  have hcond : (!m.outFrame0.muted && !m.isMuted) = false := by
    rw [i5, i3, hmute]; rfl
  have hdue2 := hdue
  unfold clickDue at hdue2
  have hEq : noteOnPart s f = .ok { s with toMidiMet := m, cursorPos := m.framePtr } := by
    simp only [noteOnPart, if_pos hdue2, hg, hcond, MidiMet.getFramePtr]
    rfl
  exact ⟨_, hEq, rfl, rfl⟩

/-- One sample returns whenever the resolution and the size are table values
and the queue has room for one more entry; it leaves the resolution and the
size as they were and adds at most one entry. -/
theorem runSample_returns (ts : Int) (s : MidiMetLV2) (f dt : Nat) (hv : s.toMidiMet.Valid)
    (h0 : 0 ≤ s.bufPtr) (hb : s.bufPtr < JQ_BUFSZ) :
    ∃ s3, runSample ts s f dt = .ok s3 ∧ s3.toMidiMet.Valid ∧ 0 ≤ s3.bufPtr ∧
      s3.bufPtr ≤ s.bufPtr + 1 := by
  have key : ∃ s1, noteOnPart (tickState ts s dt) f = .ok s1 ∧ s1.toMidiMet.Valid ∧
      s.bufPtr ≤ s1.bufPtr ∧ s1.bufPtr ≤ s.bufPtr + 1 := by
    by_cases hdue : (tickState ts s dt).clickDue
    · obtain ⟨d1, d2, d3⟩ := MidiMet.valid_defined s.toMidiMet hv
      obtain ⟨m, hg, g1, g2, -⟩ := MidiMet.getNextFrame_fields s.toMidiMet s.nextTick d1 d2 d3
      have hvm : m.Valid := by unfold MidiMet.Valid; rw [g1, g2]; exact hv
      cases hmu : s.isMuted with
      | false =>
        obtain ⟨-, hin⟩ := noteOnPart_due (tickState ts s dt) f m hdue hg hmu
        obtain ⟨s1, e1, j1, -, -, -, j5, -⟩ := hin h0 hb
        have j5b : s1.bufPtr = s.bufPtr + 1 := j5
        exact ⟨s1, e1, by rw [j1]; exact hvm, by omega, by omega⟩
      | true =>
        obtain ⟨s1, e1, j1, j2⟩ := noteOnPart_muted (tickState ts s dt) f m hdue hg hmu
        have j2b : s1.bufPtr = s.bufPtr := j2
        exact ⟨s1, e1, by rw [j1]; exact hvm, by omega, by omega⟩
    · exact ⟨_, noteOnPart_idle _ f hdue, hv, le_refl _, by show s.bufPtr ≤ s.bufPtr + 1; omega⟩
  obtain ⟨s1, e1, hv1, hlo, hhi⟩ := key
  have hb1 : s1.bufPtr ≤ JQ_BUFSZ := by omega
  have key2 : ∃ s2, noteOffPoll s1 f = .ok s2 ∧ s2.toMidiMet = s1.toMidiMet ∧
      0 ≤ s2.bufPtr ∧ s2.bufPtr ≤ s1.bufPtr := by
    by_cases hf : s1.pollFires
    · obtain ⟨s2, e2, hm, -, -, -, -, -, -, -, hbp, -⟩ := noteOffPoll_fire s1 f hb1 hf
      have := hf.1
      exact ⟨s2, e2, hm, by omega, by omega⟩
    · exact ⟨s1, noteOffPoll_idle s1 f hb1 hf, rfl, by omega, le_refl _⟩
  obtain ⟨s2, e2, hm2, hlo2, hhi2⟩ := key2
  obtain ⟨a1, -, -, a4, -⟩ := audioPart_frame s2 f
  exact ⟨_, runSample_ok ts s s1 s2 f dt e1 e2, by rw [a1, hm2]; exact hv1,
    by rw [a4]; exact hlo2, by rw [a4]; omega⟩

/-- The loop returns whenever the resolution and the size are table values and
the queue has room for one entry per sample. -/
theorem runFrom_returns (ts : Int) (dt : Nat → Nat) (n : Nat) :
    ∀ (f : Nat) (s : MidiMetLV2), s.toMidiMet.Valid → 0 ≤ s.bufPtr →
      s.bufPtr + (n : Int) ≤ JQ_BUFSZ → ∃ s3, runFrom ts dt n f s = .ok s3 := by
  induction n with
  | zero => intro f s _ _ _; exact ⟨s, rfl⟩
  | succ n ih =>
    intro f s hv h0 hb
    obtain ⟨s1, e1, hv1, hlo, hhi⟩ := runSample_returns ts s f (dt f) hv h0
      (by push_cast at hb; omega)
    obtain ⟨s3, e3⟩ := ih (f + 1) s1 hv1 hlo (by push_cast at hb; omega)
    exact ⟨s3, by simp only [runFrom, e1, e3]⟩

end MidiMetLV2

/-- The pattern range needs a start state whose size is a table value: from
the state with `framePtr = 0`, `res = 1` and `size = -1`, the call
`updateResolution(1)` leaves `nPoints = -1`. -/
theorem resize_negative_size :
    0 ≤ negativeSize.framePtr ∧ (1 : Int) ∈ seqResValues ∧
    ∃ m1, negativeSize.calls [.updateResolution 1] = .ok m1 ∧
      m1.nPoints = m1.res * m1.size ∧ m1.nPoints = -1 ∧ m1.framePtr = 0 ∧
      ¬ (0 < m1.nPoints) ∧ ¬ (m1.framePtr < m1.nPoints) :=
  ⟨by decide, by decide, _, rfl, by decide, by decide, by decide, by decide, by decide⟩

/-- Truncating division by a positive step rounds to a multiple of the step
that is less than one step away. -/
theorem tdiv_mul_bounds (c s : Int) (hs : 0 < s) :
    c - s < c.tdiv s * s ∧ c.tdiv s * s < c + s := by
  rcases le_or_lt 0 c with hc | hc
  · rw [Int.tdiv_eq_ediv hc hs.le]
    have h1 := Int.ediv_add_emod c s
    have h2 := Int.emod_nonneg c hs.ne'
    have h3 := Int.emod_lt_of_pos c hs
    have h4 : s * (c / s) = c / s * s := Int.mul_comm _ _
    constructor <;> omega
  · have hn : c.tdiv s = -((-c).tdiv s) := by rw [Int.neg_tdiv, neg_neg]
    rw [hn, Int.tdiv_eq_ediv (by omega) hs.le]
    have h1 := Int.ediv_add_emod (-c) s
    have h2 := Int.emod_nonneg (-c) hs.ne'
    have h3 := Int.emod_lt_of_pos (-c) hs
    have h4 : s * (-c / s) = -c / s * s := Int.mul_comm _ _
    have h5 : -(-c / s) * s = -(-c / s * s) := Int.neg_mul _ _
    constructor <;> omega

/-- Truncating division of a non-negative value rounds down. -/
theorem tdiv_mul_le (c s : Int) (hc : 0 ≤ c) (hs : 0 < s) :
    c.tdiv s * s ≤ c ∧ c.tdiv s * s = c / s * s := by
  rw [Int.tdiv_eq_ediv hc hs.le]
  have h1 := Int.ediv_add_emod c s
  have h2 := Int.emod_nonneg c hs.ne'
  have h4 : s * (c / s) = c / s * s := Int.mul_comm _ _
  exact ⟨by omega, rfl⟩

namespace MidiMet

/-- One call of `getNextFrame` with a valid resolution: the emitted tick is
more than the cursor minus one step, and the cursor is left one step after it. -/
theorem getNextFrame_advance (m : MidiMet) (tick : Int) (hr : m.res ∈ seqResValues)
    (hs : m.size ≠ 0) :
    ∃ m1, m.getNextFrame tick = .ok m1 ∧ m1.res = m.res ∧ m1.size = m.size ∧
      m1.nextTick = m1.outFrame0.tick + TPQN.tdiv m.res ∧
      m.nextTick - TPQN.tdiv m.res < m1.outFrame0.tick := by
  have hb := mem_seqResValues_bounds hr
  have hp : 0 < TPQN.tdiv m.res := tdiv_TPQN_pos (by omega) (by omega)
  have hsz : m.res * m.size ≠ 0 := by
    intro h; rcases Int.mul_eq_zero.mp h with h | h <;> omega
  obtain ⟨m1, e, r1, s1, -, -, -, -, -, -, -, n1, t1, -, -, -⟩ :=
    getNextFrame_fields m tick (by omega) hsz (by omega)
  refine ⟨m1, e, r1, s1, by rw [n1, t1], ?_⟩
  rw [t1]
  unfold emittedTick
  generalize TPQN.tdiv m.res = step at hp ⊢
  have hc : m.nextTick ≤ (if m.nextTick < tick - step then tick else m.nextTick) := by
    split <;> omega
  generalize (if m.nextTick < tick - step then tick else m.nextTick) = c at hc ⊢
  have hq := tdiv_mul_bounds c step hp
  split <;> omega

/-- The emitted ticks of any sequence of calls strictly increase, and the first
one is more than the cursor minus one step. -/
theorem emittedTicks_increasing (ts : List Int) : ∀ (m : MidiMet), m.res ∈ seqResValues →
    m.size ≠ 0 →
    ∃ l, m.emittedTicks ts = .ok l ∧ l.length = ts.length ∧ l.Chain' (· < ·) ∧
      ∀ x ∈ l.head?, m.nextTick - TPQN.tdiv m.res < x := by
  induction ts with
  | nil =>
    intro m _ _
    exact ⟨[], rfl, rfl, List.chain'_nil, by simp⟩
  | cons t ts ih =>
    intro m hr hs
    obtain ⟨m1, e, r1, s1, n1, t1⟩ := getNextFrame_advance m t hr hs
    obtain ⟨l, el, hlen, hch, hhd⟩ := ih m1 (by rw [r1]; exact hr) (by rw [s1]; exact hs)
    refine ⟨m1.outFrame0.tick :: l, ?_, by simp [hlen], ?_, ?_⟩
    · simp only [emittedTicks, e, el]
    · rw [List.chain'_cons']
      refine ⟨?_, hch⟩
      intro y hy
      have := hhd y hy
      rw [n1, r1] at this
      omega
    · intro x hx
      simp only [List.head?_cons, Option.mem_def, Option.some.injEq] at hx
      rw [← hx]; exact t1

/-- The call `setNextTick(t)` when `res` and `nPoints` are values of an `int`
with `res >= 0` and `nPoints > 0`, the product `t * res` fits 64 bits and `t`
fits the signed cursor: the state it returns. -/
theorem setNextTick_value (m : MidiMet) (t : Nat) (hres : 0 ≤ m.res)
    (hres2 : m.res < 2147483648) (hn : 0 < m.nPoints) (hn2 : m.nPoints < 2147483648)
    (hprod : (t : Int) * m.res < 18446744073709551616)
    (ht : (t : Int) < 9223372036854775808) :
    m.setNextTick t = .ok
      { m with framePtr := (((t : Int) * m.res).tdiv TPQN).tmod m.nPoints,
               nextTick := (t : Int) } := by
  have hN : (toU64 m.nPoints : Int) = m.nPoints := toU64_of_nonneg_lt hn.le (by omega)
  have hne : toU64 m.nPoints ≠ 0 := by
    intro h; rw [h, Nat.cast_zero] at hN; omega
  obtain ⟨pos, hp, heq⟩ := setNextTick_eq m t hne
  have hR : (toU64 m.res : Int) = m.res := toU64_of_nonneg_lt hres (by omega)
  have hprod0 : 0 ≤ (t : Int) * m.res := Int.mul_nonneg (Int.natCast_nonneg _) hres
  have hP : (toU64 ((t : Int) * (toU64 m.res : Int)) : Int) = (t : Int) * m.res := by
    rw [hR]; exact toU64_of_nonneg_lt hprod0 hprod
  have hT : (toU64 TPQN : Int) = TPQN := toU64_of_nonneg_lt (by decide) (by decide)
  have hq0 : 0 ≤ ((t : Int) * m.res) / TPQN := Int.ediv_nonneg hprod0 (by decide)
  have hcast : (((toU64 ((t : Int) * (toU64 m.res : Int)) / toU64 TPQN) % toU64 m.nPoints : Nat)
      : Int) = (((t : Int) * m.res).tdiv TPQN).tmod m.nPoints := by
    rw [Int.natCast_mod, Int.natCast_div, hP, hT, hN,
      Int.tdiv_eq_ediv hprod0 (by decide), Int.tmod_eq_emod hq0 hn.le]
  have hlt : (((t : Int) * m.res).tdiv TPQN).tmod m.nPoints < m.nPoints :=
    Int.tmod_lt_of_pos _ hn
  have hge : 0 ≤ (((t : Int) * m.res).tdiv TPQN).tmod m.nPoints := by
    rw [Int.tdiv_eq_ediv hprod0 (by decide)]
    exact Int.tmod_nonneg _ hq0
  rw [hcast] at hp
  generalize (((t : Int) * m.res).tdiv TPQN).tmod m.nPoints = x at hp hlt hge ⊢
  rw [toI32_of_nonneg_lt hge (by omega)] at hp
  have h64 : toI64 (t : Int) = (t : Int) := by
    unfold toI64; omega
  rw [heq, hp, h64]
  rfl

end MidiMet

namespace MidiMetLV2

/-- The time shift of lines 233 to 240 with a positive shift that the tick has
passed: the shift is subtracted. -/
theorem shiftTick_pos_gt (x : Nat) (ts : Int) (hx : x < 18446744073709551616) (h0 : 0 < ts)
    (h2 : ts < 2147483648) (hgt : ts < (x : Int)) : (shiftTick x ts : Int) = (x : Int) - ts := by
  have h32 : (toU32 ts : Int) = ts := by unfold toU32; omega
  have h64 : (toU64 ts : Int) = ts := by unfold toU64; omega
  have hc : x > toU32 ts := by omega
  unfold shiftTick
  rw [if_pos h0, if_pos hc, h64]
  unfold toU64; omega

/-- The time shift of lines 233 to 240 with a positive shift that the tick has
not passed: the tick is left as it is. -/
theorem shiftTick_pos_le (x : Nat) (ts : Int) (h0 : 0 < ts) (h2 : ts < 2147483648)
    (hle : (x : Int) ≤ ts) : shiftTick x ts = x := by
  have h32 : (toU32 ts : Int) = ts := by unfold toU32; omega
  have hc : ¬ x > toU32 ts := by omega
  unfold shiftTick
  rw [if_pos h0, if_neg hc]

/-- The time shift of lines 233 to 240 with a shift that is not positive: its
magnitude is added, modulo `2 ^ 64`. -/
theorem shiftTick_nonpos (x : Nat) (ts : Int) (h0 : ts ≤ 0) :
    (shiftTick x ts : Int) = ((x : Int) - ts) % 18446744073709551616 := by
  have hc : ¬ ts > 0 := by omega
  unfold shiftTick
  rw [if_neg hc]
  unfold toU64; omega

/-- A returning note-on part that has changed the event sequence: the click was
due, the output not muted, `bufPtr` inside the array; the sequencer has been
advanced by `getNextFrame(nextTick)`, one note-on has been forged, the click
onset recorded and the note-off entry stored at index `bufPtr`. -/
theorem noteOnPart_emits (s s1 : MidiMetLV2) (f : Nat) (h : noteOnPart s f = .ok s1)
    (hon : s1.events ≠ s.events) :
    0 ≤ s.bufPtr ∧ s.bufPtr < JQ_BUFSZ ∧ s.clickDue ∧ s.isMuted = false ∧
    s.toMidiMet.getNextFrame s.nextTick = .ok s1.toMidiMet ∧
    s1.events = s.events ++
      [{ frame := f, status := toU8 (0x90 + s.channelOut),
         note := toU8 s1.outFrame0.data, velocity := toU8 s.vel }] ∧
    s1.bufPtr = s.bufPtr + 1 ∧
    s1.evQueue = Function.update s.evQueue s.bufPtr.toNat (toU32 s1.outFrame0.data) ∧
    s1.evTickQueue = Function.update s.evTickQueue s.bufPtr.toNat
      (toU64 ((s.curTick : Int) + (toU64 (s.notelength.tdiv 4) : Int))) ∧
    s1.soundOnFrame = s.curFrame ∧ s1.curFrame = s.curFrame ∧ s1.wave_len = s.wave_len := by
  by_cases hdue : s.clickDue
  · cases hg : s.toMidiMet.getNextFrame s.nextTick with
    | error e =>
      unfold clickDue at hdue
      simp only [noteOnPart, if_pos hdue, hg] at h
      cases h
    | ok m =>
      obtain ⟨i1, i2, i3, i4, -, -, -, -, i5, -⟩ := MidiMet.getNextFrame_ok_inv _ _ _ hg
      have hdue2 := hdue
      unfold clickDue at hdue2
      by_cases hmute : s.isMuted = false
      · have hcond : (!m.outFrame0.muted && !m.isMuted) = true := by
          rw [i5, i3, hmute]; rfl
        by_cases hb : s.bufPtr < 0 ∨ JQ_BUFSZ ≤ s.bufPtr
        · rw [(noteOnPart_due s f m hdue hg hmute).1 hb] at h; cases h
        · have hEq : noteOnPart s f = .ok
              { s with toMidiMet := m,
                       events := s.events ++
                         [{ frame := f, status := toU8 (0x90 + m.channelOut),
                            note := toU8 m.outFrame0.data, velocity := toU8 m.vel }],
                       soundOnFrame := s.curFrame,
                       evTickQueue := Function.update s.evTickQueue s.bufPtr.toNat
                         (toU64 ((s.curTick : Int) + (toU64 (m.notelength.tdiv 4) : Int))),
                       evQueue := Function.update s.evQueue s.bufPtr.toNat
                         (toU32 m.outFrame0.data),
                       bufPtr := s.bufPtr + 1,
                       cursorPos := m.framePtr } := by
            simp only [noteOnPart, if_pos hdue2, hg, hcond, if_true, forgeMidiEvent, if_neg hb,
              MidiMet.getFramePtr]
          rw [hEq] at h
          injection h with h
          subst h
          refine ⟨by omega, by omega, hdue, hmute, rfl, ?_, rfl, rfl, ?_, rfl, rfl, rfl⟩
          · show s.events ++ [_] = _
            rw [i1, i2]
          · show Function.update s.evTickQueue s.bufPtr.toNat _ = _
            rw [i4]
      · have hm : s.isMuted = true := by simpa using hmute
        have hcond : (!m.outFrame0.muted && !m.isMuted) = false := by
          rw [i5, i3, hm]; rfl
        have hEq : noteOnPart s f = .ok { s with toMidiMet := m, cursorPos := m.framePtr } := by
          simp only [noteOnPart, if_pos hdue2, hg, hcond, MidiMet.getFramePtr]
          rfl
        rw [hEq] at h
        injection h with h
        subst h
        exact absurd rfl hon
  · rw [noteOnPart_idle s f hdue] at h
    injection h with h
    subst h
    exact absurd rfl hon

/-- Storing an entry at index `bufPtr` and incrementing `bufPtr` appends that
entry to the pending list. -/
theorem pending_push (s s1 : MidiMetLV2) (v t : Nat) (h0 : 0 ≤ s.bufPtr)
    (hb : s1.bufPtr = s.bufPtr + 1)
    (hq : s1.evQueue = Function.update s.evQueue s.bufPtr.toNat v)
    (htq : s1.evTickQueue = Function.update s.evTickQueue s.bufPtr.toNat t) :
    s1.pending = s.pending ++ [(v, t)] := by
  unfold pending
  have hn : s1.bufPtr.toNat = s.bufPtr.toNat + 1 := by omega
  rw [hn, List.range_succ, List.map_append, hq, htq]
  congr 1
  · apply List.map_congr_left
    intro i hi
    have : i ≠ s.bufPtr.toNat := by
      have := List.mem_range.mp hi
      omega
    simp only [Function.update_noteq this]
  · simp only [List.map_cons, List.map_nil, Function.update_same]

end MidiMetLV2

/-- The sum `curTick + notelength / 4` as the code stores it in a `uint64_t`. -/
theorem toU64_add_toU64 (a b : Int) :
    (toU64 (a + (toU64 b : Int)) : Int) = (a + b) % 18446744073709551616 := by
  unfold toU64; omega

namespace MidiMet

/-- From an odd frame pointer inside the pattern the advanced frame pointer is even. -/
theorem odd_advance_even (fp n : Int) (hodd : fp % 2 = 1) (h0 : 0 ≤ fp) (hlt : fp < n) :
    ((fp + 1).tmod n).tmod 2 = 0 := by
  rcases (show fp + 1 < n ∨ fp + 1 = n by omega) with h | h
  · rw [Int.tmod_eq_of_lt (by omega) h, Int.tmod_eq_emod (by omega) (by decide)]
    omega
  · rw [h, Int.tmod_self]
    rfl

end MidiMet

namespace MidiMetLV2

/-- The audio sample written by the audio part of a sample: a table value as
long as the 32-bit `elapsed_len` is below `wave_len`, from the high table
exactly when `framePtr` is 1, and silence otherwise. -/
theorem audioPart_output (s : MidiMetLV2) (f : Nat) :
    (audioPart s f).elapsed_len = toU32 ((s.curFrame : Int) - (s.soundOnFrame : Int)) ∧
    (audioPart s f).output f =
      if toU32 ((s.curFrame : Int) - (s.soundOnFrame : Int)) < s.wave_len then
        if s.framePtr = 1 then
          AudioSample.waveH (toU32 ((s.curFrame : Int) - (s.soundOnFrame : Int))) s.vel
        else AudioSample.waveL (toU32 ((s.curFrame : Int) - (s.soundOnFrame : Int))) s.vel
      else AudioSample.silence := by
  unfold audioPart
  simp only
  split_ifs <;> exact ⟨rfl, by simp only [Function.update_same]⟩

/-- A sample on which the transport is stopped and the queue is empty: only
the tick, the audio sample and the frame counter are written. -/
theorem idle_sample (ts : Int) (s : MidiMetLV2) (f dt : Nat) (hsp : s.transportSpeed = 0)
    (hb : s.bufPtr = 0) :
    runSample ts s f dt = .ok (audioPart (tickState ts s dt) f) ∧
    (audioPart (tickState ts s dt) f).curFrame = toU64 ((s.curFrame : Int) + 1) ∧
    (audioPart (tickState ts s dt) f).soundOnFrame = s.soundOnFrame ∧
    (audioPart (tickState ts s dt) f).transportSpeed = 0 ∧
    (audioPart (tickState ts s dt) f).bufPtr = 0 ∧
    (audioPart (tickState ts s dt) f).toMidiMet = s.toMidiMet ∧
    (audioPart (tickState ts s dt) f).wave_len = s.wave_len ∧
    (audioPart (tickState ts s dt) f).events = s.events := by
  have hnd : ¬ (tickState ts s dt).clickDue := by
    intro h
    exact h.2 hsp
  have h1 := noteOnPart_idle (tickState ts s dt) f hnd
  have h2 : noteOffPoll (tickState ts s dt) f = .ok (tickState ts s dt) :=
    noteOffPoll_idle (tickState ts s dt) f
      (by show s.bufPtr ≤ JQ_BUFSZ; rw [hb]; decide) (fun h => h.1 hb)
  obtain ⟨a1, a2, -, a4, -, -, a7⟩ := audioPart_frame (tickState ts s dt) f
  refine ⟨runSample_ok ts s _ _ f dt h1 h2, ?_, ?_, by rw [a2]; exact hsp, by rw [a4]; exact hb,
    by rw [a1]; rfl, ?_, by rw [a7]; rfl⟩
  all_goals
    unfold audioPart
    simp only
    split_ifs <;> rfl

/-- The state `initTransport` returns in internal transport mode: the tempo is
chosen, and the tick derivation is anchored at the current frame and, when
`curTick > 0`, at `curTick`. -/
theorem initTransport_internal (s : MidiMetLV2) (hh : s.hostTransport = false) :
    initTransport s = .ok
        { s with tempo := (if s.tempoFromHost then s.transportBpm else s.internalTempo),
                 transportFramesDelta := s.curFrame,
                 tempoChangeTick := (if s.curTick > 0 then s.curTick else s.tempoChangeTick),
                 transportSpeed := 1 } := by
  unfold initTransport
  cases ht : s.tempoFromHost <;> by_cases hc : s.curTick > 0 <;> simp [hh, ht, hc]

/-- The state `initTransport` returns in host transport mode when
`setNextTick(tempoChangeTick)` returns `m`: the tempo is chosen, the transport
stopped and the sequencer repositioned. -/
theorem initTransport_host (s : MidiMetLV2) (hh : s.hostTransport = true) (m : MidiMet)
    (hset : s.toMidiMet.setNextTick s.tempoChangeTick = .ok m) :
    initTransport s = .ok
        { s with tempo := (if s.tempoFromHost then s.transportBpm else s.internalTempo),
                 transportSpeed := 0,
                 toMidiMet := m } := by
  unfold initTransport
  cases ht : s.tempoFromHost <;> simp [hh, ht, withMidiMet, hset]

end MidiMetLV2

namespace MidiMet

/-- What `setNextTick` leaves unchanged, whenever `nPoints` is not zero as a
`uint64_t`. -/
theorem setNextTick_fields (m : MidiMet) (tick : Nat) (hne : toU64 m.nPoints ≠ 0) :
    ∃ m1, m.setNextTick tick = .ok m1 ∧ m1.res = m.res ∧ m1.size = m.size ∧
      m1.nPoints = m.nPoints ∧ m1.channelOut = m.channelOut ∧ m1.vel = m.vel ∧
      m1.notelength = m.notelength ∧ m1.isMuted = m.isMuted ∧
      m1.midiNoteKey = m.midiNoteKey ∧ m1.nextTick = toI64 tick := by
  obtain ⟨pos, -, heq⟩ := setNextTick_eq m tick hne
  exact ⟨{ setFramePtr m pos with nextTick := toI64 tick }, heq, rfl, rfl, rfl, rfl, rfl, rfl,
    rfl, rfl, rfl⟩

end MidiMet

namespace MidiMetLV2

/-- Field by field, what `initTransport` returns; it returns whenever `nPoints`
is not zero as a `uint64_t`, and always in internal transport mode. -/
theorem initTransport_fields (s : MidiMetLV2)
    (hn : s.hostTransport = true → toU64 s.nPoints ≠ 0) :
    ∃ s1, initTransport s = .ok s1 ∧
      s1.tempo = (if s.tempoFromHost then s.transportBpm else s.internalTempo) ∧
      s1.hostTransport = s.hostTransport ∧ s1.tempoFromHost = s.tempoFromHost ∧
      s1.internalTempo = s.internalTempo ∧ s1.transportBpm = s.transportBpm ∧
      s1.nPoints = s.nPoints ∧ s1.channelOut = s.channelOut ∧
      s1.transportAtomReceived = s.transportAtomReceived ∧ s1.curFrame = s.curFrame ∧
      s1.curTick = s.curTick ∧ s1.res = s.res ∧ s1.events = s.events ∧
      (s.hostTransport = false →
        s1.transportFramesDelta = s.curFrame ∧
        s1.tempoChangeTick = (if s.curTick > 0 then s.curTick else s.tempoChangeTick) ∧
        s1.transportSpeed = 1 ∧ s1.toMidiMet = s.toMidiMet) ∧
      (s.hostTransport = true →
        s1.transportFramesDelta = s.transportFramesDelta ∧
        s1.tempoChangeTick = s.tempoChangeTick ∧ s1.transportSpeed = 0) := by
  by_cases hh : s.hostTransport = true
  · obtain ⟨m, hset, m1, -, m3, m4, -, -, -, -, -⟩ :=
      MidiMet.setNextTick_fields s.toMidiMet s.tempoChangeTick (hn hh)
    refine ⟨_, initTransport_host s hh m hset, rfl, rfl, rfl, rfl, rfl, m3, m4, rfl, rfl,
      rfl, m1, rfl, ?_, ?_⟩
    · intro h; rw [hh] at h; cases h
    · intro _
      exact ⟨rfl, rfl, rfl⟩
  · have hf : s.hostTransport = false := by simpa using hh
    refine ⟨_, initTransport_internal s hf, rfl, rfl, rfl, rfl, rfl, rfl, rfl, rfl, rfl,
      rfl, rfl, rfl, ?_, ?_⟩
    · intro _
      exact ⟨rfl, rfl, rfl, rfl⟩
    · intro h; exact absurd h hh

/-- The tempo part of `updatePos` when the host tempo differs from `tempo` in
host transport or tempo-from-host mode: the host tempo is stored in
`transportBpm` and `tempo`, the transport is stopped in host transport mode,
and `initTransport` runs. -/
theorem updatePosTempo_changed (s : MidiMetLV2) (bpm : Rat)
    (h1 : s.hostTransport = true ∨ s.tempoFromHost = true) (h2 : s.tempo ≠ bpm) :
    updatePosTempo s bpm = initTransport
      { s with transportBpm := bpm, tempo := bpm,
               transportSpeed := if s.hostTransport then 0 else s.transportSpeed } := by
  unfold updatePosTempo
  cases hh : s.hostTransport <;> cases ht : s.tempoFromHost <;> simp_all

/-- The tempo part of `updatePos` in every other case: only `transportBpm` is
written. -/
theorem updatePosTempo_same (s : MidiMetLV2) (bpm : Rat)
    (h : ¬ ((s.hostTransport = true ∨ s.tempoFromHost = true) ∧ s.tempo ≠ bpm)) :
    updatePosTempo s bpm = .ok { s with transportBpm := bpm } := by
  unfold updatePosTempo
  by_cases h1 : s.hostTransport = true ∨ s.tempoFromHost = true
  · have h2 : s.tempo = bpm := by
      by_contra hc
      exact h ⟨h1, hc⟩
    simp [h1, h2]
  · simp [h1]

/-- Field by field, what the tempo part of `updatePos` returns. -/
theorem updatePosTempo_fields (s : MidiMetLV2) (bpm : Rat)
    (hn : s.hostTransport = true → toU64 s.nPoints ≠ 0) :
    ∃ s1, updatePosTempo s bpm = .ok s1 ∧ s1.transportBpm = bpm ∧
      s1.tempo = (if (s.hostTransport = true ∨ s.tempoFromHost = true) ∧ s.tempo ≠ bpm then
          (if s.tempoFromHost then bpm else s.internalTempo) else s.tempo) ∧
      s1.hostTransport = s.hostTransport ∧ s1.tempoFromHost = s.tempoFromHost ∧
      s1.internalTempo = s.internalTempo ∧ s1.nPoints = s.nPoints ∧
      s1.channelOut = s.channelOut ∧ s1.events = s.events := by
  by_cases h : (s.hostTransport = true ∨ s.tempoFromHost = true) ∧ s.tempo ≠ bpm
  · obtain ⟨s1, e, f1, f2, f3, f4, f5, f6, f7, -, -, -, -, f8, -, -⟩ := initTransport_fields
      { s with transportBpm := bpm, tempo := bpm,
               transportSpeed := if s.hostTransport then 0 else s.transportSpeed } hn
    refine ⟨s1, by rw [updatePosTempo_changed s bpm h.1 h.2]; exact e, f5, ?_, f2, f3, f4, f6,
      f7, f8⟩
    rw [if_pos h, f1]
  · refine ⟨_, updatePosTempo_same s bpm h, rfl, ?_, rfl, rfl, rfl, rfl, rfl, rfl⟩
    rw [if_neg h]

/-- Field by field, what the position part of `updatePos` returns: the tempo
members are not written. -/
theorem updatePosPosition_fields (s : MidiMetLV2) (pos : Nat) (speed : Int) (ignore_pos : Bool)
    (posTick : Nat) (hn : s.hostTransport = true → toU64 s.nPoints ≠ 0) :
    ∃ s1, updatePosPosition s pos speed ignore_pos posTick = .ok s1 ∧ s1.tempo = s.tempo ∧
      s1.transportBpm = s.transportBpm ∧ s1.hostTransport = s.hostTransport ∧
      s1.tempoFromHost = s.tempoFromHost ∧ s1.internalTempo = s.internalTempo ∧
      s1.nPoints = s.nPoints ∧ s1.channelOut = s.channelOut ∧ s1.events = s.events := by
  by_cases hh : s.hostTransport = true
  · obtain ⟨t, ht⟩ : ∃ t : Nat, t = (if (!ignore_pos) = true then toU64 posTick
        else s.tempoChangeTick) := ⟨_, rfl⟩
    obtain ⟨d, hd⟩ : ∃ d : Nat, d = (if (!ignore_pos) = true then toU64 pos
        else s.transportFramesDelta) := ⟨_, rfl⟩
    obtain ⟨m, hset, -, -, m3, m4, -, -, -, -, -⟩ :=
      MidiMet.setNextTick_fields s.toMidiMet t (hn hh)
    by_cases hs : s.transportSpeed ≠ speed
    · by_cases h0 : speed ≠ 0
      · have hEq : updatePosPosition s pos speed ignore_pos posTick = .ok
            { s with transportFramesDelta := d, tempoChangeTick := t, transportSpeed := speed,
                     curFrame := d, toMidiMet := m } := by
          unfold updatePosPosition
          cases ignore_pos <;> simp_all [withMidiMet]
        exact ⟨_, hEq, rfl, rfl, rfl, rfl, rfl, m3, m4, rfl⟩
      · have hEq : updatePosPosition s pos speed ignore_pos posTick = .ok
            { s with transportFramesDelta := d, tempoChangeTick := t, transportSpeed := speed,
                     curFrame := d } := by
          unfold updatePosPosition
          cases ignore_pos <;> simp_all [withMidiMet]
        exact ⟨_, hEq, rfl, rfl, rfl, rfl, rfl, rfl, rfl, rfl⟩
    · have hEq : updatePosPosition s pos speed ignore_pos posTick = .ok
          { s with transportFramesDelta := d, tempoChangeTick := t } := by
        unfold updatePosPosition
        cases ignore_pos
        · simp_all [withMidiMet]
        · simp_all [withMidiMet]
          cases s
          simp_all
      exact ⟨_, hEq, rfl, rfl, rfl, rfl, rfl, rfl, rfl, rfl⟩
  · have hEq : updatePosPosition s pos speed ignore_pos posTick = .ok s := by
      unfold updatePosPosition
      simp [hh]
    exact ⟨_, hEq, rfl, rfl, rfl, rfl, rfl, rfl, rfl, rfl⟩

/-- In internal transport mode `initTransport` anchors the tick derivation at
the current frame and, when `curTick > 0`, at `curTick`, the tick of the last
sample after its time shift: the tick derived for the next sample is that of
zero elapsed frames on top of `curTick`. -/
theorem initTransport_reanchor (s : MidiMetLV2) (ticksAt : Nat → Nat → Nat)
    (hh : s.hostTransport = false) (hc : 0 < s.curTick) :
    ∃ s1, initTransport s = .ok s1 ∧ s1.curFrame = s.curFrame ∧ s1.curTick = s.curTick ∧
      s1.res = s.res ∧ s1.tempoChangeTick = s.curTick ∧
      deriveTick ticksAt s1 = ticksAt 0 s.curTick := by
  obtain ⟨s1, e, -, -, -, -, -, -, -, -, f1, f2, f3, -, f4, -⟩ :=
    initTransport_fields s (fun h => by rw [hh] at h; cases h)
  obtain ⟨g1, g2, -, -⟩ := f4 hh
  rw [if_pos hc] at g2
  refine ⟨s1, e, f1, f2, f3, g2, ?_⟩
  unfold deriveTick
  rw [g1, g2, f1]
  have h0 : toU64 ((toU64 ((s.curFrame : Int) - (s.curFrame : Int)) : Int) * TPQN) = 0 := by
    rw [sub_self]
    unfold toU64 TPQN
    decide
  rw [h0]

end MidiMetLV2

namespace MidiMet

/-- A returning `setNextTick` leaves the output channel as it is. -/
theorem setNextTick_ok_inv (m m1 : MidiMet) (tick : Nat) (h : m.setNextTick tick = .ok m1) :
    m1.channelOut = m.channelOut := by
  by_cases hne : toU64 m.nPoints = 0
  · simp only [setNextTick, if_pos hne] at h
    cases h
  · obtain ⟨m2, e, -, -, -, c, -⟩ := setNextTick_fields m tick hne
    rw [e] at h
    injection h with h
    rw [← h, c]

/-- A returning `resizeAll` leaves the output channel as it is. -/
theorem resizeAll_ok_inv (m m1 : MidiMet) (h : m.resizeAll = .ok m1) :
    m1.channelOut = m.channelOut := by
  unfold resizeAll at h
  by_cases hz : m.res * m.size = 0
  · simp [hz] at h
  · simp only [if_neg hz] at h
    injection h with h
    rw [← h]

end MidiMet

namespace MidiMetLV2

/-- A returning `withMidiMet` has replaced the sequencer part by the result. -/
theorem withMidiMet_ok_inv (s s1 : MidiMetLV2) (r : Except Fault MidiMet)
    (h : withMidiMet s r = .ok s1) :
    ∃ m, r = .ok m ∧ s1 = { s with toMidiMet := m } := by
  cases r with
  | error e => cases h
  | ok m =>
    injection h with h
    exact ⟨m, rfl, h.symm⟩

/-- A returning `initTransport` leaves the output channel and the event
sequence as they are. -/
theorem initTransport_ok_inv (s s1 : MidiMetLV2) (h : initTransport s = .ok s1) :
    s1.channelOut = s.channelOut ∧ s1.events = s.events := by
  by_cases hh : s.hostTransport = true
  · cases hset : s.toMidiMet.setNextTick s.tempoChangeTick with
    | error e =>
      exfalso
      unfold initTransport at h
      cases ht : s.tempoFromHost <;> simp [hh, ht, withMidiMet, hset] at h
    | ok m =>
      rw [initTransport_host s hh m hset] at h
      injection h with h
      subst h
      exact ⟨MidiMet.setNextTick_ok_inv _ _ _ hset, rfl⟩
  · have hf : s.hostTransport = false := by simpa using hh
    rw [initTransport_internal s hf] at h
    injection h with h
    subst h
    exact ⟨rfl, rfl⟩

/-- A returning tempo part of `updatePos` leaves the output channel and the
event sequence as they are. -/
theorem updatePosTempo_ok_inv (s s1 : MidiMetLV2) (bpm : Rat)
    (h : updatePosTempo s bpm = .ok s1) :
    s1.channelOut = s.channelOut ∧ s1.events = s.events := by
  by_cases hc : (s.hostTransport = true ∨ s.tempoFromHost = true) ∧ s.tempo ≠ bpm
  · rw [updatePosTempo_changed s bpm hc.1 hc.2] at h
    obtain ⟨a1, a2⟩ := initTransport_ok_inv _ _ h
    exact ⟨a1, a2⟩
  · rw [updatePosTempo_same s bpm hc] at h
    injection h with h
    subst h
    exact ⟨rfl, rfl⟩

/-- A returning position part of `updatePos` leaves the output channel and the
event sequence as they are. -/
theorem updatePosPosition_ok_inv (s s1 : MidiMetLV2) (pos : Nat) (speed : Int)
    (ignore_pos : Bool) (posTick : Nat)
    (h : updatePosPosition s pos speed ignore_pos posTick = .ok s1) :
    s1.channelOut = s.channelOut ∧ s1.events = s.events := by
  by_cases hn : s.hostTransport = true → toU64 s.nPoints ≠ 0
  · obtain ⟨s2, e, -, -, -, -, -, -, c, v⟩ :=
      updatePosPosition_fields s pos speed ignore_pos posTick hn
    rw [e] at h
    injection h with h
    subst h
    exact ⟨c, v⟩
  · have hh : s.hostTransport = true := by
      by_contra hc
      exact hn (fun h => absurd h hc)
    have hz : toU64 s.nPoints = 0 := by
      by_contra hc
      exact hn (fun _ => hc)
    have hset : ∀ t : Nat, s.toMidiMet.setNextTick t = .error .divByZero := by
      intro t
      simp only [MidiMet.setNextTick, if_pos hz]
    unfold updatePosPosition at h
    by_cases hs : s.transportSpeed ≠ speed
    · by_cases h0 : speed ≠ 0
      · exfalso
        cases ignore_pos <;> simp_all [withMidiMet]
      · cases ignore_pos
        · simp_all [withMidiMet]
          subst h
          exact ⟨rfl, rfl⟩
        · simp_all [withMidiMet]
          subst h
          exact ⟨rfl, rfl⟩
    · cases ignore_pos
      · simp_all [withMidiMet]
        subst h
        exact ⟨rfl, rfl⟩
      · simp_all [withMidiMet]

/-- A returning `updatePos` leaves the output channel and the event sequence as
they are. -/
theorem updatePos_ok_inv (s s1 : MidiMetLV2) (pos : Nat) (bpm : Rat) (speed : Int)
    (ignore_pos : Bool) (posTick : Nat)
    (h : updatePos s pos bpm speed ignore_pos posTick = .ok s1) :
    s1.channelOut = s.channelOut ∧ s1.events = s.events := by
  unfold updatePos at h
  cases h1 : updatePosTempo s bpm with
  | error e => rw [h1] at h; cases h
  | ok s2 =>
    rw [h1] at h
    obtain ⟨a1, a2⟩ := updatePosTempo_ok_inv s s2 bpm h1
    obtain ⟨b1, b2⟩ := updatePosPosition_ok_inv s2 s1 pos speed ignore_pos posTick h
    exact ⟨by rw [b1, a1], by rw [b2, a2]⟩

/-- A returning `updatePosAtom` leaves the output channel and the event
sequence as they are. -/
theorem updatePosAtom_ok_inv (s s1 : MidiMetLV2) (obj : PositionAtom)
    (h : updatePosAtom s obj = .ok s1) :
    s1.channelOut = s.channelOut ∧ s1.events = s.events := by
  unfold updatePosAtom at h
  obtain ⟨a1, a2⟩ := updatePos_ok_inv _ _ _ _ _ _ _ h
  exact ⟨a1, a2⟩

/-- Returning `updatePosAtoms` leave the output channel and the event sequence
as they are. -/
theorem updatePosAtoms_ok_inv (objs : List PositionAtom) : ∀ (s s1 : MidiMetLV2),
    updatePosAtoms s objs = .ok s1 → s1.channelOut = s.channelOut ∧ s1.events = s.events := by
  induction objs with
  | nil =>
    intro s s1 h
    injection h with h
    subst h
    exact ⟨rfl, rfl⟩
  | cons obj objs ih =>
    intro s s1 h
    cases h1 : updatePosAtom s obj with
    | error e => simp only [updatePosAtoms, h1] at h; cases h
    | ok s2 =>
      simp only [updatePosAtoms, h1] at h
      obtain ⟨a1, a2⟩ := updatePosAtom_ok_inv s s2 obj h1
      obtain ⟨b1, b2⟩ := ih s2 s1 h
      exact ⟨by rw [b1, a1], by rw [b2, a2]⟩

/-- The three polls of `updateParams` that cannot fault leave the output
channel and the event sequence as they are. -/
theorem pollPure_inv (s : MidiMetLV2) (p : Ports) (shiftTicks : Int) :
    ((pollVelocity s p).channelOut = s.channelOut ∧ (pollVelocity s p).events = s.events) ∧
    ((pollNoteLength s p).channelOut = s.channelOut ∧
      (pollNoteLength s p).events = s.events) ∧
    ((pollTimeShift s p shiftTicks).channelOut = s.channelOut ∧
      (pollTimeShift s p shiftTicks).events = s.events) ∧
    ((pollMute s p).channelOut = s.channelOut ∧ (pollMute s p).events = s.events) := by
  unfold pollVelocity pollNoteLength pollTimeShift pollMute
  refine ⟨?_, ?_, ?_, ?_⟩ <;> split <;> exact ⟨rfl, rfl⟩

/-- A returning resolution or size poll leaves the output channel and the event
sequence as they are. -/
theorem pollResize_ok_inv (s s1 : MidiMetLV2) (p : Ports) :
    (pollResolution s p = .ok s1 → s1.channelOut = s.channelOut ∧ s1.events = s.events) ∧
    (pollSize s p = .ok s1 → s1.channelOut = s.channelOut ∧ s1.events = s.events) := by
  constructor
  · intro h
    unfold pollResolution at h
    cases ht : tableAt seqResValues p.RESOLUTION with
    | error e => rw [ht] at h; cases h
    | ok r =>
      rw [ht] at h
      by_cases hc : s.res ≠ r
      · simp only [if_pos hc] at h
        obtain ⟨m, hm, rfl⟩ := withMidiMet_ok_inv _ _ _ h
        have hch : m.channelOut = s.channelOut :=
          MidiMet.resizeAll_ok_inv { s.toMidiMet with res := r } m hm
        exact ⟨hch, rfl⟩
      · simp only [if_neg hc] at h
        injection h with h
        subst h
        exact ⟨rfl, rfl⟩
  · intro h
    unfold pollSize at h
    cases ht : tableAt seqSizeValues p.SIZE with
    | error e => rw [ht] at h; cases h
    | ok z =>
      rw [ht] at h
      by_cases hc : s.size ≠ z
      · simp only [if_pos hc] at h
        obtain ⟨m, hm, rfl⟩ := withMidiMet_ok_inv _ _ _ h
        have hch : m.channelOut = s.channelOut :=
          MidiMet.resizeAll_ok_inv { s.toMidiMet with size := z } m hm
        exact ⟨hch, rfl⟩
      · simp only [if_neg hc] at h
        injection h with h
        subst h
        exact ⟨rfl, rfl⟩

/-- A returning tempo, tempo mode, transport mode or host position poll leaves
the output channel and the event sequence as they are. -/
theorem pollTransport_ok_inv (s s1 : MidiMetLV2) (p : Ports) (posTick : Nat) :
    (pollTempo s p = .ok s1 → s1.channelOut = s.channelOut ∧ s1.events = s.events) ∧
    (pollTempoMode s p = .ok s1 → s1.channelOut = s.channelOut ∧ s1.events = s.events) ∧
    (pollTransportMode s p = .ok s1 →
      s1.channelOut = s.channelOut ∧ s1.events = s.events) ∧
    (pollHostPosition s p posTick = .ok s1 →
      s1.channelOut = s.channelOut ∧ s1.events = s.events) := by
  refine ⟨?_, ?_, ?_, ?_⟩
  · intro h
    unfold pollTempo at h
    split at h
    · simp only at h
      split at h
      · obtain ⟨a1, a2⟩ := initTransport_ok_inv _ _ h
        exact ⟨a1, a2⟩
      · injection h with h
        subst h
        exact ⟨rfl, rfl⟩
    · injection h with h
      subst h
      exact ⟨rfl, rfl⟩
  · intro h
    unfold pollTempoMode at h
    split at h
    · obtain ⟨a1, a2⟩ := initTransport_ok_inv _ _ h
      exact ⟨a1, a2⟩
    · injection h with h
      subst h
      exact ⟨rfl, rfl⟩
  · intro h
    unfold pollTransportMode at h
    split at h
    · simp only at h
      obtain ⟨a1, a2⟩ := initTransport_ok_inv _ _ h
      constructor
      · rw [a1]; split <;> rfl
      · rw [a2]; split <;> rfl
    · injection h with h
      subst h
      exact ⟨rfl, rfl⟩
  · intro h
    unfold pollHostPosition at h
    split at h
    · exact updatePos_ok_inv _ _ _ _ _ _ _ h
    · injection h with h
      subst h
      exact ⟨rfl, rfl⟩

/-- A bind in `Except` that returns: both parts have returned. -/
theorem bind_ok_inv {α β : Type} (x : Except Fault α) (g : α → Except Fault β) (b : β)
    (h : x >>= g = .ok b) : ∃ a, x = .ok a ∧ g a = .ok b := by
  cases x with
  | error e => cases h
  | ok a => exact ⟨a, rfl, h⟩

/-- A returning `updateParams` leaves the output channel and the event sequence
as they are, whatever the values of the ports. -/
theorem updateParams_ok_inv (s s1 : MidiMetLV2) (p : Ports) (shiftTicks : Int) (posTick : Nat)
    (h : updateParams s p shiftTicks posTick = .ok s1) :
    s1.channelOut = s.channelOut ∧ s1.events = s.events := by
  unfold updateParams at h
  obtain ⟨a1, a2, a3, -⟩ := pollPure_inv s p shiftTicks
  obtain ⟨-, b2, -, -⟩ := pollPure_inv (pollVelocity s p) p shiftTicks
  obtain ⟨-, -, c3, -⟩ := pollPure_inv (pollNoteLength (pollVelocity s p) p) p shiftTicks
  obtain ⟨s4, e4, h⟩ := bind_ok_inv _ _ _ h
  obtain ⟨d1, d2⟩ := (pollResize_ok_inv _ s4 p).1 e4
  obtain ⟨s5, e5, h⟩ := bind_ok_inv _ _ _ h
  obtain ⟨f1, f2⟩ := (pollResize_ok_inv s4 s5 p).2 e5
  obtain ⟨-, -, -, g4⟩ := pollPure_inv s5 p shiftTicks
  obtain ⟨s7, e7, h⟩ := bind_ok_inv _ _ _ h
  obtain ⟨i1, i2⟩ := (pollTransport_ok_inv _ s7 p posTick).1 e7
  obtain ⟨s8, e8, h⟩ := bind_ok_inv _ _ _ h
  obtain ⟨j1, j2⟩ := (pollTransport_ok_inv s7 s8 p posTick).2.1 e8
  obtain ⟨s9, e9, h⟩ := bind_ok_inv _ _ _ h
  obtain ⟨k1, k2⟩ := (pollTransport_ok_inv s8 s9 p posTick).2.2.1 e9
  obtain ⟨l1, l2⟩ := (pollTransport_ok_inv s9 s1 p posTick).2.2.2 h
  constructor
  · rw [l1, k1, j1, i1, g4.1, f1, d1, c3.1, b2.1, a1.1]
  · rw [l2, k2, j2, i2, g4.2, f2, d2, c3.2, b2.2, a1.2]

/-- A returning note-off poll keeps the output channel and appends at most one
event, a note-off of that channel. -/
theorem noteOffPoll_status (s s2 : MidiMetLV2) (f : Nat) (h : noteOffPoll s f = .ok s2) :
    s2.channelOut = s.channelOut ∧
    ∃ new, s2.events = s.events ++ new ∧ ∀ e ∈ new, e.status = toU8 (0x80 + s.channelOut) := by
  by_cases hb : s.bufPtr ≤ JQ_BUFSZ
  · by_cases hf : s.pollFires
    · obtain ⟨s1, e, hm, -, -, -, -, -, -, -, -, hev, -, -⟩ := noteOffPoll_fire s f hb hf
      rw [e] at h
      injection h with h
      subst h
      refine ⟨by show s1.toMidiMet.channelOut = _; rw [hm], _, hev, ?_⟩
      intro e he
      rw [List.mem_singleton] at he
      rw [he]
    · rw [noteOffPoll_idle s f hb hf] at h
      injection h with h
      subst h
      exact ⟨rfl, [], by rw [List.append_nil], by simp⟩
  · rw [noteOffPoll_overflow s f (by omega)] at h
    cases h

/-- A returning sample keeps the output channel and appends only note-ons and
note-offs of that channel. -/
theorem runSample_status (ts : Int) (s s3 : MidiMetLV2) (f dt : Nat)
    (h : runSample ts s f dt = .ok s3) :
    s3.channelOut = s.channelOut ∧
    ∃ new, s3.events = s.events ++ new ∧
      ∀ e ∈ new, e.status = toU8 (0x90 + s.channelOut) ∨
        e.status = toU8 (0x80 + s.channelOut) := by
  obtain ⟨s1, s2, h1, h2, rfl⟩ := runSample_ok_inv ts s s3 f dt h
  obtain ⟨c1, -, -, -, hcase⟩ := noteOnPart_ok_inv _ s1 f h1
  obtain ⟨c2, new2, e2, st2⟩ := noteOffPoll_status s1 s2 f h2
  obtain ⟨a1, -, -, -, -, -, a7⟩ := audioPart_frame s2 f
  have c1s : s1.channelOut = s.channelOut := c1
  have hc : (audioPart s2 f).channelOut = s.channelOut := by
    show (audioPart s2 f).toMidiMet.channelOut = _
    rw [a1]
    show s2.channelOut = _
    rw [c2, c1s]
  refine ⟨hc, ?_⟩
  rcases hcase with ⟨he, -, -, -⟩ | ⟨-, -, -, data, he, -, -, -⟩
  · refine ⟨new2, ?_, ?_⟩
    · rw [a7, e2, he]
      rfl
    · intro e hin
      right
      rw [st2 e hin, c1s]
  · refine ⟨{ frame := f, status := toU8 (0x90 + s.channelOut), note := toU8 data,
               velocity := toU8 s.vel } :: new2, ?_, ?_⟩
    · rw [a7, e2, he, List.append_assoc]
      rfl
    · intro e hin
      rcases List.mem_cons.mp hin with h0 | h0
      · left
        rw [h0]
      · right
        rw [st2 e h0, c1s]

/-- A returning render loop keeps the output channel and appends only note-ons
and note-offs of that channel. -/
theorem runFrom_status (ts : Int) (dt : Nat → Nat) (n : Nat) : ∀ (f : Nat) (s s3 : MidiMetLV2),
    runFrom ts dt n f s = .ok s3 →
    s3.channelOut = s.channelOut ∧
    ∃ new, s3.events = s.events ++ new ∧
      ∀ e ∈ new, e.status = toU8 (0x90 + s.channelOut) ∨
        e.status = toU8 (0x80 + s.channelOut) := by
  induction n with
  | zero =>
    intro f s s3 h
    injection h with h
    subst h
    exact ⟨rfl, [], by rw [List.append_nil], by simp⟩
  | succ n ih =>
    intro f s s3 h
    cases h1 : runSample ts s f (dt f) with
    | error e => simp only [runFrom, h1] at h; cases h
    | ok s1 =>
      simp only [runFrom, h1] at h
      obtain ⟨c1, new1, e1, st1⟩ := runSample_status ts s s1 f (dt f) h1
      obtain ⟨c2, new2, e2, st2⟩ := ih (f + 1) s1 s3 h
      refine ⟨by rw [c2, c1], new1 ++ new2, by rw [e2, e1, List.append_assoc], ?_⟩
      intro e hin
      rcases List.mem_append.mp hin with h0 | h0
      · exact st1 e h0
      · rw [← c1]
        exact st2 e h0

/-- Whatever the values of the ports, the output channel port included, a
returning `run` leaves `channelOut` as it was, and every event of the callback
is a note-on or a note-off of that channel. -/
theorem run_status (s s1 : MidiMetLV2) (nframes : Nat) (ts : Int) (p : Ports)
    (shiftTicks : Int) (posTick : Nat) (objs : List PositionAtom) (dt : Nat → Nat)
    (h : run s nframes ts p shiftTicks posTick objs dt = .ok s1) :
    s1.channelOut = s.channelOut ∧
    ∀ e ∈ s1.events, e.status = toU8 (0x90 + s.channelOut) ∨
      e.status = toU8 (0x80 + s.channelOut) := by
  unfold run at h
  simp only at h
  cases h1 : updateParams { s with events := [] } p shiftTicks posTick with
  | error e => rw [h1] at h; cases h
  | ok s2 =>
    rw [h1] at h
    simp only at h
    cases h2 : updatePosAtoms s2 objs with
    | error e => rw [h2] at h; cases h
    | ok s3 =>
      rw [h2] at h
      simp only at h
      obtain ⟨a1, a2⟩ := updateParams_ok_inv _ s2 p shiftTicks posTick h1
      obtain ⟨b1, b2⟩ := updatePosAtoms_ok_inv objs s2 s3 h2
      obtain ⟨c1, new, e1, st⟩ := runFrom_status ts dt nframes 0 s3 s1 h
      have hc : s3.channelOut = s.channelOut := by
        rw [b1, a1]
      have hev : s3.events = [] := by
        rw [b2, a2]
      refine ⟨by rw [c1, hc], ?_⟩
      intro e hin
      rw [e1, hev, List.nil_append] at hin
      rw [← hc]
      exact st e hin

/-- A returning note-off poll leaves the sequencer, the frame counter, the
click onset and the wave length as they are. -/
theorem noteOffPoll_frame (s s2 : MidiMetLV2) (f : Nat) (h : noteOffPoll s f = .ok s2) :
    s2.toMidiMet = s.toMidiMet ∧ s2.curFrame = s.curFrame ∧
    s2.soundOnFrame = s.soundOnFrame ∧ s2.wave_len = s.wave_len := by
  by_cases hb : s.bufPtr ≤ JQ_BUFSZ
  · by_cases hf : s.pollFires
    · obtain ⟨s1, e, hm, -, -, -, hc, hs, -, hw, -⟩ := noteOffPoll_fire s f hb hf
      rw [e] at h
      injection h with h
      subst h
      exact ⟨hm, hc, hs, hw⟩
    · rw [noteOffPoll_idle s f hb hf] at h
      injection h with h
      subst h
      exact ⟨rfl, rfl, rfl, rfl⟩
  · rw [noteOffPoll_overflow s f (by omega)] at h
    cases h

/-- With at least two pattern points and the frame pointer inside the pattern,
the audio sample of a sample that emits a note-on is the first value of the
accent table exactly when the note emitted is the accented one. -/
theorem audio_accent_many (s s1 s2 : MidiMetLV2) (f : Nat) (h1 : noteOnPart s f = .ok s1)
    (hon : s1.events ≠ s.events) (h2 : noteOffPoll s1 f = .ok s2)
    (hn : 2 ≤ s.res * s.size) (h0 : 0 ≤ s.framePtr) (hlt : s.framePtr < s.res * s.size)
    (hw : 0 < s.wave_len) :
    (s1.outFrame0.data = s.midiNoteKey + 12 ∨ s1.outFrame0.data = s.midiNoteKey) ∧
    (audioPart s2 f).output f =
      if s1.outFrame0.data = s.midiNoteKey + 12 then AudioSample.waveH 0 s.vel
      else AudioSample.waveL 0 s.vel := by
  obtain ⟨-, -, -, -, hg, -, -, -, -, hso, hcf, hwl⟩ := noteOnPart_emits s s1 f h1 hon
  obtain ⟨i1, i2, -, -, -, -, -, -, -, i10⟩ := MidiMet.getNextFrame_ok_inv _ _ _ hg
  have hres : s.res ≠ 0 := by
    intro hz; rw [hz, Int.zero_mul] at hn; omega
  have hsz : s.res * s.size ≠ 0 := by omega
  have hfp : s1.framePtr = (s.framePtr + 1).tmod (s.res * s.size) := by
    unfold MidiMet.getNextFrame at hg
    by_cases h3 : ((s.framePtr + 1).tmod (s.res * s.size)).tmod 2 = 0 ∧ TPQN.tdiv s.res = 0
    · simp [hres, hsz, h3] at hg
    · simp only [if_neg hres, if_neg hsz, if_neg h3] at hg
      injection hg with hg
      show s1.toMidiMet.framePtr = _
      rw [← hg]
  obtain ⟨f1, f2, f3, f4⟩ := noteOffPoll_frame s1 s2 f h2
  obtain ⟨-, hout⟩ := audioPart_output s2 f
  have hel : toU32 ((s2.curFrame : Int) - (s2.soundOnFrame : Int)) = 0 := by
    rw [f2, f3, hso, hcf, sub_self]
    unfold toU32
    decide
  have hw2 : 0 < s2.wave_len := by rw [f4, hwl]; exact hw
  have hv2 : s2.vel = s.vel := by
    show s2.toMidiMet.vel = _
    rw [f1]
    exact i2
  have hp2 : s2.framePtr = (s.framePtr + 1).tmod (s.res * s.size) := by
    show s2.toMidiMet.framePtr = _
    rw [f1]
    exact hfp
  rw [hel, if_pos hw2, hv2, hp2] at hout
  rw [hout, i10]
  by_cases hz : s.framePtr = 0
  · have h1n : (s.framePtr + 1).tmod (s.res * s.size) = 1 := by
      rw [hz]
      exact Int.tmod_eq_of_lt (by decide) (by omega)
    rw [if_pos hz, if_pos h1n, if_pos rfl]
    exact ⟨Or.inl rfl, rfl⟩
  · have h1n : (s.framePtr + 1).tmod (s.res * s.size) ≠ 1 := by
      rcases (show s.framePtr + 1 < s.res * s.size ∨ s.framePtr + 1 = s.res * s.size by omega)
        with hc | hc
      · rw [Int.tmod_eq_of_lt (by omega) hc]; omega
      · rw [hc, Int.tmod_self]; decide
    have hk : ¬ (s.midiNoteKey = s.midiNoteKey + 12) := by omega
    rw [if_neg hz, if_neg h1n, if_neg hk]
    exact ⟨Or.inr rfl, rfl⟩

/-- While the transport is stopped and the queue is empty, the render loop
only writes the tick and the audio samples and counts the frames: after `n`
samples the frame counter has advanced by `n` and the click onset, the
sequencer and the transport flags are as before. -/
theorem idle_run (ts : Int) (dt : Nat → Nat) (n : Nat) : ∀ (f : Nat) (s : MidiMetLV2),
    s.transportSpeed = 0 → s.bufPtr = 0 → s.curFrame + n < 18446744073709551616 →
    ∃ s1, runFrom ts dt n f s = .ok s1 ∧ s1.curFrame = s.curFrame + n ∧
      s1.soundOnFrame = s.soundOnFrame ∧ s1.transportSpeed = 0 ∧ s1.bufPtr = 0 ∧
      s1.toMidiMet = s.toMidiMet ∧ s1.wave_len = s.wave_len ∧
      s1.hostTransport = s.hostTransport := by
  induction n with
  | zero =>
    intro f s hsp hb _
    exact ⟨s, rfl, rfl, rfl, hsp, hb, rfl, rfl, rfl⟩
  | succ n ih =>
    intro f s hsp hb hlt
    obtain ⟨e, a1, a2, a3, a4, a5, a6, -⟩ := idle_sample ts s f (dt f) hsp hb
    obtain ⟨-, -, a7, -⟩ := audioPart_frame (tickState ts s (dt f)) f
    have hcf : toU64 ((s.curFrame : Int) + 1) = s.curFrame + 1 := by
      unfold toU64; omega
    rw [hcf] at a1
    obtain ⟨s1, e1, b1, b2, b3, b4, b5, b6, b7⟩ :=
      ih (f + 1) (audioPart (tickState ts s (dt f)) f) a3 a4 (by rw [a1]; omega)
    refine ⟨s1, ?_, by rw [b1, a1]; omega, by rw [b2, a2], b3, b4, by rw [b5, a5],
      by rw [b6, a6], by rw [b7, a7]; rfl⟩
    simp only [runFrom, e]
    exact e1

end MidiMetLV2

/-- Below zero the truncating division of the re-aligning advance rounds
towards zero: with the cursor at -100000 the call `getNextFrame(-100)` snaps
to -100 and emits the tick 0, above the requested tick. -/
theorem snap_negative_tick :
    ∃ m1, negativeCursor.getNextFrame (-100) = .ok m1 ∧ m1.framePtr = 2 ∧
      m1.outFrame0.tick = 0 ∧ m1.nextTick = 48000 := by
  refine ⟨_, MidiMet.getNextFrame_eq negativeCursor (-100) (by decide) (by decide) (by decide),
    ?_, ?_, ?_⟩
  · decide
  · decide
  · decide

namespace MidiMetLV2

/-- A returning note-off poll leaves the cursor-position port as it is. -/
theorem noteOffPoll_cursor (s s2 : MidiMetLV2) (f : Nat) (h : noteOffPoll s f = .ok s2) :
    s2.cursorPos = s.cursorPos := by
  by_cases hb : s.bufPtr ≤ JQ_BUFSZ
  · by_cases hf : s.pollFires
    · obtain ⟨s1, e, -, -, -, -, -, -, hc, -⟩ := noteOffPoll_fire s f hb hf
      rw [e] at h
      injection h with h
      subst h
      exact hc
    · rw [noteOffPoll_idle s f hb hf] at h
      injection h with h
      subst h
      rfl
  · rw [noteOffPoll_overflow s f (by omega)] at h
    cases h

/-- The audio part of a sample leaves the click onset and the cursor-position
port as they are. -/
theorem audioPart_cursor (s : MidiMetLV2) (f : Nat) :
    (audioPart s f).soundOnFrame = s.soundOnFrame ∧ (audioPart s f).cursorPos = s.cursorPos := by
  unfold audioPart
  simp only
  split_ifs <;> exact ⟨rfl, rfl⟩

/-- The note-off poll returns whenever `bufPtr` is at most `JQ_BUFSZ`. -/
theorem noteOffPoll_returns (s : MidiMetLV2) (f : Nat) (hb : s.bufPtr ≤ JQ_BUFSZ) :
    ∃ s2, noteOffPoll s f = .ok s2 := by
  by_cases hf : s.pollFires
  · obtain ⟨s1, e, -⟩ := noteOffPoll_fire s f hb hf
    exact ⟨s1, e⟩
  · exact ⟨s, noteOffPoll_idle s f hb hf⟩

end MidiMetLV2

/-- The slot computation of `setNextTick` at a tick of the grid, with the step
`TPQN / r` evaluated: a floor division of non-negative values. -/
theorem grid_slot_calc (k : Nat) (r step : Int) (hstep : TPQN.tdiv r = step) (h0 : 0 ≤ step)
    (hr : 0 ≤ r) :
    ((k : Int) * TPQN.tdiv r * r).tdiv TPQN = (k : Int) * step * r / 48000 := by
  rw [hstep]
  exact Int.tdiv_eq_ediv (Int.mul_nonneg (Int.mul_nonneg (Int.natCast_nonneg k) h0) hr)
    (by decide)

/-- The slot index `setNextTick` computes for the tick of the `k`-th slot of the
sequencer grid, `k * (TPQN / r)`: it is `k` when `r` divides `TPQN`, and
`k - 1` for the three resolutions of the table that do not (7, 9 and 11), as
long as `1 <= k <= 6857`. -/
theorem grid_slot_index (r : Int) (k : Nat) (hr : r ∈ seqResValues) :
    (r ∣ TPQN → ((k : Int) * TPQN.tdiv r * r).tdiv TPQN = (k : Int)) ∧
    (¬ r ∣ TPQN → 1 ≤ k → k ≤ 6857 →
      ((k : Int) * TPQN.tdiv r * r).tdiv TPQN = (k : Int) - 1) := by
  unfold seqResValues at hr
  simp only [List.mem_cons, List.mem_singleton, List.mem_nil_iff, or_false] at hr
  rcases hr with h | h | h | h | h | h | h | h | h | h | h | h | h <;> subst h
  · refine ⟨fun _ => ?_, fun hd => absurd (Dvd.intro 48000 (by decide)) hd⟩
    rw [grid_slot_calc k 1 48000 (by decide) (by decide) (by decide)]
    omega
  · refine ⟨fun _ => ?_, fun hd => absurd (Dvd.intro 24000 (by decide)) hd⟩
    rw [grid_slot_calc k 2 24000 (by decide) (by decide) (by decide)]
    omega
  · refine ⟨fun _ => ?_, fun hd => absurd (Dvd.intro 16000 (by decide)) hd⟩
    rw [grid_slot_calc k 3 16000 (by decide) (by decide) (by decide)]
    omega
  · refine ⟨fun _ => ?_, fun hd => absurd (Dvd.intro 12000 (by decide)) hd⟩
    rw [grid_slot_calc k 4 12000 (by decide) (by decide) (by decide)]
    omega
  · refine ⟨fun _ => ?_, fun hd => absurd (Dvd.intro 9600 (by decide)) hd⟩
    rw [grid_slot_calc k 5 9600 (by decide) (by decide) (by decide)]
    omega
  · refine ⟨fun _ => ?_, fun hd => absurd (Dvd.intro 8000 (by decide)) hd⟩
    rw [grid_slot_calc k 6 8000 (by decide) (by decide) (by decide)]
    omega
  · refine ⟨fun hd => ?_, fun _ h1 h2 => ?_⟩
    · exfalso
      unfold TPQN at hd
      omega
    · rw [grid_slot_calc k 7 6857 (by decide) (by decide) (by decide)]
      omega
  · refine ⟨fun _ => ?_, fun hd => absurd (Dvd.intro 6000 (by decide)) hd⟩
    rw [grid_slot_calc k 8 6000 (by decide) (by decide) (by decide)]
    omega
  · refine ⟨fun hd => ?_, fun _ h1 h2 => ?_⟩
    · exfalso
      unfold TPQN at hd
      omega
    · rw [grid_slot_calc k 9 5333 (by decide) (by decide) (by decide)]
      omega
  · refine ⟨fun _ => ?_, fun hd => absurd (Dvd.intro 4800 (by decide)) hd⟩
    rw [grid_slot_calc k 10 4800 (by decide) (by decide) (by decide)]
    omega
  · refine ⟨fun hd => ?_, fun _ h1 h2 => ?_⟩
    · exfalso
      unfold TPQN at hd
      omega
    · rw [grid_slot_calc k 11 4363 (by decide) (by decide) (by decide)]
      omega
  · refine ⟨fun _ => ?_, fun hd => absurd (Dvd.intro 4000 (by decide)) hd⟩
    rw [grid_slot_calc k 12 4000 (by decide) (by decide) (by decide)]
    omega
  · refine ⟨fun _ => ?_, fun hd => absurd (Dvd.intro 3000 (by decide)) hd⟩
    rw [grid_slot_calc k 16 3000 (by decide) (by decide) (by decide)]
    omega

namespace MidiMet

/-- The call `setNextTick(k * (TPQN / r))` in a state with the resolution `r`
and `nPoints = r * s`, both of the tables, as long as `k * TPQN` fits the
signed cursor: the frame pointer is the slot index of `grid_slot_index` modulo
`r * s`. -/
theorem setNextTick_grid (m : MidiMet) (r s : Int) (k : Nat) (hr : r ∈ seqResValues)
    (hs : s ∈ seqSizeValues) (hres : m.res = r) (hnp : m.nPoints = r * s)
    (hk : (k : Int) * TPQN < 9223372036854775808) :
    ∃ m1, m.setNextTick (k * (TPQN.tdiv r).toNat) = .ok m1 ∧
      m1.nextTick = (k : Int) * TPQN.tdiv r ∧
      m1.framePtr = (((k : Int) * TPQN.tdiv r * r).tdiv TPQN) % (r * s) := by
  have hb := mem_seqResValues_bounds hr
  have hm := valid_mul_bounds hr hs
  have hp : 0 < TPQN.tdiv r := tdiv_TPQN_pos (by omega) (by omega)
  have hle : TPQN.tdiv r * r ≤ TPQN := by
    have h1 := Int.tdiv_add_tmod TPQN r
    have h2 : 0 ≤ TPQN.tmod r := Int.tmod_nonneg r (by decide)
    have h3 : r * TPQN.tdiv r = TPQN.tdiv r * r := Int.mul_comm _ _
    omega
  have hk0 : (0 : Int) ≤ (k : Int) := Int.natCast_nonneg k
  have hcast : ((k * (TPQN.tdiv r).toNat : Nat) : Int) = (k : Int) * TPQN.tdiv r := by
    rw [Nat.cast_mul, Int.toNat_of_nonneg hp.le]
  have hprod : (k : Int) * TPQN.tdiv r * r ≤ (k : Int) * TPQN := by
    rw [Int.mul_assoc]
    exact Int.mul_le_mul_of_nonneg_left hle hk0
  have hstep : (k : Int) * TPQN.tdiv r ≤ (k : Int) * TPQN.tdiv r * r := by
    have : (k : Int) * TPQN.tdiv r * 1 ≤ (k : Int) * TPQN.tdiv r * r :=
      Int.mul_le_mul_of_nonneg_left (by omega) (Int.mul_nonneg hk0 hp.le)
    rw [Int.mul_one] at this
    exact this
  have hq0 : 0 ≤ ((k : Int) * TPQN.tdiv r * r).tdiv TPQN := by
    rw [Int.tdiv_eq_ediv (Int.mul_nonneg (Int.mul_nonneg hk0 hp.le) (by omega)) (by decide)]
    exact Int.ediv_nonneg (Int.mul_nonneg (Int.mul_nonneg hk0 hp.le) (by omega)) (by decide)
  have hv := setNextTick_value m (k * (TPQN.tdiv r).toNat) (by rw [hres]; omega)
    (by rw [hres]; omega) (by rw [hnp]; omega) (by rw [hnp]; omega)
    (by rw [hcast, hres]; omega) (by rw [hcast]; omega)
  rw [hcast, hres, hnp, Int.tmod_eq_emod hq0 (by omega)] at hv
  generalize (((k : Int) * TPQN.tdiv r * r).tdiv TPQN) % (r * s) = x at hv ⊢
  generalize (k : Int) * TPQN.tdiv r = t at hv ⊢
  exact ⟨_, hv, rfl, rfl⟩

/-- The sequencer asked with its own cursor, as the render loop does: the snap
condition is false, the emitted tick is the cursor itself when the advanced
frame pointer is odd and the cursor rounded down to the grid when it is even,
and the cursor advances by more than zero and at most one step. -/
theorem getNextFrame_own_cursor (m : MidiMet) (hr : m.res ∈ seqResValues) (hs : m.size ≠ 0)
    (hn : 0 ≤ m.nextTick) :
    ∃ m1, m.getNextFrame m.nextTick = .ok m1 ∧ m1.res = m.res ∧ m1.size = m.size ∧
      m1.isMuted = m.isMuted ∧ m1.channelOut = m.channelOut ∧
      ¬ (m.nextTick < m.nextTick - TPQN.tdiv m.res) ∧
      (m1.framePtr.tmod 2 ≠ 0 → m1.outFrame0.tick = m.nextTick) ∧
      (m1.framePtr.tmod 2 = 0 →
        m1.outFrame0.tick = m.nextTick / TPQN.tdiv m.res * TPQN.tdiv m.res) ∧
      m1.outFrame0.tick ≤ m.nextTick ∧ m.nextTick - TPQN.tdiv m.res < m1.outFrame0.tick ∧
      m1.nextTick = m1.outFrame0.tick + TPQN.tdiv m.res ∧
      m.nextTick < m1.nextTick ∧ m1.nextTick ≤ m.nextTick + TPQN.tdiv m.res := by
  have hb := mem_seqResValues_bounds hr
  have hp : 0 < TPQN.tdiv m.res := tdiv_TPQN_pos (by omega) (by omega)
  have hsz : m.res * m.size ≠ 0 := by
    intro h; rcases Int.mul_eq_zero.mp h with h | h <;> omega
  obtain ⟨m1, e, r1, s1, -, -, -, -, c1, u1, f9, n1, t1, -, -, -⟩ :=
    getNextFrame_fields m m.nextTick (by omega) hsz (by omega)
  have hno : ¬ (m.nextTick < m.nextTick - TPQN.tdiv m.res) := by omega
  have hem : m.emittedTick m.nextTick =
      if m1.framePtr.tmod 2 = 0 then m.nextTick.tdiv (TPQN.tdiv m.res) * TPQN.tdiv m.res
      else m.nextTick := by
    unfold emittedTick
    rw [f9, if_neg hno]
  refine ⟨m1, e, r1, s1, u1, c1, hno, ?_⟩
  rw [n1, t1, hem]
  generalize TPQN.tdiv m.res = step at hp ⊢
  obtain ⟨q1, q2⟩ := tdiv_mul_le m.nextTick step hn hp
  obtain ⟨q3, -⟩ := tdiv_mul_bounds m.nextTick step hp
  refine ⟨fun h => by rw [if_neg h], fun h => by rw [if_pos h, q2], ?_, ?_, rfl, ?_, ?_⟩ <;>
    split <;> omega

/-- The first of `k + 1` clicks can be taken first. -/
theorem clicks_succ_left (m m1 : MidiMet) (h : m.getNextFrame m.nextTick = .ok m1) (k : Nat) :
    m.clicks (k + 1) = m1.clicks k := by
  induction k with
  | zero => simp only [clicks, h]
  | succ k ih =>
    show (match m.clicks (k + 1) with
      | Except.error e => Except.error e
      | Except.ok m2 => m2.getNextFrame m2.nextTick) = m1.clicks (k + 1)
    rw [ih]
    rfl

end MidiMet

namespace MidiMetLV2

/-- With the cursor in `[0, 2 ^ 64)` the click is due exactly when the tick has
reached the cursor and the transport is running. -/
theorem clickDue_iff (s : MidiMetLV2) (hn : 0 ≤ s.nextTick)
    (hn2 : s.nextTick < 18446744073709551616) :
    s.clickDue ↔ (s.nextTick ≤ (s.curTick : Int) ∧ s.transportSpeed ≠ 0) := by
  have h64 : (toU64 s.nextTick : Int) = s.nextTick := toU64_of_nonneg_lt hn hn2
  unfold clickDue
  constructor
  · intro h
    exact ⟨by have := h.1; omega, h.2⟩
  · intro h
    exact ⟨by have := h.1; omega, h.2⟩

/-- An event list of note-offs of channel `c` holds no note-on of that channel. -/
theorem noteOns_of_offs (c : Int) (new : List MidiEvent)
    (h : ∀ e ∈ new, e.status = toU8 (0x80 + c)) : noteOns c new = [] := by
  unfold noteOns
  rw [List.map_eq_nil_iff, List.filter_eq_nil_iff]
  intro e he
  rw [h e he]
  simp [(toU8_on_ne_off c).symm]

/-- The note-off poll on a queue within its bounds: it returns, keeps the
sequencer and the transport speed, does not grow the queue and appends only
note-offs. -/
theorem noteOffPoll_keeps (s : MidiMetLV2) (f : Nat) (h0 : 0 ≤ s.bufPtr)
    (hb : s.bufPtr ≤ JQ_BUFSZ) :
    ∃ s2, noteOffPoll s f = .ok s2 ∧ s2.toMidiMet = s.toMidiMet ∧
      s2.transportSpeed = s.transportSpeed ∧ 0 ≤ s2.bufPtr ∧ s2.bufPtr ≤ s.bufPtr ∧
      ∃ new, s2.events = s.events ++ new ∧ ∀ e ∈ new, e.status = toU8 (0x80 + s.channelOut) := by
  by_cases hf : s.pollFires
  · obtain ⟨s2, e2, hm, hsp, -, -, -, -, -, -, hbp, hev, -, -⟩ := noteOffPoll_fire s f hb hf
    have := hf.1
    refine ⟨s2, e2, hm, hsp, by omega, by omega, _, hev, ?_⟩
    intro e he
    rw [List.mem_singleton] at he
    rw [he]
  · exact ⟨s, noteOffPoll_idle s f hb hf, rfl, rfl, h0, le_refl _, [],
      by rw [List.append_nil], by simp⟩

/-- A sample on which the transport is running and the tick has reached the
cursor, with a valid pattern and room in the queue: the sample returns, the
sequencer has been advanced by `getNextFrame(nextTick)`, and unless the output
is muted exactly one note-on has been emitted. -/
theorem due_sample (ts : Int) (s : MidiMetLV2) (f dt : Nat) (hv : s.toMidiMet.Valid)
    (hn : 0 ≤ s.nextTick) (hn2 : s.nextTick < 18446744073709551616)
    (hsp : s.transportSpeed ≠ 0) (h0 : 0 ≤ s.bufPtr) (hb : s.bufPtr < JQ_BUFSZ)
    (hd : s.nextTick ≤ ((tickState ts s dt).curTick : Int)) :
    ∃ s3 m, s.toMidiMet.getNextFrame s.nextTick = .ok m ∧ runSample ts s f dt = .ok s3 ∧
      s3.toMidiMet = m ∧ s3.transportSpeed = s.transportSpeed ∧ 0 ≤ s3.bufPtr ∧
      s3.bufPtr ≤ s.bufPtr + 1 ∧
      (s.isMuted = false → (noteOns s.channelOut s3.events).length
        = (noteOns s.channelOut s.events).length + 1) := by
  have hdue : (tickState ts s dt).clickDue :=
    (clickDue_iff (tickState ts s dt) hn hn2).mpr ⟨hd, hsp⟩
  obtain ⟨d1, d2, d3⟩ := MidiMet.valid_defined s.toMidiMet hv
  obtain ⟨m, hg, -⟩ := MidiMet.getNextFrame_fields s.toMidiMet s.nextTick d1 d2 d3
  obtain ⟨i1, -⟩ := MidiMet.getNextFrame_ok_inv _ _ _ hg
  have hg2 : (tickState ts s dt).toMidiMet.getNextFrame (tickState ts s dt).nextTick = .ok m :=
    hg
  have key : ∃ s1, noteOnPart (tickState ts s dt) f = .ok s1 ∧ s1.toMidiMet = m ∧
      s1.transportSpeed = s.transportSpeed ∧ 0 ≤ s1.bufPtr ∧ s1.bufPtr ≤ s.bufPtr + 1 ∧
      (s.isMuted = false → noteOns s.channelOut s1.events
        = noteOns s.channelOut s.events ++ [toU8 m.outFrame0.data]) := by
    by_cases hmu : s.isMuted = false
    · obtain ⟨-, hin⟩ := noteOnPart_due (tickState ts s dt) f m hdue hg2 hmu
      obtain ⟨s1, e1, j1, j2, -, -, j5, j6, -, -⟩ := hin h0 hb
      have j5b : s1.bufPtr = s.bufPtr + 1 := j5
      refine ⟨s1, e1, j1, j2, by omega, by omega, fun _ => ?_⟩
      rw [j6, noteOns_append]
      have hc : (tickState ts s dt).channelOut = s.channelOut := rfl
      rw [hc, noteOns_on]
      rfl
    · have hm : s.isMuted = true := by simpa using hmu
      obtain ⟨s1, e1, j1, j2⟩ := noteOnPart_muted (tickState ts s dt) f m hdue hg2 hm
      obtain ⟨-, k2, -⟩ := noteOnPart_ok_inv _ s1 f e1
      have j2b : s1.bufPtr = s.bufPtr := j2
      exact ⟨s1, e1, j1, k2, by omega, by omega, fun h => absurd h hmu⟩
  obtain ⟨s1, e1, m1, sp1, lo1, hi1, on1⟩ := key
  obtain ⟨s2, e2, m2, sp2, lo2, hi2, new, ev2, st2⟩ :=
    noteOffPoll_keeps s1 f lo1 (by omega)
  obtain ⟨a1, a2, -, a4, -, -, a7⟩ := audioPart_frame s2 f
  refine ⟨audioPart s2 f, m, hg, runSample_ok ts s s1 s2 f dt e1 e2, by rw [a1, m2, m1],
    by rw [a2, sp2, sp1], by rw [a4]; exact lo2, by rw [a4]; omega, fun hmu => ?_⟩
  have hc1 : s1.channelOut = s.channelOut := by
    show s1.toMidiMet.channelOut = _
    rw [m1]
    exact i1
  rw [hc1] at st2
  rw [a7, ev2, noteOns_append, on1 hmu, noteOns_of_offs _ new st2, List.append_nil,
    List.length_append]
  rfl

/-- Catching up: when the transport is running and on each of `n` consecutive
samples the tick is at least one step per sample ahead of the cursor the loop
was entered with, the pattern is valid and the queue has room, the loop
returns, a click has fired on each of the `n` samples, the sequencer being
asked with its own cursor each time, the cursor has advanced by at most `n`
steps, and unless the output is muted `n` note-ons have been emitted. -/
theorem catch_up_run (ts : Int) (dt : Nat → Nat) (n : Nat) : ∀ (f : Nat) (s : MidiMetLV2),
    s.toMidiMet.Valid → 0 ≤ s.nextTick →
    s.nextTick + (n : Int) * TPQN.tdiv s.res < 9223372036854775808 →
    s.transportSpeed ≠ 0 → 0 ≤ s.bufPtr → s.bufPtr + (n : Int) ≤ JQ_BUFSZ →
    (∀ i : Nat, i < n →
      s.nextTick + (i : Int) * TPQN.tdiv s.res ≤ (shiftTick (toU64 (dt (f + i))) ts : Int)) →
    ∃ s1, runFrom ts dt n f s = .ok s1 ∧ s.toMidiMet.clicks n = .ok s1.toMidiMet ∧
      s.nextTick ≤ s1.nextTick ∧ s1.nextTick ≤ s.nextTick + (n : Int) * TPQN.tdiv s.res ∧
      s1.transportSpeed = s.transportSpeed ∧
      (s.isMuted = false → (noteOns s.channelOut s1.events).length
        = (noteOns s.channelOut s.events).length + n) := by
  induction n with
  | zero =>
    intro f s _ _ _ _ _ _ _
    refine ⟨s, rfl, rfl, le_refl _, ?_, rfl, fun _ => rfl⟩
    simp
  | succ n ih =>
    intro f s hv hn hlim hsp h0 hb hahead
    have hbr := mem_seqResValues_bounds hv.1
    have hbs := mem_seqSizeValues_bounds hv.2
    have hp : 0 < TPQN.tdiv s.res := tdiv_TPQN_pos (by omega) (by omega)
    have hcast : ((n + 1 : Nat) : Int) * TPQN.tdiv s.res
        = (n : Int) * TPQN.tdiv s.res + TPQN.tdiv s.res := by
      push_cast; ring
    have hnn : 0 ≤ (n : Int) * TPQN.tdiv s.res :=
      Int.mul_nonneg (Int.natCast_nonneg n) hp.le
    rw [hcast] at hlim
    have hd0 : s.nextTick ≤ ((tickState ts s (dt f)).curTick : Int) := by
      have := hahead 0 (Nat.succ_pos n)
      simpa using this
    obtain ⟨s3, m, hg, e3, t3, sp3, lo3, hi3, on3⟩ :=
      due_sample ts s f (dt f) hv hn (by omega) hsp h0 (by push_cast at hb; omega) hd0
    obtain ⟨m1, hg1, r1, z1, u1, c1, -, -, -, -, -, -, g1, g2⟩ :=
      MidiMet.getNextFrame_own_cursor s.toMidiMet hv.1 (by omega) hn
    rw [hg] at hg1
    injection hg1 with hg1
    subst hg1
    have r3 : s3.res = s.res := by
      show s3.toMidiMet.res = _
      rw [t3]; exact r1
    have n3a : s.nextTick < s3.nextTick := by
      show _ < s3.toMidiMet.nextTick
      rw [t3]; exact g1
    have n3b : s3.nextTick ≤ s.nextTick + TPQN.tdiv s.res := by
      show s3.toMidiMet.nextTick ≤ _
      rw [t3]; exact g2
    have hv3 : s3.toMidiMet.Valid := by
      unfold MidiMet.Valid
      rw [t3, r1, z1]
      exact hv
    have hahead3 : ∀ i : Nat, i < n →
        s3.nextTick + (i : Int) * TPQN.tdiv s3.res
          ≤ (shiftTick (toU64 (dt (f + 1 + i))) ts : Int) := by
      intro i hi
      have h1 := hahead (i + 1) (Nat.succ_lt_succ hi)
      have h2 : ((i + 1 : Nat) : Int) * TPQN.tdiv s.res
          = (i : Int) * TPQN.tdiv s.res + TPQN.tdiv s.res := by
        push_cast; ring
      have h3 : f + (i + 1) = f + 1 + i := by omega
      rw [h2, h3] at h1
      rw [r3]
      omega
    obtain ⟨s1, e1, k1, lo1, hi1, sp1, on1⟩ :=
      ih (f + 1) s3 hv3 (by omega) (by rw [r3]; omega) (by rw [sp3]; exact hsp) lo3
        (by push_cast at hb; omega) hahead3
    rw [r3] at hi1
    have mu3 : s3.isMuted = s.isMuted := by
      show s3.toMidiMet.isMuted = _
      rw [t3]; exact u1
    have ch3 : s3.channelOut = s.channelOut := by
      show s3.toMidiMet.channelOut = _
      rw [t3]; exact c1
    refine ⟨s1, by simp only [runFrom, e3]; exact e1, ?_, by omega, by rw [hcast]; omega,
      by rw [sp1, sp3], fun hmu => ?_⟩
    · rw [MidiMet.clicks_succ_left s.toMidiMet m hg n, ← t3]
      exact k1
    · rw [ch3] at on1
      rw [on1 (by rw [mu3]; exact hmu), on3 hmu]
      omega

/-- A returning note-on part on which the click was due has asked the
sequencer with its own cursor: the sequencer state it returns with is the
result of `getNextFrame(nextTick)`. -/
theorem noteOnPart_sequencer (s s1 : MidiMetLV2) (f : Nat) (h : noteOnPart s f = .ok s1)
    (hdue : s.clickDue) : s.toMidiMet.getNextFrame s.nextTick = .ok s1.toMidiMet := by
  cases hg : s.toMidiMet.getNextFrame s.nextTick with
  | error e =>
    have hdue2 := hdue
    unfold clickDue at hdue2
    simp only [noteOnPart, if_pos hdue2, hg] at h
    cases h
  | ok m =>
    by_cases hmu : s.isMuted = true
    · obtain ⟨s2, e, t, -⟩ := noteOnPart_muted s f m hdue hg hmu
      rw [e] at h
      injection h with h
      subst h
      rw [t]
    · have hmu2 : s.isMuted = false := by simpa using hmu
      obtain ⟨d1, d2⟩ := noteOnPart_due s f m hdue hg hmu2
      by_cases hb : s.bufPtr < 0 ∨ JQ_BUFSZ ≤ s.bufPtr
      · rw [d1 hb] at h
        cases h
      · obtain ⟨s2, e, t, -⟩ := d2 (by omega) (by omega)
        rw [e] at h
        injection h with h
        subst h
        rw [t]

/-- The sequencer state after a returning sample: the result of
`getNextFrame(nextTick)` when the click was due, unchanged otherwise. -/
theorem runSample_sequencer (ts : Int) (s s3 : MidiMetLV2) (f dt : Nat)
    (h : runSample ts s f dt = .ok s3) :
    ((tickState ts s dt).clickDue →
      s.toMidiMet.getNextFrame s.nextTick = .ok s3.toMidiMet) ∧
    (¬ (tickState ts s dt).clickDue → s3.toMidiMet = s.toMidiMet) := by
  obtain ⟨s1, s2, h1, h2, rfl⟩ := runSample_ok_inv ts s s3 f dt h
  obtain ⟨p1, -⟩ := noteOffPoll_frame _ s2 f h2
  obtain ⟨a1, -⟩ := audioPart_frame s2 f
  constructor
  · intro hdue
    have := noteOnPart_sequencer _ s1 f h1 hdue
    rw [a1, p1]
    exact this
  · intro hnd
    rw [noteOnPart_idle _ f hnd] at h1
    injection h1 with h1
    subst h1
    rw [a1, p1]
    rfl

/-- Catching up: when the transport is running, the pattern is valid, the
queue has room and on each of `n` consecutive samples the tick has reached the
cursor the sequencer has after the clicks before it, the loop returns having
fired a click on each of the `n` samples: the sequencer has been asked `n`
times with its own cursor, the cursor has advanced by at most `n` steps, and
unless the output is muted `n` note-ons have been emitted. -/
theorem catch_up_exact (ts : Int) (dt : Nat → Nat) (n : Nat) : ∀ (f : Nat) (s : MidiMetLV2),
    s.toMidiMet.Valid → 0 ≤ s.nextTick →
    s.nextTick + (n : Int) * TPQN.tdiv s.res < 9223372036854775808 →
    s.transportSpeed ≠ 0 → 0 ≤ s.bufPtr → s.bufPtr + (n : Int) ≤ JQ_BUFSZ →
    (∀ i : Nat, i < n → ∃ mi, s.toMidiMet.clicks i = .ok mi ∧
      mi.nextTick ≤ (shiftTick (toU64 (dt (f + i))) ts : Int)) →
    ∃ s1, runFrom ts dt n f s = .ok s1 ∧ s.toMidiMet.clicks n = .ok s1.toMidiMet ∧
      s.nextTick ≤ s1.nextTick ∧ s1.nextTick ≤ s.nextTick + (n : Int) * TPQN.tdiv s.res ∧
      s1.transportSpeed = s.transportSpeed ∧
      (s.isMuted = false → (noteOns s.channelOut s1.events).length
        = (noteOns s.channelOut s.events).length + n) := by
  induction n with
  | zero =>
    intro f s _ _ _ _ _ _ _
    refine ⟨s, rfl, rfl, le_refl _, ?_, rfl, fun _ => rfl⟩
    simp
  | succ n ih =>
    intro f s hv hn hlim hsp h0 hb hahead
    have hbr := mem_seqResValues_bounds hv.1
    have hbs := mem_seqSizeValues_bounds hv.2
    have hp : 0 < TPQN.tdiv s.res := tdiv_TPQN_pos (by omega) (by omega)
    have hcast : ((n + 1 : Nat) : Int) * TPQN.tdiv s.res
        = (n : Int) * TPQN.tdiv s.res + TPQN.tdiv s.res := by
      push_cast; ring
    have hnn : 0 ≤ (n : Int) * TPQN.tdiv s.res :=
      Int.mul_nonneg (Int.natCast_nonneg n) hp.le
    rw [hcast] at hlim
    have hd0 : s.nextTick ≤ ((tickState ts s (dt f)).curTick : Int) := by
      obtain ⟨m0, e0, l0⟩ := hahead 0 (Nat.succ_pos n)
      have e00 : s.toMidiMet.clicks 0 = .ok s.toMidiMet := rfl
      rw [e00] at e0
      injection e0 with e0
      subst e0
      simpa using l0
    obtain ⟨s3, m, hg, e3, t3, sp3, lo3, hi3, on3⟩ :=
      due_sample ts s f (dt f) hv hn (by omega) hsp h0 (by push_cast at hb; omega) hd0
    obtain ⟨m1, hg1, r1, z1, u1, c1, -, -, -, -, -, -, g1, g2⟩ :=
      MidiMet.getNextFrame_own_cursor s.toMidiMet hv.1 (by omega) hn
    rw [hg] at hg1
    injection hg1 with hg1
    subst hg1
    have r3 : s3.res = s.res := by
      show s3.toMidiMet.res = _
      rw [t3]; exact r1
    have n3a : s.nextTick < s3.nextTick := by
      show _ < s3.toMidiMet.nextTick
      rw [t3]; exact g1
    have n3b : s3.nextTick ≤ s.nextTick + TPQN.tdiv s.res := by
      show s3.toMidiMet.nextTick ≤ _
      rw [t3]; exact g2
    have hv3 : s3.toMidiMet.Valid := by
      unfold MidiMet.Valid
      rw [t3, r1, z1]
      exact hv
    have hahead3 : ∀ i : Nat, i < n → ∃ mi, s3.toMidiMet.clicks i = .ok mi ∧
        mi.nextTick ≤ (shiftTick (toU64 (dt (f + 1 + i))) ts : Int) := by
      intro i hi
      obtain ⟨mi, ei, li⟩ := hahead (i + 1) (Nat.succ_lt_succ hi)
      have h3 : f + (i + 1) = f + 1 + i := by omega
      rw [h3] at li
      rw [MidiMet.clicks_succ_left s.toMidiMet m hg i, ← t3] at ei
      exact ⟨mi, ei, li⟩
    obtain ⟨s1, e1, k1, lo1, hi1, sp1, on1⟩ :=
      ih (f + 1) s3 hv3 (by omega) (by rw [r3]; omega) (by rw [sp3]; exact hsp) lo3
        (by push_cast at hb; omega) hahead3
    rw [r3] at hi1
    have mu3 : s3.isMuted = s.isMuted := by
      show s3.toMidiMet.isMuted = _
      rw [t3]; exact u1
    have ch3 : s3.channelOut = s.channelOut := by
      show s3.toMidiMet.channelOut = _
      rw [t3]; exact c1
    refine ⟨s1, by simp only [runFrom, e3]; exact e1, ?_, by omega, by rw [hcast]; omega,
      by rw [sp1, sp3], fun hmu => ?_⟩
    · rw [MidiMet.clicks_succ_left s.toMidiMet m hg n, ← t3]
      exact k1
    · rw [ch3] at on1
      rw [on1 (by rw [mu3]; exact hmu), on3 hmu]
      omega

end MidiMetLV2

/-! ## The claims -/

/-- C1 (evaluation at the failing input).  From the fresh plugin with note
length 48000, a render loop of 1025 samples whose derived ticks stay ahead of
the sequencer cursor queues one note-off per sample; on the 1025th sample
`bufPtr` is 1024 and the store `evTickQueue[bufPtr]` is outside the array:
the note-on is not dropped, the code writes past the capacity. -/
theorem note_queue_overflow :
    MidiMetLV2.runLoop 0 overflowTicks overflowStart 1025 = .error (.outOfBounds 1024) := by
  apply MidiMetLV2.filling_run 1024 0 _ _ (by omega)
  refine ⟨rfl, rfl, rfl, rfl, rfl, rfl, rfl, rfl, ?_⟩
  intro i hi
  omega

/-- C2 (note-off poll).  On a queue within its bounds the poll always returns.
With an empty queue it changes nothing.  With a non-empty queue there is an
index `idx` inside the queue that holds the least pending end tick and is the
lowest index holding it; if `curTick` has reached that tick, or host transport
is enabled and `transportSpeed` is 0, the poll appends exactly one event, the
note-off carrying the note byte of the entry at `idx`; otherwise it returns
the state unchanged (no event, same queue). -/
theorem noteOff_poll (s : MidiMetLV2) (f : Nat) (h0 : 0 ≤ s.bufPtr)
    (hb : s.bufPtr ≤ JQ_BUFSZ) :
    (s.bufPtr = 0 → MidiMetLV2.noteOffPoll s f = .ok s) ∧
    (s.bufPtr ≠ 0 →
      ∃ idx : Nat, (idx : Int) < s.bufPtr ∧
        (∀ i : Nat, (i : Int) < s.bufPtr → s.evTickQueue idx ≤ s.evTickQueue i) ∧
        (∀ i : Nat, i < idx → s.evTickQueue idx < s.evTickQueue i) ∧
        ((s.evTickQueue idx ≤ s.curTick ∨ (s.hostTransport = true ∧ s.transportSpeed = 0)) →
          ∃ s1, MidiMetLV2.noteOffPoll s f = .ok s1 ∧
            s1.events = s.events ++
              [{ frame := f, status := toU8 (0x80 + s.channelOut),
                 note := s.evQueue idx % 256, velocity := 127 }]) ∧
        (¬ (s.evTickQueue idx ≤ s.curTick ∨ (s.hostTransport = true ∧ s.transportSpeed = 0)) →
          MidiMetLV2.noteOffPoll s f = .ok s)) := by
  constructor
  · intro hz
    exact MidiMetLV2.noteOffPoll_idle s f hb (fun h => h.1 hz)
  · intro hnz
    obtain ⟨m1, m2, m3, m4⟩ := MidiMetLV2.scan_min s.evTickQueue s.bufPtr.toNat (by omega)
    have hmt : s.minTick = s.evTickQueue s.minIdx := m1
    refine ⟨s.minIdx, ?_, ?_, ?_, ?_, ?_⟩
    · have : s.minIdx < s.bufPtr.toNat := m2
      omega
    · intro i hi
      exact m3 i (by omega)
    · intro i hi
      exact m4 i hi
    · intro hc
      have hf : s.pollFires := ⟨hnz, by rw [hmt]; exact hc⟩
      obtain ⟨s1, e, -, -, -, -, -, -, -, -, -, hev, -, -⟩ := MidiMetLV2.noteOffPoll_fire s f hb hf
      exact ⟨s1, e, hev⟩
    · intro hc
      apply MidiMetLV2.noteOffPoll_idle s f hb
      intro hf
      apply hc
      have := hf.2
      rw [hmt] at this
      exact this

/-- Witness of C2: with the entries (69, 500) and (57, 300) pending at tick 400,
the poll emits the note-off of note 57, the entry with the least end tick. -/
theorem noteOff_poll_witness :
    ∃ s1, MidiMetLV2.noteOffPoll twoPending 7 = .ok s1 ∧
      s1.events = [{ frame := 7, status := 128, note := 57, velocity := 127 }] := by
  obtain ⟨idx, hlt, hmin, -, hfire, -⟩ :=
    (noteOff_poll twoPending 7 (by decide) (by decide)).2 (by decide)
  have hlt2 : (idx : Int) < 2 := hlt
  have h1 := hmin 1 (by decide)
  have hidx : idx = 1 := by
    rcases Nat.lt_or_ge idx 1 with h | h
    · have : idx = 0 := by omega
      subst this
      exact absurd h1 (by decide)
    · omega
  subst hidx
  obtain ⟨s1, e, hev⟩ := hfire (Or.inl (by decide))
  refine ⟨s1, e, ?_⟩
  rw [hev]
  have : toU8 (0x80 + twoPending.channelOut) = 128 := by
    show toU8 (0x80 + 0) = 128
    unfold toU8; decide
  rw [this]
  rfl

/-- C3 (removal).  When the poll fires on a queue within its bounds, it returns
a state in which `bufPtr` is one less and the pending list (notes paired
with end ticks) is the previous list with the entry at the removed index erased:
the entries before that index are unchanged and the entries after it have
moved down by one, note and end tick together. -/
theorem noteOff_removal (s : MidiMetLV2) (f : Nat) (h0 : 0 ≤ s.bufPtr)
    (hb : s.bufPtr ≤ JQ_BUFSZ) (hfire : s.pollFires) :
    ∃ s1, MidiMetLV2.noteOffPoll s f = .ok s1 ∧ s1.bufPtr = s.bufPtr - 1 ∧
      (s.minIdx : Int) < s.bufPtr ∧
      s1.pending = s.pending.eraseIdx s.minIdx ∧
      (∀ i : Nat, i < s.minIdx →
        s1.evQueue i = s.evQueue i ∧ s1.evTickQueue i = s.evTickQueue i) ∧
      (∀ i : Nat, s.minIdx ≤ i → (i : Int) + 1 < s.bufPtr →
        s1.evQueue i = s.evQueue (i + 1) ∧ s1.evTickQueue i = s.evTickQueue (i + 1)) := by
  have hpos : 0 < s.bufPtr := lt_of_le_of_ne h0 (Ne.symm hfire.1)
  obtain ⟨-, m2, -, -⟩ := MidiMetLV2.scan_min s.evTickQueue s.bufPtr.toNat (by omega)
  have hidx : s.minIdx < s.bufPtr.toNat := m2
  obtain ⟨s1, e, -, -, -, -, -, -, -, -, hbp, -, hq, htq⟩ :=
    MidiMetLV2.noteOffPoll_fire s f hb hfire
  refine ⟨s1, e, hbp, by omega, MidiMetLV2.pending_after_fire s s1 hpos hidx hbp hq htq, ?_, ?_⟩
  · intro i hi
    rw [hq i, htq i]
    have : ¬ (s.minIdx ≤ i ∧ i < s.minIdx + (s.bufPtr - 1 - s.minIdx).toNat) := by omega
    rw [if_neg this, if_neg this]
    exact ⟨rfl, rfl⟩
  · intro i hi1 hi2
    rw [hq i, htq i]
    have : s.minIdx ≤ i ∧ i < s.minIdx + (s.bufPtr - 1 - s.minIdx).toNat := by omega
    rw [if_pos this, if_pos this]
    exact ⟨rfl, rfl⟩

/-- Witness of C3: with (69, 500) and (57, 300) pending at tick 400 the poll
removes the second entry and leaves the single entry (69, 500). -/
theorem noteOff_removal_witness :
    twoPending.pollFires ∧
    ∃ s1, MidiMetLV2.noteOffPoll twoPending 7 = .ok s1 ∧ s1.bufPtr = 1 ∧
      s1.pending = [(69, 500)] := by
  have hf : twoPending.pollFires := ⟨by decide, Or.inl (by decide)⟩
  obtain ⟨s1, e, hbp, -, hp, -, -⟩ := noteOff_removal twoPending 7 (by decide) (by decide) hf
  refine ⟨hf, s1, e, hbp, ?_⟩
  rw [hp]
  decide

/-- C4 (counterexample).  With host transport enabled, the transport stopped and
two note-offs pending, a call of the loop with `nframes = 1` emits one of them
and returns with the other still pending (`bufPtr = 1`). -/
theorem stop_flush_counterexample :
    twoPendingStopped.hostTransport = true ∧ twoPendingStopped.transportSpeed = 0 ∧
    twoPendingStopped.bufPtr = 2 ∧
    ∃ s3, MidiMetLV2.runLoop 0 (fun _ => 0) twoPendingStopped 1 = .ok s3 ∧
      s3.bufPtr = 1 ∧ s3.pending = [(69, 500)] ∧
      s3.events = [{ frame := 0, status := 128, note := 57, velocity := 127 }] := by
  refine ⟨rfl, rfl, rfl, _, by with_unfolding_all rfl, ?_, ?_, ?_⟩
  · with_unfolding_all rfl
  · with_unfolding_all rfl
  · with_unfolding_all rfl

/-- C4 (amended).  For every call of the loop made while host transport is
enabled and `transportSpeed` is 0, on a queue within its bounds: the loop
returns; it emits no note-on and exactly `min nframes bufPtr` note-offs, one on
each of the first samples of the call; `bufPtr` decreases by that number; the
notes emitted together with those still pending are the notes pending at the
start.  When `nframes >= bufPtr`, every note-off pending at the start is
emitted during the call and the list is empty when the call returns. -/
theorem stop_flush (ts : Int) (dt : Nat → Nat) (s : MidiMetLV2) (nframes : Nat)
    (hhost : s.hostTransport = true) (hstop : s.transportSpeed = 0) (h0 : 0 ≤ s.bufPtr)
    (hb : s.bufPtr ≤ JQ_BUFSZ) :
    ∃ s3, MidiMetLV2.runLoop ts dt s nframes = .ok s3 ∧
      s3.bufPtr = s.bufPtr - (min nframes s.bufPtr.toNat : Nat) ∧
      s3.events.map (fun e => e.frame) = List.range (min nframes s.bufPtr.toNat) ∧
      MidiMetLV2.noteOns s.channelOut s3.events = [] ∧
      s.pendingNotes =
        s3.pendingNotes + ((MidiMetLV2.noteOffs s.channelOut s3.events : List Nat) : Multiset Nat) ∧
      (s.bufPtr ≤ nframes → s3.bufPtr = 0 ∧
        ((MidiMetLV2.noteOffs s.channelOut s3.events : List Nat) : Multiset Nat)
          = s.pendingNotes) := by
  obtain ⟨s3, new, e, v, b, fr, hon, p⟩ :=
    MidiMetLV2.stopped_run ts dt nframes 0 { s with events := [] } hhost hstop h0 hb
  have hnew : s3.events = new := by rw [v]; rfl
  have hp : ({ s with events := [] } : MidiMetLV2).pendingNotes = s.pendingNotes := rfl
  have hc : ({ s with events := [] } : MidiMetLV2).channelOut = s.channelOut := rfl
  have hbp : ({ s with events := [] } : MidiMetLV2).bufPtr = s.bufPtr := rfl
  rw [hp, hc, ← hnew] at p
  rw [hc, ← hnew] at hon
  rw [hbp, ← hnew, ← List.range_eq_range'] at fr
  rw [hbp] at b
  refine ⟨s3, e, b, fr, hon, p, ?_⟩
  intro hle
  have hb0 : s3.bufPtr = 0 := by rw [b]; omega
  refine ⟨hb0, ?_⟩
  have hempty : s3.pendingNotes = 0 := by
    rw [MidiMetLV2.pendingNotes_eq, hb0]; rfl
  rw [p, hempty, zero_add]

/-- Witness of C4 (amended): two pending note-offs, host transport enabled,
transport stopped, a call with three samples. -/
theorem stop_flush_witness :
    ∃ s3, MidiMetLV2.runLoop 0 (fun _ => 0) twoPendingStopped 3 = .ok s3 ∧
      s3.bufPtr = 0 ∧ s3.events.map (fun e => e.frame) = [0, 1] ∧
      ((MidiMetLV2.noteOffs twoPendingStopped.channelOut s3.events : List Nat) : Multiset Nat)
        = twoPendingStopped.pendingNotes := by
  obtain ⟨s3, e, -, fr, -, -, hall⟩ :=
    stop_flush 0 (fun _ => 0) twoPendingStopped 3 rfl rfl (by decide) (by decide)
  obtain ⟨hz, hn⟩ := hall (by decide)
  exact ⟨s3, e, hz, fr, hn⟩

/-- C5 (pairing of note-ons and note-offs).  For every render loop (any number
of samples, any derived ticks, any time shift) from a state with
`bufPtr >= 0`: whenever the loop returns, the note bytes pending before the
loop together with those of the note-ons it emitted are, as multisets, the
note bytes pending after the loop together with those of the note-offs it
emitted, so that no entry is emitted twice and `bufPtr` after the loop is
`bufPtr` before it plus the number of note-ons minus the number of note-offs;
and the loop does return whenever the resolution and the size are table
values and the queue has room for one entry per sample. -/
theorem note_pairing (ts : Int) (dt : Nat → Nat) (s : MidiMetLV2) (nframes : Nat)
    (h0 : 0 ≤ s.bufPtr) :
    (∀ s3, MidiMetLV2.runLoop ts dt s nframes = .ok s3 →
      s.pendingNotes + ((MidiMetLV2.noteOns s.channelOut s3.events : List Nat) : Multiset Nat) =
        s3.pendingNotes
          + ((MidiMetLV2.noteOffs s.channelOut s3.events : List Nat) : Multiset Nat) ∧
      s3.bufPtr = s.bufPtr + (MidiMetLV2.noteOns s.channelOut s3.events).length
        - (MidiMetLV2.noteOffs s.channelOut s3.events).length) ∧
    (s.toMidiMet.Valid → s.bufPtr + (nframes : Int) ≤ JQ_BUFSZ →
      ∃ s3, MidiMetLV2.runLoop ts dt s nframes = .ok s3) := by
  constructor
  · intro s3 h
    unfold MidiMetLV2.runLoop at h
    obtain ⟨-, b3, new, v, p⟩ := MidiMetLV2.runFrom_balance ts dt nframes 0 _ s3 h h0
    have hnew : s3.events = new := by rw [v]; rfl
    have hp : ({ s with events := [] } : MidiMetLV2).pendingNotes = s.pendingNotes := rfl
    have hc : ({ s with events := [] } : MidiMetLV2).channelOut = s.channelOut := rfl
    rw [hp, hc, ← hnew] at p
    refine ⟨p, ?_⟩
    have hcard := congrArg Multiset.card p
    rw [Multiset.card_add, Multiset.card_add, MidiMetLV2.card_pendingNotes,
      MidiMetLV2.card_pendingNotes, Multiset.coe_card, Multiset.coe_card] at hcard
    omega
  · intro hv hb
    exact MidiMetLV2.runFrom_returns ts dt nframes 0 { s with events := [] } hv h0 hb

/-- Witness of C5: one sample at tick 400 from the state with (69, 500) and
(57, 300) pending.  The click is due, so a note-on 69 is emitted and queued
with end tick 445; the poll then emits the note-off of the entry (57, 300). -/
theorem note_pairing_witness :
    ∃ s3, MidiMetLV2.runLoop 0 (fun _ => 400) twoPending 1 = .ok s3 ∧
      s3.events = [{ frame := 0, status := 144, note := 69, velocity := 0 },
                   { frame := 0, status := 128, note := 57, velocity := 127 }] ∧
      s3.pending = [(69, 500), (69, 445)] ∧
      twoPending.pendingNotes
          + ((MidiMetLV2.noteOns twoPending.channelOut s3.events : List Nat) : Multiset Nat) =
        s3.pendingNotes
          + ((MidiMetLV2.noteOffs twoPending.channelOut s3.events : List Nat) : Multiset Nat) ∧
      s3.bufPtr = twoPending.bufPtr + (MidiMetLV2.noteOns twoPending.channelOut s3.events).length
        - (MidiMetLV2.noteOffs twoPending.channelOut s3.events).length := by
  have hp := note_pairing 0 (fun _ => 400) twoPending 1 (by decide)
  obtain ⟨s3, e⟩ := hp.2 ⟨by decide, by decide⟩ (by decide)
  have hs3 : s3.events = [{ frame := 0, status := 144, note := 69, velocity := 0 },
                   { frame := 0, status := 128, note := 57, velocity := 127 }] ∧
      s3.pending = [(69, 500), (69, 445)] := by
    have e2 : MidiMetLV2.runLoop 0 (fun _ => 400) twoPending 1 = .ok s3 := e
    have hev : ∃ s4, MidiMetLV2.runLoop 0 (fun _ => 400) twoPending 1 = .ok s4 ∧
        s4.events = [{ frame := 0, status := 144, note := 69, velocity := 0 },
                     { frame := 0, status := 128, note := 57, velocity := 127 }] ∧
        s4.pending = [(69, 500), (69, 445)] := by
      refine ⟨_, by with_unfolding_all rfl, ?_, ?_⟩
      · with_unfolding_all rfl
      · with_unfolding_all rfl
    obtain ⟨s4, e4, h4⟩ := hev
    rw [e2] at e4
    injection e4 with e4
    subst e4
    exact h4
  exact ⟨s3, e, hs3.1, hs3.2, (hp.1 s3 e).1, (hp.1 s3 e).2⟩

/-- C6 (accent law).  For every state and every requested tick, whenever
`getNextFrame` returns, the note number of `outFrame[0]` is `midiNoteKey + 12`
if `framePtr` was 0 before the call and `midiNoteKey` otherwise; and it does
return in every state whose resolution and size are values of the two tables
(it can only fail to by dividing by zero). -/
theorem accent_law (m : MidiMet) (tick : Int) :
    (∀ m1, m.getNextFrame tick = .ok m1 →
      m1.outFrame0.data = if m.framePtr = 0 then m.midiNoteKey + 12 else m.midiNoteKey) ∧
    (m.Valid → ∃ m1, m.getNextFrame tick = .ok m1) := by
  constructor
  · intro m1 h
    unfold MidiMet.getNextFrame at h
    by_cases h1 : m.res = 0
    · simp [h1] at h
    · by_cases h2 : m.res * m.size = 0
      · simp [h1, h2] at h
      · by_cases h3 : ((m.framePtr + 1).tmod (m.res * m.size)).tmod 2 = 0 ∧ TPQN.tdiv m.res = 0
        · simp [h1, h2, h3] at h
        · simp only [if_neg h1, if_neg h2, if_neg h3] at h
          injection h with h
          rw [← h]
          by_cases h0 : m.framePtr = 0 <;> simp [h0]
  · intro hv
    obtain ⟨d1, d2, d3⟩ := MidiMet.valid_defined m hv
    exact ⟨_, MidiMet.getNextFrame_eq m tick d1 d2 d3⟩

/-- Witness of C6: in the freshly constructed sequencer `framePtr` is 0, the
call returns, and the note is 57 + 12 = 69. -/
theorem accent_law_witness :
    (MidiMet.new 0).Valid ∧
    ∃ m1, (MidiMet.new 0).getNextFrame 0 = .ok m1 ∧ m1.outFrame0.data = 69 := by
  have hv : (MidiMet.new 0).Valid := ⟨by decide, by decide⟩
  obtain ⟨m1, hm1⟩ := (accent_law (MidiMet.new 0) 0).2 hv
  exact ⟨hv, m1, hm1, by rw [(accent_law (MidiMet.new 0) 0).1 m1 hm1]; decide⟩

/-- C7 (evaluation at the failing input).  In the freshly constructed
sequencer, `getNextFrame` moves `framePtr` from 0 to 1 and a second call moves
it from 1 to 2, whereas `(framePtr + 1) mod nPoints` is 0 in both states,
because the constructor leaves `nPoints = 1` while `res * size = 4`. -/
theorem fresh_getNextFrame_framePtr (nextTick0 tick tick2 : Int) :
    (MidiMet.new nextTick0).framePtr = 0 ∧
    ((MidiMet.new nextTick0).framePtr + 1) % (MidiMet.new nextTick0).nPoints = 0 ∧
    ∃ m1, (MidiMet.new nextTick0).getNextFrame tick = .ok m1 ∧ m1.framePtr = 1 ∧
      (m1.framePtr + 1) % m1.nPoints = 0 ∧
      ∃ m2, m1.getNextFrame tick2 = .ok m2 ∧ m2.framePtr = 2 := by
  have hres : (MidiMet.new nextTick0).res = 1 := rfl
  have hsize : (MidiMet.new nextTick0).size = 4 := rfl
  have hfp0 : (MidiMet.new nextTick0).framePtr = 0 := rfl
  have hnp : (MidiMet.new nextTick0).nPoints = 1 := rfl
  refine ⟨rfl, by rw [hfp0, hnp]; decide, ?_⟩
  obtain ⟨m1, h, r1, s1, n1, -, -, -, -, -, hfp, -⟩ :=
    MidiMet.getNextFrame_fields (MidiMet.new nextTick0) tick (by rw [hres]; decide)
      (by rw [hres, hsize]; decide) (by rw [hres]; decide)
  rw [hres] at r1
  rw [hsize] at s1
  rw [hnp] at n1
  have hfp1 : m1.framePtr = 1 := by rw [hfp, hfp0, hres, hsize]; decide
  obtain ⟨m2, h2, -, -, -, -, -, -, -, -, hfp2, -⟩ :=
    MidiMet.getNextFrame_fields m1 tick2 (by rw [r1]; decide)
      (by rw [r1, s1]; decide) (by rw [r1]; decide)
  exact ⟨m1, h, hfp1, by rw [hfp1, n1]; decide, m2, h2, by rw [hfp2, hfp1, r1, s1]; decide⟩

/-- C8 (evaluation at the failing input).  The constructor first assigns
`nPoints = res * size` and later `nPoints = 1`: the fresh object has
`res * size = 4` and `nPoints = 1`, so `nPoints = res * size` does not hold in
it; and `setNextTick`, which reduces modulo `nPoints`, puts `framePtr` at 0
for every tick. -/
theorem fresh_nPoints (nextTick0 : Int) (tick : Nat) :
    (MidiMet.new nextTick0).res * (MidiMet.new nextTick0).size = 4 ∧
    (MidiMet.new nextTick0).nPoints = 1 ∧
    ¬ (MidiMet.new nextTick0).nPoints
        = (MidiMet.new nextTick0).res * (MidiMet.new nextTick0).size ∧
    ∃ m1, (MidiMet.new nextTick0).setNextTick tick = .ok m1 ∧ m1.framePtr = 0 := by
  have hres : (MidiMet.new nextTick0).res = 1 := rfl
  have hsize : (MidiMet.new nextTick0).size = 4 := rfl
  have hnp : (MidiMet.new nextTick0).nPoints = 1 := rfl
  have h1 : toU64 1 = 1 := by unfold toU64; decide
  refine ⟨by rw [hres, hsize]; decide, hnp, by rw [hres, hsize, hnp]; decide, ?_⟩
  obtain ⟨pos, hp, e⟩ := MidiMet.setNextTick_eq (MidiMet.new nextTick0) tick
    (by rw [hnp, h1]; decide)
  refine ⟨_, e, ?_⟩
  show pos = 0
  rw [hp, hnp, h1, Nat.mod_one]
  unfold toI32; decide

/-- C9 (pattern range).  From every state with `framePtr >= 0` whose resolution and
size are table values, every non-empty sequence `cs` of `updateResolution`
and `updateSize` calls with table values runs to a state with
`nPoints = res * size > 0` and `0 <= framePtr < nPoints`; and every further
sequence `more` of `updateResolution`, `updateSize`, `getNextFrame` and
`setNextTick` calls runs from there to a state with the same property. -/
theorem pattern_range (m : MidiMet) (cs more : List MidiMet.Call)
    (hfp : 0 ≤ m.framePtr) (hv : m.Valid) (hne : cs ≠ [])
    (hcs : ∀ c ∈ cs, c.isConfig ∧ c.admissible) (hmore : ∀ c ∈ more, c.admissible) :
    ∃ m1, m.calls cs = .ok m1 ∧
      (m1.nPoints = m1.res * m1.size ∧ 0 < m1.nPoints ∧ 0 ≤ m1.framePtr ∧
        m1.framePtr < m1.nPoints) ∧
      ∃ m2, m1.calls more = .ok m2 ∧
        (m2.nPoints = m2.res * m2.size ∧ 0 < m2.nPoints ∧ 0 ≤ m2.framePtr ∧
          m2.framePtr < m2.nPoints) := by
  cases cs with
  | nil => exact absurd rfl hne
  | cons c cs =>
    obtain ⟨hc1, hc2⟩ := hcs c (List.mem_cons_self _ _)
    obtain ⟨m0, h0, i0⟩ := MidiMet.call_config m c hv hfp hc1 hc2
    obtain ⟨m1, h1, i1⟩ := MidiMet.calls_inv cs m0 i0
      (fun d hd => (hcs d (List.mem_cons_of_mem _ hd)).2)
    obtain ⟨m2, h2, i2⟩ := MidiMet.calls_inv more m1 i1 hmore
    exact ⟨m1, by simp only [MidiMet.calls, h0, h1], i1.2, m2, h2, i2.2⟩

/-- Witness of C9: the fresh sequencer, reconfigured to resolution 4 and size 3,
then advanced and repositioned. -/
theorem pattern_range_witness :
    ∃ m1, (MidiMet.new 0).calls [.updateResolution 4, .updateSize 3] = .ok m1 ∧
      (m1.nPoints = m1.res * m1.size ∧ 0 < m1.nPoints ∧ 0 ≤ m1.framePtr ∧
        m1.framePtr < m1.nPoints) ∧
      ∃ m2, m1.calls [.getNextFrame 0, .setNextTick 96000, .updateSize 1] = .ok m2 ∧
        (m2.nPoints = m2.res * m2.size ∧ 0 < m2.nPoints ∧ 0 ≤ m2.framePtr ∧
          m2.framePtr < m2.nPoints) :=
  pattern_range (MidiMet.new 0) [.updateResolution 4, .updateSize 3]
    [.getNextFrame 0, .setNextTick 96000, .updateSize 1]
    (by decide) ⟨by decide, by decide⟩ (by simp)
    (by
      intro c hc
      simp only [List.mem_cons, List.mem_singleton, List.mem_nil_iff, or_false] at hc
      rcases hc with rfl | rfl
      · exact ⟨trivial, show (4 : Int) ∈ seqResValues by decide⟩
      · exact ⟨trivial, show (3 : Int) ∈ seqSizeValues by decide⟩)
    (by
      intro c hc
      simp only [List.mem_cons, List.mem_singleton, List.mem_nil_iff, or_false] at hc
      rcases hc with rfl | rfl | rfl
      · trivial
      · trivial
      · show (1 : Int) ∈ seqSizeValues
        decide)

/-- C10 (click grid).  For every resolution `r` and size `s` of the tables and
every start state whose size is not zero, `updateResolution(r)`,
`updateSize(s)` and `setNextTick(0)` return, and from the state they reach the
`k`-th call `getNextFrame(nextTick)` (`k = 0, 1, 2, ...`) returns with
`outFrame[0].tick = k * (TPQN / r)` and with the note `midiNoteKey + 12` when
`k mod (r * s) = 0` and `midiNoteKey` otherwise. -/
theorem click_grid (m : MidiMet) (r s : Int) (hr : r ∈ seqResValues) (hs : s ∈ seqSizeValues)
    (hsize : m.size ≠ 0) :
    ∃ m1 m2 m3, m.updateResolution r = .ok m1 ∧ m1.updateSize s = .ok m2 ∧
      m2.setNextTick 0 = .ok m3 ∧
      ∀ k : Nat, ∃ m4, m3.clicks (k + 1) = .ok m4 ∧
        m4.outFrame0.tick = (k : Int) * TPQN.tdiv r ∧
        m4.outFrame0.data =
          if (k : Int) % (r * s) = 0 then m.midiNoteKey + 12 else m.midiNoteKey := by
  have hb := mem_seqResValues_bounds hr
  have hrs := valid_mul_bounds hr hs
  have h1ne : r * m.size ≠ 0 := by
    intro h; rcases Int.mul_eq_zero.mp h with h | h <;> omega
  -- updateResolution(r)
  obtain ⟨m1, e1, r1, s1, k1, -, -, -⟩ := MidiMet.resizeAll_fields { m with res := r } h1ne
  change m.updateResolution r = .ok m1 at e1
  change m1.res = r at r1
  change m1.size = m.size at s1
  change m1.midiNoteKey = m.midiNoteKey at k1
  -- updateSize(s)
  have h2ne : m1.res * s ≠ 0 := by rw [r1]; omega
  obtain ⟨m2, e2, r2, s2, k2, n2, -, -⟩ := MidiMet.resizeAll_fields { m1 with size := s } h2ne
  change m1.updateSize s = .ok m2 at e2
  change m2.res = m1.res at r2
  change m2.size = s at s2
  change m2.midiNoteKey = m1.midiNoteKey at k2
  change m2.nPoints = m1.res * s at n2
  -- setNextTick(0)
  have hN : (toU64 m2.nPoints : Int) = m2.nPoints :=
    toU64_of_nonneg_lt (by rw [n2, r1]; omega) (by rw [n2, r1]; omega)
  have hne : toU64 m2.nPoints ≠ 0 := by
    intro h; rw [h, n2, r1, Nat.cast_zero] at hN; omega
  obtain ⟨pos, hp, e3⟩ := MidiMet.setNextTick_eq m2 0 hne
  have hpos : pos = 0 := by
    rw [hp]
    have : toU64 (((0 : Nat) : Int) * (toU64 m2.res : Int)) = 0 := by
      unfold toU64; simp
    rw [this]
    unfold toI32; simp
  have ht0 : toI64 ((0 : Nat) : Int) = 0 := by unfold toI64; simp
  obtain ⟨m3, e3, r3, s3, k3, f3, t3⟩ : ∃ m3, m2.setNextTick 0 = .ok m3 ∧ m3.res = m2.res ∧
      m3.size = m2.size ∧ m3.midiNoteKey = m2.midiNoteKey ∧ m3.framePtr = 0 ∧
      m3.nextTick = 0 := by
    refine ⟨{ MidiMet.setFramePtr m2 pos with nextTick := toI64 ((0 : Nat) : Int) }, e3,
      rfl, rfl, rfl, hpos, ht0⟩
  have hv3 : m3.Valid := by
    unfold MidiMet.Valid; rw [r3, s3, r2, s2, r1]; exact ⟨hr, hs⟩
  refine ⟨m1, m2, m3, e1, e2, e3, ?_⟩
  intro k
  obtain ⟨m4, c4, -, -, -, -, -, hk⟩ := MidiMet.clicks_grid m3 hv3 f3 t3 (k + 1)
  obtain ⟨ht, hd⟩ := hk k rfl
  refine ⟨m4, c4, ?_, ?_⟩
  · rw [ht, r3, r2, r1]
  · rw [hd, r3, s3, r2, s2, r1, k3, k2, k1]

/-- Witness of C10, the scenario of the spec: resolution 4 and size 1 on the
fresh sequencer (note key 57) give the ticks 0, 12000, 24000, 36000 with the
first event accented (69) and the next three plain (57); the fifth event, at
48000, starts the next cycle and is accented again. -/
theorem click_grid_witness :
    ∃ m1 m2 m3, (MidiMet.new 0).updateResolution 4 = .ok m1 ∧ m1.updateSize 1 = .ok m2 ∧
      m2.setNextTick 0 = .ok m3 ∧
      (∃ m4, m3.clicks 1 = .ok m4 ∧ m4.outFrame0.tick = 0 ∧ m4.outFrame0.data = 69) ∧
      (∃ m4, m3.clicks 2 = .ok m4 ∧ m4.outFrame0.tick = 12000 ∧ m4.outFrame0.data = 57) ∧
      (∃ m4, m3.clicks 3 = .ok m4 ∧ m4.outFrame0.tick = 24000 ∧ m4.outFrame0.data = 57) ∧
      (∃ m4, m3.clicks 4 = .ok m4 ∧ m4.outFrame0.tick = 36000 ∧ m4.outFrame0.data = 57) ∧
      (∃ m4, m3.clicks 5 = .ok m4 ∧ m4.outFrame0.tick = 48000 ∧ m4.outFrame0.data = 69) := by
  obtain ⟨m1, m2, m3, e1, e2, e3, hk⟩ :=
    click_grid (MidiMet.new 0) 4 1 (by decide) (by decide) (by decide)
  have hkey : (MidiMet.new 0).midiNoteKey = 57 := rfl
  refine ⟨m1, m2, m3, e1, e2, e3, ?_, ?_, ?_, ?_, ?_⟩
  · obtain ⟨m4, c, t, d⟩ := hk 0
    exact ⟨m4, c, by rw [t]; decide, by rw [d, hkey]; decide⟩
  · obtain ⟨m4, c, t, d⟩ := hk 1
    exact ⟨m4, c, by rw [t]; decide, by rw [d, hkey]; decide⟩
  · obtain ⟨m4, c, t, d⟩ := hk 2
    exact ⟨m4, c, by rw [t]; decide, by rw [d, hkey]; decide⟩
  · obtain ⟨m4, c, t, d⟩ := hk 3
    exact ⟨m4, c, by rw [t]; decide, by rw [d, hkey]; decide⟩
  · obtain ⟨m4, c, t, d⟩ := hk 4
    exact ⟨m4, c, by rw [t]; decide, by rw [d, hkey]; decide⟩

/-- C11 (monotone click ticks).  For every state with a resolution of the table,
a size that is not zero and `nextTick >= 0`, and every sequence of calls
`getNextFrame` whose requested ticks increase by `TPQN / res` from call to
call, every call returns and the emitted ticks `outFrame[0].tick` are
non-decreasing, each one at least the one emitted by the previous call. -/
theorem click_ticks_monotone (m : MidiMet) (ts : List Int) (hr : m.res ∈ seqResValues)
    (hs : m.size ≠ 0) (_hn : 0 ≤ m.nextTick)
    (_hstep : ts.Chain' (fun a b => b = a + TPQN.tdiv m.res)) :
    ∃ l, m.emittedTicks ts = .ok l ∧ l.length = ts.length ∧ l.Chain' (· ≤ ·) := by
  obtain ⟨l, e, hlen, hch, -⟩ := MidiMet.emittedTicks_increasing ts m hr hs
  exact ⟨l, e, hlen, hch.imp (fun _ _ h => Int.le_of_lt h)⟩

/-- Witness of C11: five calls on the fresh sequencer (resolution 1), requested
at the ticks 0, 48000, 96000, 144000 and 192000, emit exactly those ticks. -/
theorem click_ticks_monotone_witness :
    (MidiMet.new 0).res ∈ seqResValues ∧ (MidiMet.new 0).size ≠ 0 ∧
    0 ≤ (MidiMet.new 0).nextTick ∧
    ([0, 48000, 96000, 144000, 192000] : List Int).Chain'
      (fun a b => b = a + TPQN.tdiv (MidiMet.new 0).res) ∧
    (MidiMet.new 0).emittedTicks [0, 48000, 96000, 144000, 192000]
      = .ok [0, 48000, 96000, 144000, 192000] ∧
    ∃ l, (MidiMet.new 0).emittedTicks [0, 48000, 96000, 144000, 192000] = .ok l ∧
      l.length = 5 ∧ l.Chain' (· ≤ ·) :=
  ⟨by decide, by decide, by decide,
    by simp only [List.chain'_cons, List.chain'_singleton, and_true]; decide, rfl,
    click_ticks_monotone (MidiMet.new 0) [0, 48000, 96000, 144000, 192000]
      (by decide) (by decide) (by decide)
      (by simp only [List.chain'_cons, List.chain'_singleton, and_true]; decide)⟩

/-- C12 (counterexample).  In the fresh sequencer (`res = 1`) the tick
`t = 2 ^ 63` has a product `t * res` that fits 64 bits, and `setNextTick(t)`
leaves the cursor `nextTick` at `-2 ^ 63`, not at `t`: the assignment
`nextTick = tick` narrows the `uint64_t` argument to the `int64_t` cursor. -/
theorem setNextTick_narrowing_counterexample :
    ((9223372036854775808 : Nat) : Int) * (MidiMet.new 0).res < 18446744073709551616 ∧
    ∃ m1, (MidiMet.new 0).setNextTick 9223372036854775808 = .ok m1 ∧
      m1.nextTick = -9223372036854775808 ∧ m1.nextTick ≠ ((9223372036854775808 : Nat) : Int) := by
  refine ⟨by decide, _, by with_unfolding_all rfl, ?_, ?_⟩
  · with_unfolding_all rfl
  · with_unfolding_all decide

/-- C12 (explicit repositioning, amended).  For every state in which `res` and
`nPoints` are values of an `int` with `res >= 0` and `nPoints > 0`, and every
tick `t < 2 ^ 63` with `t * res` not overflowing 64 bits, `setNextTick(t)`
returns, sets `framePtr` to `(t * res / TPQN) mod nPoints` with truncating
integer division, sets the cursor `nextTick` to `t`, and changes nothing else. -/
theorem setNextTick_repositions (m : MidiMet) (t : Nat) (hres : 0 ≤ m.res)
    (hres2 : m.res < 2147483648) (hn : 0 < m.nPoints) (hn2 : m.nPoints < 2147483648)
    (hprod : (t : Int) * m.res < 18446744073709551616)
    (ht : (t : Int) < 9223372036854775808) :
    m.setNextTick t = .ok
      { m with framePtr := (((t : Int) * m.res).tdiv TPQN).tmod m.nPoints,
               nextTick := (t : Int) } :=
  MidiMet.setNextTick_value m t hres hres2 hn hn2 hprod ht

/-- Witness of C12: with resolution 4 and sixteen points, `setNextTick(100000)`
sets `framePtr` to `(400000 / 48000) mod 16 = 8` and `nextTick` to 100000. -/
theorem setNextTick_repositions_witness :
    sixteenPoints.setNextTick 100000 = .ok
      { sixteenPoints with framePtr := 8, nextTick := 100000 } :=
  setNextTick_repositions sixteenPoints 100000 (by decide) (by decide) (by decide) (by decide)
    (by decide) (by decide)

/-- C13 (counterexample).  With a time shift of 9600 ticks and an unshifted tick
of 4800, the tick the render step uses is 4800, not 0: a positive shift that
the tick has not passed is skipped, not saturated.  With a time shift of -1
and the unshifted tick `2 ^ 64 - 1` the result wraps to 0. -/
theorem time_shift_counterexample :
    (MidiMetLV2.tickState 9600 (MidiMetLV2.new 100 0 false) 4800).curTick = 4800 ∧
    (MidiMetLV2.tickState (-1) (MidiMetLV2.new 100 0 false) 18446744073709551615).curTick = 0 := by
  constructor
  · with_unfolding_all rfl
  · with_unfolding_all rfl

/-- C13 (time shift, amended).  For every unshifted tick `x` (a `uint64_t`) and
every time shift `ts` (an `int32_t`), the tick `curTick` the render step of
`run` uses is: `x - ts` when `ts > 0` and `x > ts`; `x` itself, unshifted, when
`ts > 0` and `x <= ts`; and `x + |ts|` modulo `2 ^ 64` when `ts <= 0`, which is
`x + |ts|` whenever that fits 64 bits. -/
theorem time_shift (s : MidiMetLV2) (x : Nat) (ts : Int) (hx : x < 18446744073709551616)
    (h1 : -2147483648 ≤ ts) (h2 : ts < 2147483648) :
    (0 < ts → ts < (x : Int) →
      ((MidiMetLV2.tickState ts s x).curTick : Int) = (x : Int) - ts) ∧
    (0 < ts → (x : Int) ≤ ts → (MidiMetLV2.tickState ts s x).curTick = x) ∧
    (ts ≤ 0 → ((MidiMetLV2.tickState ts s x).curTick : Int)
      = ((x : Int) - ts) % 18446744073709551616) ∧
    (ts ≤ 0 → (x : Int) - ts < 18446744073709551616 →
      ((MidiMetLV2.tickState ts s x).curTick : Int) = (x : Int) - ts) := by
  have hx64 : toU64 (x : Int) = x := by unfold toU64; omega
  have hc : (MidiMetLV2.tickState ts s x).curTick = MidiMetLV2.shiftTick x ts := by
    show MidiMetLV2.shiftTick (toU64 (x : Int)) ts = _
    rw [hx64]
  rw [hc]
  refine ⟨?_, ?_, ?_, ?_⟩
  · intro h0 hgt
    exact MidiMetLV2.shiftTick_pos_gt x ts hx h0 h2 hgt
  · intro h0 hle
    exact MidiMetLV2.shiftTick_pos_le x ts h0 h2 hle
  · intro h0
    exact MidiMetLV2.shiftTick_nonpos x ts h0
  · intro h0 hlt
    rw [MidiMetLV2.shiftTick_nonpos x ts h0]
    omega

/-- Witness of C13: a shift of 9600 ticks turns the tick 100000 into 90400 and
leaves the tick 4800 as it is; a shift of -9600 turns 100000 into 109600. -/
theorem time_shift_witness :
    ((MidiMetLV2.tickState 9600 (MidiMetLV2.new 100 0 false) 100000).curTick : Int) = 90400 ∧
    (MidiMetLV2.tickState 9600 (MidiMetLV2.new 100 0 false) 4800).curTick = 4800 ∧
    ((MidiMetLV2.tickState (-9600) (MidiMetLV2.new 100 0 false) 100000).curTick : Int)
      = 109600 :=
  ⟨(time_shift (MidiMetLV2.new 100 0 false) 100000 9600 (by decide) (by decide)
      (by decide)).1 (by decide) (by decide),
   (time_shift (MidiMetLV2.new 100 0 false) 4800 9600 (by decide) (by decide)
      (by decide)).2.1 (by decide) (by decide),
   (time_shift (MidiMetLV2.new 100 0 false) 100000 (-9600) (by decide) (by decide)
      (by decide)).2.2.2 (by decide) (by decide)⟩

/-- C14 (counterexample).  In tempo-from-host mode with the tempo at 120,
`updatePos(0, 0, 1, false)` leaves the effective tempo at 0; in host transport
mode with the tempo at 120, `updatePos(0, -1, 0, false)` leaves it at -1.  The
host tempo is taken over without any check of its sign. -/
theorem host_tempo_counterexample :
    (tempoFromHostMode.tempoFromHost = true ∧ tempoFromHostMode.tempo = 120 ∧
      ∃ s1, MidiMetLV2.updatePos tempoFromHostMode 0 0 1 false 0 = .ok s1 ∧ s1.tempo = 0) ∧
    (hostTransportMode.hostTransport = true ∧ hostTransportMode.tempo = 120 ∧
      ∃ s1, MidiMetLV2.updatePos hostTransportMode 0 (-1) 0 false 0 = .ok s1 ∧
        s1.tempo = -1) := by
  refine ⟨⟨rfl, rfl, _, by with_unfolding_all rfl, ?_⟩,
    ⟨rfl, rfl, _, by with_unfolding_all rfl, ?_⟩⟩
  · with_unfolding_all rfl
  · with_unfolding_all rfl

/-- C14 (host tempo, amended).  `updatePos` does not validate `bpm`.  For every
state in which `nPoints` is not zero and every call
`updatePos(pos, bpm, speed, ignore_pos)`, with `bpm <= 0` as with `bpm > 0`,
the call returns with `transportBpm = bpm`, and the effective tempo after the
call is `bpm` in tempo-from-host mode; with tempo-from-host off it is the
internal tempo when host transport is on and `bpm` differs from the tempo
before the call, and the tempo before the call otherwise. -/
theorem host_tempo (s : MidiMetLV2) (pos : Nat) (bpm : Rat) (speed : Int) (ignore_pos : Bool)
    (posTick : Nat) (hn : toU64 s.nPoints ≠ 0) :
    ∃ s1, MidiMetLV2.updatePos s pos bpm speed ignore_pos posTick = .ok s1 ∧
      s1.transportBpm = bpm ∧
      (s.tempoFromHost = true → s1.tempo = bpm) ∧
      (s.tempoFromHost = false → s.hostTransport = true → s.tempo ≠ bpm →
        s1.tempo = s.internalTempo) ∧
      (s.tempoFromHost = false → (s.hostTransport = false ∨ s.tempo = bpm) →
        s1.tempo = s.tempo) := by
  obtain ⟨s1, e1, b1, t1, h1, -, -, n1, -, -⟩ :=
    MidiMetLV2.updatePosTempo_fields s bpm (fun _ => hn)
  obtain ⟨s2, e2, t2, b2, -⟩ :=
    MidiMetLV2.updatePosPosition_fields s1 pos speed ignore_pos posTick
      (fun _ => by rw [n1]; exact hn)
  have e : MidiMetLV2.updatePos s pos bpm speed ignore_pos posTick = .ok s2 := by
    unfold MidiMetLV2.updatePos
    rw [e1]
    exact e2
  refine ⟨s2, e, by rw [b2, b1], ?_, ?_, ?_⟩
  · intro hf
    rw [t2, t1]
    by_cases hc : s.tempo = bpm
    · simp [hc]
    · simp [hc, hf]
  · intro hf hh hc
    rw [t2, t1]
    simp [hc, hf, hh]
  · intro hf hor
    rw [t2, t1]
    rcases hor with hh | hc
    · simp [hf, hh]
    · simp [hc]

/-- Witness of C14: in tempo-from-host mode the host tempo 140 replaces the
tempo 120, and so does the host tempo 0. -/
theorem host_tempo_witness :
    (∃ s1, MidiMetLV2.updatePos tempoFromHostMode 0 140 1 false 0 = .ok s1 ∧ s1.tempo = 140) ∧
    (∃ s1, MidiMetLV2.updatePos tempoFromHostMode 0 0 1 false 0 = .ok s1 ∧ s1.tempo = 0) := by
  obtain ⟨s1, e1, -, t1, -, -⟩ :=
    host_tempo tempoFromHostMode 0 140 1 false 0 (by with_unfolding_all decide)
  obtain ⟨s2, e2, -, t2, -, -⟩ :=
    host_tempo tempoFromHostMode 0 0 1 false 0 (by with_unfolding_all decide)
  exact ⟨⟨s1, e1, t1 rfl⟩, ⟨s2, e2, t2 rfl⟩⟩

/-- C15 (note length).  Whenever the note-on part of a sample of `run` returns
having emitted a note-on at tick `curTick`, it has appended one entry to the
pending list: its note is the `uint32_t` value of the note number of the
note-on, whose low byte is the note byte of the event, and its end tick is
`curTick + notelength / 4` (truncating division) in `uint64_t` arithmetic,
which is that sum itself whenever the sum is a value of a `uint64_t`. -/
theorem note_length (s s1 : MidiMetLV2) (f : Nat) (h : MidiMetLV2.noteOnPart s f = .ok s1)
    (hon : s1.events ≠ s.events) :
    ∃ endTick : Nat,
      s1.events = s.events ++
        [{ frame := f, status := toU8 (0x90 + s.channelOut),
           note := toU8 s1.outFrame0.data, velocity := toU8 s.vel }] ∧
      s1.pending = s.pending ++ [(toU32 s1.outFrame0.data, endTick)] ∧
      toU32 s1.outFrame0.data % 256 = toU8 s1.outFrame0.data ∧
      (endTick : Int) = ((s.curTick : Int) + s.notelength.tdiv 4) % 18446744073709551616 ∧
      (0 ≤ (s.curTick : Int) + s.notelength.tdiv 4 →
        (s.curTick : Int) + s.notelength.tdiv 4 < 18446744073709551616 →
        (endTick : Int) = (s.curTick : Int) + s.notelength.tdiv 4) := by
  obtain ⟨h0, -, -, -, -, hev, hb, hq, htq, -, -, -⟩ := MidiMetLV2.noteOnPart_emits s s1 f h hon
  refine ⟨_, hev, MidiMetLV2.pending_push s s1 _ _ h0 hb hq htq, toU32_mod_256 _,
    toU64_add_toU64 _ _, ?_⟩
  intro hn hlt
  rw [toU64_add_toU64]
  omega

/-- Witness of C15, the scenario of the spec: with `notelength = 2000` the
note-on at tick 0 (note 69) schedules its note-off at tick 500. -/
theorem note_length_witness :
    ∃ s1, MidiMetLV2.noteOnPart noteLengthStart 3 = .ok s1 ∧
      s1.events = [{ frame := 3, status := 144, note := 69, velocity := 0 }] ∧
      s1.pending = [(69, 500)] := by
  have he : ∃ s1, MidiMetLV2.noteOnPart noteLengthStart 3 = .ok s1 ∧ s1.outFrame0.data = 69 ∧
      s1.events.length = 1 := by
    refine ⟨_, by with_unfolding_all rfl, ?_, ?_⟩
    · with_unfolding_all rfl
    · with_unfolding_all rfl
  obtain ⟨s1, e, hd, hlen⟩ := he
  have hne : s1.events ≠ noteLengthStart.events := by
    intro hc
    rw [hc] at hlen
    exact absurd hlen (by decide)
  obtain ⟨endTick, hev, hp, -, -, hend⟩ := note_length noteLengthStart s1 3 e hne
  have h500 : (endTick : Int) = 500 := hend (by decide) (by decide)
  have h500n : endTick = 500 := by omega
  subst h500n
  refine ⟨s1, e, ?_, ?_⟩
  · rw [hev, hd]
    with_unfolding_all rfl
  · rw [hp, hd]
    with_unfolding_all rfl

/-- C16 (evaluation at the failing input).  Internal transport, resolution 16
(`TPQN / res = 3000`), time shift -9600 ticks, two ticks per sample.  After
ten samples the last tick is `18 + 9600 = 9618`.  `initTransport` then keeps
`curFrame = 10` and anchors the derivation at this shifted tick, so that the
tick derived for the next sample is the tick of zero elapsed frames on top of
9618, and its time shift makes it 19218: the shift is applied a second time
and the tick jumps by 9600, more than three steps. -/
theorem reanchor_jump (ticksAt : Nat → Nat → Nat) :
    ∃ s1 s2, MidiMetLV2.runLoop (-9600) (fun f => 2 * f) reanchorStart 10 = .ok s1 ∧
      s1.hostTransport = false ∧ s1.curFrame = 10 ∧ s1.curTick = 9618 ∧
      TPQN.tdiv s1.res = 3000 ∧
      MidiMetLV2.initTransport s1 = .ok s2 ∧ s2.curFrame = 10 ∧ s2.tempoChangeTick = 9618 ∧
      MidiMetLV2.deriveTick ticksAt s2 = ticksAt 0 9618 ∧
      (MidiMetLV2.tickState (-9600) s2 9618).curTick = 19218 := by
  have h1 : ∃ s1, MidiMetLV2.runLoop (-9600) (fun f => 2 * f) reanchorStart 10 = .ok s1 ∧
      s1.hostTransport = false ∧ s1.curFrame = 10 ∧ s1.curTick = 9618 ∧
      TPQN.tdiv s1.res = 3000 := by
    refine ⟨_, by with_unfolding_all rfl, ?_, ?_, ?_, ?_⟩
    · with_unfolding_all rfl
    · with_unfolding_all rfl
    · with_unfolding_all rfl
    · with_unfolding_all rfl
  obtain ⟨s1, e1, a1, a2, a3, a4⟩ := h1
  obtain ⟨s2, e2, b1, -, -, b4, b5⟩ :=
    MidiMetLV2.initTransport_reanchor s1 ticksAt a1 (by rw [a3]; decide)
  refine ⟨s1, s2, e1, a1, a2, a3, a4, e2, by rw [b1, a2], by rw [b4, a3], by rw [b5, a3], ?_⟩
  show MidiMetLV2.shiftTick (toU64 ((9618 : Nat) : Int)) (-9600) = 19218
  with_unfolding_all rfl

set_option maxRecDepth 4000 in
/-- C17 (evaluation at the failing input).  The fresh plugin is run for two
callbacks of 48 samples at two ticks per sample, with the output channel port
at 5 in both.  `updateParams` never reads that port and `channelOut` stays 0:
the note-on of the first callback has the status byte 0x90 (144), not 0x95
(149), and the note-off of the second callback has the status byte 0x80
(128), not 0x85 (133). -/
theorem output_channel_ignored :
    channelFive.CH_OUT = 5 ∧
    ∃ s1 s2,
      MidiMetLV2.run (MidiMetLV2.new 28800 0 false) 48 0 channelFive 0 0 [] (fun f => 2 * f)
        = .ok s1 ∧
      s1.events = [{ frame := 0, status := 144, note := 69, velocity := 100 }] ∧
      MidiMetLV2.run s1 48 0 channelFive 0 0 [] (fun f => 2 * (48 + f)) = .ok s2 ∧
      s2.events = [{ frame := 46, status := 128, note := 69, velocity := 127 }] ∧
      s2.channelOut = 0 := by
  refine ⟨rfl, _, _, by with_unfolding_all rfl, ?_, by with_unfolding_all rfl, ?_, ?_⟩
  · with_unfolding_all rfl
  · with_unfolding_all rfl
  · with_unfolding_all rfl

/-- C18 (evaluation at the failing input).  With `wave_len = 28800`,
`soundOnFrame = 0` and `curFrame = 2 ^ 32 + 1`, the 64-bit difference
`curFrame - soundOnFrame` is at least `wave_len`, yet the sample of `run`,
whatever the tick and the time shift, stores the difference in the 32-bit
`elapsed_len` as 1 and writes the table value `wave_l[1] * vel / 128` with
`vel = 100`, not the silent sample. -/
theorem silence_after_click_truncated (ts : Int) (dt : Nat) :
    idleLong.wave_len ≤ idleLong.curFrame - idleLong.soundOnFrame ∧
    idleLong.curFrame - idleLong.soundOnFrame < 18446744073709551616 ∧
    ∃ s1, MidiMetLV2.runSample ts idleLong 0 dt = .ok s1 ∧ s1.elapsed_len = 1 ∧
      s1.output 0 = AudioSample.waveL 1 100 ∧ s1.output 0 ≠ AudioSample.silence := by
  obtain ⟨e, -⟩ := MidiMetLV2.idle_sample ts idleLong 0 dt rfl rfl
  obtain ⟨h1, h2⟩ := MidiMetLV2.audioPart_output (MidiMetLV2.tickState ts idleLong dt) 0
  have hd : toU32 (((MidiMetLV2.tickState ts idleLong dt).curFrame : Int)
      - ((MidiMetLV2.tickState ts idleLong dt).soundOnFrame : Int)) = 1 := by
    show toU32 (((4294967297 : Nat) : Int) - ((0 : Nat) : Int)) = 1
    unfold toU32; decide
  rw [hd] at h1 h2
  have hw : (MidiMetLV2.tickState ts idleLong dt).wave_len = 28800 := rfl
  have hf : (MidiMetLV2.tickState ts idleLong dt).framePtr = 0 := rfl
  have hv : (MidiMetLV2.tickState ts idleLong dt).vel = 100 := rfl
  rw [hw, hf, hv, if_pos (by decide), if_neg (by decide)] at h2
  refine ⟨by decide, by decide, _, e, h1, h2, ?_⟩
  rw [h2]
  exact fun h => AudioSample.noConfusion h

/-- C19 (evaluation at the failing input).  With resolution 1 and size 1
(`nPoints = 1`, a valid pattern) and velocity 100, the first sample of `run`
emits the accented note-on 69 = `midiNoteKey + 12`; the frame pointer is
advanced to `1 mod 1 = 0`, so the audio samples of this click are taken from
the low table `wave_l`, not from the accent table `wave_h`. -/
theorem audio_accent_one_point :
    ((MidiMet.new 0).updateVelocity 100).updateSize 1 = .ok onePoint.toMidiMet ∧
    onePoint.toMidiMet.Valid ∧
    ∃ s1, MidiMetLV2.runLoop 0 (fun f => 2 * f) onePoint 2 = .ok s1 ∧
      s1.events = [{ frame := 0, status := 144, note := 69, velocity := 100 }] ∧
      s1.midiNoteKey + 12 = 69 ∧ s1.framePtr = 0 ∧
      s1.output 0 = AudioSample.waveL 0 100 ∧ s1.output 1 = AudioSample.waveL 1 100 := by
  refine ⟨by with_unfolding_all rfl, ⟨by decide, by decide⟩, _, by with_unfolding_all rfl,
    ?_, ?_, ?_, ?_, ?_⟩
  · with_unfolding_all rfl
  · with_unfolding_all rfl
  · with_unfolding_all rfl
  · with_unfolding_all rfl
  · with_unfolding_all rfl

/-- C20 (counterexample).  From the fresh sequencer, `updateResolution(3)`,
`updateSize(1)`, `setNextTick(100)` and `setFramePtr(3)` reach a state with a
valid resolution, `nextTick = 100 >= 0` and the odd frame pointer 3, which is
not below `res * size = 3`.  There `getNextFrame(100)` advances the frame
pointer to `4 mod 3 = 1`, which is odd, does not round, and emits the tick 100,
which is not a multiple of `TPQN / res = 16000`. -/
theorem grid_realignment_counterexample :
    ∃ m1 m2 m3 m4, (MidiMet.new 0).updateResolution 3 = .ok m1 ∧ m1.updateSize 1 = .ok m2 ∧
      m2.setNextTick 100 = .ok m3 ∧
      (m3.setFramePtr 3).res ∈ seqResValues ∧ 0 ≤ (m3.setFramePtr 3).nextTick ∧
      (m3.setFramePtr 3).framePtr % 2 = 1 ∧
      (m3.setFramePtr 3).getNextFrame 100 = .ok m4 ∧
      m4.framePtr = 1 ∧ m4.outFrame0.tick = 100 ∧ TPQN.tdiv m4.res = 16000 ∧
      ¬ (TPQN.tdiv m4.res ∣ m4.outFrame0.tick) := by
  refine ⟨_, _, _, _, by with_unfolding_all rfl, by with_unfolding_all rfl,
    by with_unfolding_all rfl, ?_, ?_, ?_, by with_unfolding_all rfl, ?_, ?_, ?_, ?_⟩
  · with_unfolding_all decide
  · with_unfolding_all decide
  · with_unfolding_all decide
  · with_unfolding_all rfl
  · with_unfolding_all rfl
  · with_unfolding_all rfl
  · with_unfolding_all decide

/-- C20 (grid re-alignment, amended).  For every state with a resolution of the
table, `nextTick >= 0` and an odd frame pointer inside the pattern,
`0 <= framePtr < res * size`, `getNextFrame` returns and has rounded the tick
cursor `c` (the cursor after the snap to the requested tick) down to the
nearest multiple of `stepTicks = TPQN / res` before emitting: `outFrame[0].tick`
is `floor (c / stepTicks) * stepTicks`, a multiple of `stepTicks` that is
`<= c` and `> c - stepTicks`; and
`outFrame[1].tick = outFrame[0].tick + stepTicks = nextTick` after the call. -/
theorem grid_realignment (m : MidiMet) (tick : Int) (hr : m.res ∈ seqResValues)
    (hn : 0 ≤ m.nextTick) (hodd : m.framePtr % 2 = 1) (h0 : 0 ≤ m.framePtr)
    (hlt : m.framePtr < m.res * m.size) :
    ∃ m1 c, m.getNextFrame tick = .ok m1 ∧
      c = (if m.nextTick < tick - TPQN.tdiv m.res then tick else m.nextTick) ∧
      m1.outFrame0.tick = c / TPQN.tdiv m.res * TPQN.tdiv m.res ∧
      TPQN.tdiv m.res ∣ m1.outFrame0.tick ∧
      m1.outFrame0.tick ≤ c ∧ c - TPQN.tdiv m.res < m1.outFrame0.tick ∧
      m1.outFrame1.tick = m1.outFrame0.tick + TPQN.tdiv m.res ∧
      m1.nextTick = m1.outFrame1.tick := by
  have hb := mem_seqResValues_bounds hr
  have hp : 0 < TPQN.tdiv m.res := tdiv_TPQN_pos (by omega) (by omega)
  have hsz : m.res * m.size ≠ 0 := by omega
  obtain ⟨m1, e, -, -, -, -, -, -, -, -, -, n1, t1, -, -, u1⟩ :=
    MidiMet.getNextFrame_fields m tick (by omega) hsz (by omega)
  have heven := MidiMet.odd_advance_even m.framePtr (m.res * m.size) hodd h0 hlt
  have hem : m.emittedTick tick =
      (if m.nextTick < tick - TPQN.tdiv m.res then tick else m.nextTick).tdiv
        (TPQN.tdiv m.res) * TPQN.tdiv m.res := by
    unfold MidiMet.emittedTick
    rw [if_pos heven]
  refine ⟨m1, _, e, rfl, ?_⟩
  rw [u1, n1, t1, hem]
  generalize TPQN.tdiv m.res = step at hp ⊢
  have hc : 0 ≤ (if m.nextTick < tick - step then tick else m.nextTick) := by
    split <;> omega
  generalize (if m.nextTick < tick - step then tick else m.nextTick) = c at hc ⊢
  obtain ⟨q1, q2⟩ := tdiv_mul_le c step hc hp
  obtain ⟨q3, -⟩ := tdiv_mul_bounds c step hp
  exact ⟨q2, Dvd.intro_left _ rfl, q1, q3, rfl, rfl⟩

/-- Witness of C20: with resolution 4 (`stepTicks = 12000`), frame pointer 1 and
the cursor at 13000, `getNextFrame(13000)` emits the tick 12000 and leaves the
cursor at 24000. -/
theorem grid_realignment_witness :
    ∃ m1, oddInRange.getNextFrame 13000 = .ok m1 ∧ m1.outFrame0.tick = 12000 ∧
      m1.outFrame1.tick = 24000 ∧ m1.nextTick = 24000 := by
  obtain ⟨m1, c, e, hc, ht, -, -, -, h1, hnx⟩ :=
    grid_realignment oddInRange 13000 (by decide) (by decide) (by decide) (by decide) (by decide)
  have hc2 : c = 13000 := by rw [hc]; decide
  subst hc2
  have ht2 : m1.outFrame0.tick = 12000 := by rw [ht]; decide
  refine ⟨m1, e, ht2, ?_, ?_⟩
  · rw [h1, ht2]; decide
  · rw [hnx, h1, ht2]; decide

/-- C21 (drop-out recovery).  For every state with a resolution of the table
and a size that is not zero, and every requested tick, `getNextFrame(tick)`
returns.  When the cursor is more than one step behind the requested tick
(`nextTick < tick - TPQN / res`), the emitted `outFrame[0].tick` is `tick`
itself when the advanced frame pointer is odd, and `tick` rounded to the grid
by the truncating division when it is even (the re-aligning advance): a value
more than `tick - TPQN / res` that, for `tick >= 0`, is `tick` rounded down;
in both cases it is greater than the stale cursor value, and the cursor is
left one step after it.  When the cursor is not that far behind, the emitted
tick is the cursor itself, or the cursor rounded to the grid. -/
theorem dropout_recovery (m : MidiMet) (tick : Int) (hr : m.res ∈ seqResValues)
    (hs : m.size ≠ 0) :
    ∃ m1, m.getNextFrame tick = .ok m1 ∧
      (m.nextTick < tick - TPQN.tdiv m.res →
        (m1.framePtr.tmod 2 ≠ 0 → m1.outFrame0.tick = tick) ∧
        (m1.framePtr.tmod 2 = 0 →
          m1.outFrame0.tick = tick.tdiv (TPQN.tdiv m.res) * TPQN.tdiv m.res ∧
          tick - TPQN.tdiv m.res < m1.outFrame0.tick ∧
          (0 ≤ tick → m1.outFrame0.tick = tick / TPQN.tdiv m.res * TPQN.tdiv m.res ∧
            m1.outFrame0.tick ≤ tick)) ∧
        m.nextTick < m1.outFrame0.tick ∧
        m1.nextTick = m1.outFrame0.tick + TPQN.tdiv m.res) ∧
      (¬ m.nextTick < tick - TPQN.tdiv m.res →
        (m1.framePtr.tmod 2 ≠ 0 → m1.outFrame0.tick = m.nextTick) ∧
        (m1.framePtr.tmod 2 = 0 →
          m1.outFrame0.tick = m.nextTick.tdiv (TPQN.tdiv m.res) * TPQN.tdiv m.res)) := by
  have hb := mem_seqResValues_bounds hr
  have hp : 0 < TPQN.tdiv m.res := tdiv_TPQN_pos (by omega) (by omega)
  have hsz : m.res * m.size ≠ 0 := by
    intro h; rcases Int.mul_eq_zero.mp h with h | h <;> omega
  obtain ⟨m1, e, -, -, -, -, -, -, -, -, f9, n1, t1, -, -, -⟩ :=
    MidiMet.getNextFrame_fields m tick (by omega) hsz (by omega)
  refine ⟨m1, e, ?_, ?_⟩
  · intro hsnap
    have hem : m.emittedTick tick =
        if m1.framePtr.tmod 2 = 0 then tick.tdiv (TPQN.tdiv m.res) * TPQN.tdiv m.res
        else tick := by
      unfold MidiMet.emittedTick
      rw [f9, if_pos hsnap]
    rw [n1, t1, hem]
    generalize TPQN.tdiv m.res = step at hp hsnap ⊢
    obtain ⟨q1, -⟩ := tdiv_mul_bounds tick step hp
    refine ⟨fun h => by rw [if_neg h], fun h => ?_, ?_, rfl⟩
    · rw [if_pos h]
      refine ⟨rfl, q1, fun h0 => ?_⟩
      obtain ⟨q2, q3⟩ := tdiv_mul_le tick step h0 hp
      exact ⟨q3, q2⟩
    · split <;> omega
  · intro hno
    have hem : m.emittedTick tick =
        if m1.framePtr.tmod 2 = 0 then m.nextTick.tdiv (TPQN.tdiv m.res) * TPQN.tdiv m.res
        else m.nextTick := by
      unfold MidiMet.emittedTick
      rw [f9, if_neg hno]
    rw [t1, hem]
    exact ⟨fun h => by rw [if_neg h], fun h => by rw [if_pos h]⟩

/-- Witness of C21: in the fresh sequencer (cursor 0, step 48000) the call
`getNextFrame(200000)` emits the tick 200000; with resolution 4 (step 12000),
frame pointer 1 and the cursor at 13000, `getNextFrame(100000)` is a
re-aligning advance and emits 96000. -/
theorem dropout_recovery_witness :
    (∃ m1, (MidiMet.new 0).getNextFrame 200000 = .ok m1 ∧ m1.outFrame0.tick = 200000 ∧
      m1.nextTick = 248000) ∧
    (∃ m1, oddInRange.getNextFrame 100000 = .ok m1 ∧ m1.outFrame0.tick = 96000 ∧
      m1.nextTick = 108000) := by
  obtain ⟨m1, e1, a1, -⟩ := dropout_recovery (MidiMet.new 0) 200000 (by decide) (by decide)
  obtain ⟨m2, e2, a2, -⟩ := dropout_recovery oddInRange 100000 (by decide) (by decide)
  obtain ⟨o1, -, -, x1⟩ := a1 (by decide)
  obtain ⟨-, v2, -, x2⟩ := a2 (by decide)
  have hf1 : m1.framePtr = 1 := by
    have := MidiMet.getNextFrame_eq (MidiMet.new 0) 200000 (by decide) (by decide) (by decide)
    rw [this] at e1
    injection e1 with e1
    rw [← e1]
    decide
  have hf2 : m2.framePtr = 2 := by
    have := MidiMet.getNextFrame_eq oddInRange 100000 (by decide) (by decide) (by decide)
    rw [this] at e2
    injection e2 with e2
    rw [← e2]
    decide
  have t1 : m1.outFrame0.tick = 200000 := o1 (by rw [hf1]; decide)
  have t2 : m2.outFrame0.tick = 96000 := by
    rw [(v2 (by rw [hf2]; decide)).1]
    decide
  refine ⟨⟨m1, e1, t1, ?_⟩, ⟨m2, e2, t2, ?_⟩⟩
  · rw [x1, t1]; decide
  · rw [x2, t2]; decide

/-- C22 (no click while stopped).  On every sample of `run` on which
`transportSpeed` is 0, whatever the derived tick and the time shift: the
note-on part of the sample (lines 241 to 256) returns the state as it is, so
`getNextFrame` is not called; the sample returns whenever `bufPtr` is at most
`JQ_BUFSZ`; and whenever it returns, the whole sequencer state, `framePtr` and
`nextTick` among it, `soundOnFrame` and the cursor-position output are as
before the sample, and every event the sample has appended is a note-off, not
a note-on. -/
theorem no_click_while_stopped (ts : Int) (s : MidiMetLV2) (f dt : Nat)
    (hstop : s.transportSpeed = 0) :
    MidiMetLV2.noteOnPart (MidiMetLV2.tickState ts s dt) f
      = .ok (MidiMetLV2.tickState ts s dt) ∧
    (s.bufPtr ≤ JQ_BUFSZ → ∃ s3, MidiMetLV2.runSample ts s f dt = .ok s3) ∧
    ∀ s3, MidiMetLV2.runSample ts s f dt = .ok s3 →
      s3.toMidiMet = s.toMidiMet ∧ s3.framePtr = s.framePtr ∧ s3.nextTick = s.nextTick ∧
      s3.soundOnFrame = s.soundOnFrame ∧ s3.cursorPos = s.cursorPos ∧
      ∃ new, s3.events = s.events ++ new ∧
        ∀ e ∈ new, e.status = toU8 (0x80 + s.channelOut) ∧
          e.status ≠ toU8 (0x90 + s.channelOut) := by
  have hnd : ¬ (MidiMetLV2.tickState ts s dt).clickDue := fun h => h.2 hstop
  have e1 := MidiMetLV2.noteOnPart_idle (MidiMetLV2.tickState ts s dt) f hnd
  refine ⟨e1, ?_, ?_⟩
  · intro hb
    obtain ⟨s2, e2⟩ := MidiMetLV2.noteOffPoll_returns (MidiMetLV2.tickState ts s dt) f hb
    exact ⟨_, MidiMetLV2.runSample_ok ts s _ s2 f dt e1 e2⟩
  · intro s3 h
    obtain ⟨s1, s2, h1, h2, rfl⟩ := MidiMetLV2.runSample_ok_inv ts s s3 f dt h
    rw [e1] at h1
    injection h1 with h1
    subst h1
    obtain ⟨p1, -, p3, -⟩ := MidiMetLV2.noteOffPoll_frame _ s2 f h2
    have p5 := MidiMetLV2.noteOffPoll_cursor _ s2 f h2
    obtain ⟨-, new, hev, hst⟩ := MidiMetLV2.noteOffPoll_status _ s2 f h2
    obtain ⟨a1, -, -, -, -, -, a7⟩ := MidiMetLV2.audioPart_frame s2 f
    obtain ⟨c1, c2⟩ := MidiMetLV2.audioPart_cursor s2 f
    have hm : (MidiMetLV2.audioPart s2 f).toMidiMet = s.toMidiMet := by
      rw [a1, p1]
      rfl
    refine ⟨hm, ?_, ?_, ?_, ?_, new, ?_, ?_⟩
    · show (MidiMetLV2.audioPart s2 f).toMidiMet.framePtr = _
      rw [hm]
    · show (MidiMetLV2.audioPart s2 f).toMidiMet.nextTick = _
      rw [hm]
    · rw [c1, p3]
      rfl
    · rw [c2, p5]
      rfl
    · rw [a7, hev]
      rfl
    · intro e he
      have h80 : e.status = toU8 (0x80 + s.channelOut) := hst e he
      refine ⟨h80, ?_⟩
      rw [h80]
      exact fun hc => toU8_on_ne_off s.channelOut hc.symm

/-- Witness of C22: with host transport enabled, the transport stopped and the
entries (69, 500) and (57, 300) pending, a sample at tick 400 emits the
note-off of note 57 and no note-on, and leaves `framePtr`, `nextTick`,
`soundOnFrame` and the cursor-position output at 0. -/
theorem no_click_while_stopped_witness :
    twoPendingStopped.transportSpeed = 0 ∧
    ∃ s3, MidiMetLV2.runSample 0 twoPendingStopped 7 400 = .ok s3 ∧
      s3.events = [{ frame := 7, status := 128, note := 57, velocity := 127 }] ∧
      s3.framePtr = 0 ∧ s3.nextTick = 0 ∧ s3.soundOnFrame = 0 ∧ s3.cursorPos = 0 := by
  obtain ⟨-, hret, hall⟩ := no_click_while_stopped 0 twoPendingStopped 7 400 rfl
  obtain ⟨s3, e⟩ := hret (by decide)
  obtain ⟨-, h2, h3, h4, h5, -⟩ := hall s3 e
  have hev : ∃ s4, MidiMetLV2.runSample 0 twoPendingStopped 7 400 = .ok s4 ∧
      s4.events = [{ frame := 7, status := 128, note := 57, velocity := 127 }] := by
    refine ⟨_, by with_unfolding_all rfl, ?_⟩
    with_unfolding_all rfl
  obtain ⟨s4, e4, hev4⟩ := hev
  rw [e] at e4
  injection e4 with e4
  subst e4
  exact ⟨rfl, s3, e, hev4, by rw [h2]; rfl, by rw [h3]; rfl, by rw [h4]; rfl, by rw [h5]; rfl⟩

/-- C23 (counterexample).  Resolution 7 and size 1 on the fresh sequencer,
started at tick 0: the second call of the sequencer emits the tick of slot 1,
`T_1 = 1 * (48000 / 7) = 6857`.  `setNextTick(6857)` computes
`6857 * 7 / 48000 = 47999 / 48000 = 0` and sets `framePtr` to 0, not to
`1 mod 7 = 1`. -/
theorem reposition_grid_counterexample :
    (7 : Int) ∈ seqResValues ∧ (1 : Int) ∈ seqSizeValues ∧ TPQN.tdiv 7 = 6857 ∧
    ∃ m1 m2 m3 m4 m5, (MidiMet.new 0).updateResolution 7 = .ok m1 ∧
      m1.updateSize 1 = .ok m2 ∧ m2.setNextTick 0 = .ok m3 ∧
      m3.clicks 2 = .ok m4 ∧ m4.outFrame0.tick = 6857 ∧
      m2.setNextTick 6857 = .ok m5 ∧ m5.framePtr = 0 ∧ (1 : Int) % (7 * 1) = 1 := by
  refine ⟨by decide, by decide, by decide, _, _, _, _, _, by with_unfolding_all rfl,
    by with_unfolding_all rfl, by with_unfolding_all rfl, by with_unfolding_all rfl, ?_,
    by with_unfolding_all rfl, ?_, by decide⟩
  · with_unfolding_all rfl
  · with_unfolding_all rfl

/-- C23 (repositioning and the grid, amended).  For every resolution `r` of
`seqResValues`, every size `s` of `seqSizeValues` and every `k >= 0` with
`k * TPQN < 2 ^ 63`, in a state with `res = r` and `nPoints = r * s` the call
`setNextTick(T_k)` with `T_k = k * (TPQN / r)` returns with the cursor at `T_k`
and `framePtr = (T_k * r / TPQN) mod (r * s)`.  This is `k mod (r * s)` when
`r` divides `TPQN` (every resolution of the table except 7, 9 and 11); for 7,
9 and 11 and `1 <= k <= 6857` it is `(k - 1) mod (r * s)`, the slot before. -/
theorem reposition_grid (m : MidiMet) (r s : Int) (k : Nat) (hr : r ∈ seqResValues)
    (hs : s ∈ seqSizeValues) (hres : m.res = r) (hnp : m.nPoints = r * s)
    (hk : (k : Int) * TPQN < 9223372036854775808) :
    ∃ m1, m.setNextTick (k * (TPQN.tdiv r).toNat) = .ok m1 ∧
      m1.nextTick = (k : Int) * TPQN.tdiv r ∧
      m1.framePtr = (((k : Int) * TPQN.tdiv r * r).tdiv TPQN) % (r * s) ∧
      (r ∣ TPQN → m1.framePtr = (k : Int) % (r * s)) ∧
      (¬ r ∣ TPQN → 1 ≤ k → k ≤ 6857 → m1.framePtr = ((k : Int) - 1) % (r * s)) := by
  obtain ⟨m1, e, t1, f1⟩ := MidiMet.setNextTick_grid m r s k hr hs hres hnp hk
  obtain ⟨g1, g2⟩ := grid_slot_index r k hr
  refine ⟨m1, e, t1, f1, ?_, ?_⟩
  · intro hd
    rw [f1, g1 hd]
  · intro hd h1 h2
    rw [f1, g2 hd h1 h2]

/-- Witness of C23 (amended): with resolution 4 and size 4, `setNextTick` at the
tick of slot 21, `21 * 12000 = 252000`, sets `framePtr` to `21 mod 16 = 5`;
with resolution 7 and size 1, `setNextTick` at the tick of slot 1, 6857, sets
`framePtr` to 0. -/
theorem reposition_grid_witness :
    (∃ m1, sixteenPoints.setNextTick 252000 = .ok m1 ∧ m1.nextTick = 252000 ∧
      m1.framePtr = 5) ∧
    (∃ m1, sevenPoints.setNextTick 6857 = .ok m1 ∧ m1.nextTick = 6857 ∧ m1.framePtr = 0) := by
  obtain ⟨m1, e1, t1, -, d1, -⟩ :=
    reposition_grid sixteenPoints 4 4 21 (by decide) (by decide) rfl rfl (by decide)
  obtain ⟨m2, e2, t2, -, -, d2⟩ :=
    reposition_grid sevenPoints 7 1 1 (by decide) (by decide) rfl rfl (by decide)
  have h4 : (4 : Int) ∣ TPQN := Dvd.intro 12000 (by decide)
  have h7 : ¬ (7 : Int) ∣ TPQN := by
    intro h
    unfold TPQN at h
    omega
  refine ⟨⟨m1, e1, ?_, ?_⟩, ⟨m2, e2, ?_, ?_⟩⟩
  · rw [t1]; decide
  · rw [d1 h4]; decide
  · rw [t2]; decide
  · rw [d2 h7 (by decide) (by decide)]; decide

/-- C24 (the render loop asks the sequencer with its own cursor).  For every
plugin state with table values of resolution and size and a non-negative
cursor `nextTick`, whatever the time shift `ts`: on every sample (derived tick
`d`) the click is due exactly when the shifted tick has reached `nextTick` and
the transport is running; whenever the sample returns, the sequencer is left
as it was if the click was not due, and if it was due the sequencer state is
the result of `getNextFrame(nextTick)`, whose snap condition
`nextTick < nextTick - stepTicks` is false, the emitted tick is the old
`nextTick` (odd new frame pointer) or its round-down to the grid (even new
frame pointer), and `nextTick` has grown; in either case `nextTick` has
advanced by at most one `stepTicks`.  Hence, with the transport running and
room in the queue, on `n` consecutive samples on each of which the tick has
reached the cursor left by the clicks before it, the loop returns having fired
a click on every one of them (`n` calls `getNextFrame(nextTick)`, and `n`
note-ons unless muted), the cursor having advanced by at most `n` steps. -/
theorem render_loop_own_cursor (ts : Int) (dt : Nat → Nat) (n f : Nat) (s : MidiMetLV2)
    (hv : s.toMidiMet.Valid) (hn : 0 ≤ s.nextTick)
    (hlim : s.nextTick + (n : Int) * TPQN.tdiv s.res < 9223372036854775808) :
    (∀ d : Nat,
      ((MidiMetLV2.tickState ts s d).clickDue ↔
        (s.nextTick ≤ (MidiMetLV2.shiftTick (toU64 d) ts : Int) ∧ s.transportSpeed ≠ 0)) ∧
      ∀ s3, MidiMetLV2.runSample ts s f d = .ok s3 →
        (¬ (MidiMetLV2.tickState ts s d).clickDue → s3.toMidiMet = s.toMidiMet) ∧
        ((MidiMetLV2.tickState ts s d).clickDue →
          s.toMidiMet.getNextFrame s.nextTick = .ok s3.toMidiMet ∧
          ¬ (s.nextTick < s.nextTick - TPQN.tdiv s.res) ∧
          (s3.framePtr.tmod 2 ≠ 0 → s3.outFrame0.tick = s.nextTick) ∧
          (s3.framePtr.tmod 2 = 0 →
            s3.outFrame0.tick = s.nextTick / TPQN.tdiv s.res * TPQN.tdiv s.res) ∧
          s3.outFrame0.tick ≤ s.nextTick ∧
          s.nextTick - TPQN.tdiv s.res < s3.outFrame0.tick ∧
          s.nextTick < s3.nextTick) ∧
        s.nextTick ≤ s3.nextTick ∧ s3.nextTick ≤ s.nextTick + TPQN.tdiv s.res) ∧
    (s.transportSpeed ≠ 0 → 0 ≤ s.bufPtr → s.bufPtr + (n : Int) ≤ JQ_BUFSZ →
      (∀ i : Nat, i < n → ∃ mi, s.toMidiMet.clicks i = .ok mi ∧
        mi.nextTick ≤ (MidiMetLV2.shiftTick (toU64 (dt (f + i))) ts : Int)) →
      ∃ s1, MidiMetLV2.runFrom ts dt n f s = .ok s1 ∧
        s.toMidiMet.clicks n = .ok s1.toMidiMet ∧
        s.nextTick ≤ s1.nextTick ∧
        s1.nextTick ≤ s.nextTick + (n : Int) * TPQN.tdiv s.res ∧
        (s.isMuted = false → (MidiMetLV2.noteOns s.channelOut s1.events).length
          = (MidiMetLV2.noteOns s.channelOut s.events).length + n)) := by
  have hbr := mem_seqResValues_bounds hv.1
  have hbs := mem_seqSizeValues_bounds hv.2
  have hp : 0 < TPQN.tdiv s.res := tdiv_TPQN_pos (by omega) (by omega)
  have hnn : 0 ≤ (n : Int) * TPQN.tdiv s.res :=
    Int.mul_nonneg (Int.natCast_nonneg n) hp.le
  constructor
  · intro d
    refine ⟨MidiMetLV2.clickDue_iff (MidiMetLV2.tickState ts s d) hn (by
      show s.nextTick < _
      omega), ?_⟩
    intro s3 h
    obtain ⟨q1, q2⟩ := MidiMetLV2.runSample_sequencer ts s s3 f d h
    obtain ⟨m1, hg1, -, -, -, -, g0, g3, g4, g5, g6, -, g1, g2⟩ :=
      MidiMet.getNextFrame_own_cursor s.toMidiMet hv.1 (by omega) hn
    by_cases hdue : (MidiMetLV2.tickState ts s d).clickDue
    · have hg := q1 hdue
      rw [hg] at hg1
      injection hg1 with hg1
      subst hg1
      exact ⟨fun hc => absurd hdue hc, fun _ => ⟨hg, g0, g3, g4, g5, g6, g1⟩, g1.le, g2⟩
    · have hm := q2 hdue
      have hnt : s3.nextTick = s.nextTick := by
        show s3.toMidiMet.nextTick = _
        rw [hm]
      exact ⟨fun _ => hm, fun hc => absurd hc hdue, by rw [hnt], by rw [hnt]; omega⟩
  · intro hsp h0 hb hahead
    obtain ⟨s1, e1, k1, lo1, hi1, -, on1⟩ :=
      MidiMetLV2.catch_up_exact ts dt n f s hv hn hlim hsp h0 hb hahead
    exact ⟨s1, e1, k1, lo1, hi1, on1⟩

/-- Witness of C24: the fresh plugin (one step is 48000 ticks, cursor 0) with
the tick at 100000 on three consecutive samples.  The click is due; the loop
returns having asked the sequencer three times with its own cursor, the cursor
is at 144000, three steps on, and three note-ons have been emitted. -/
theorem render_loop_own_cursor_witness :
    (MidiMetLV2.new 100 0 false).toMidiMet.Valid ∧
    (0 : Int) ≤ (MidiMetLV2.new 100 0 false).nextTick ∧
    (MidiMetLV2.tickState 0 (MidiMetLV2.new 100 0 false) 100000).clickDue ∧
    ∃ s1, MidiMetLV2.runFrom 0 (fun _ => 100000) 3 0 (MidiMetLV2.new 100 0 false) = .ok s1 ∧
      (MidiMet.new 0).clicks 3 = .ok s1.toMidiMet ∧ s1.nextTick = 144000 ∧
      (MidiMetLV2.noteOns 0 s1.events).length = 3 := by
  have hv : (MidiMetLV2.new 100 0 false).toMidiMet.Valid := ⟨by decide, by decide⟩
  have hn : (0 : Int) ≤ (MidiMetLV2.new 100 0 false).nextTick := by decide
  obtain ⟨hA, hB⟩ := render_loop_own_cursor 0 (fun _ => 100000) 3 0
    (MidiMetLV2.new 100 0 false) hv hn (by decide)
  have hdue : (MidiMetLV2.tickState 0 (MidiMetLV2.new 100 0 false) 100000).clickDue :=
    (hA 100000).1.mpr ⟨by with_unfolding_all decide, by decide⟩
  obtain ⟨s1, e1, k1, -, -, on1⟩ := hB (by decide) (by decide) (by decide) (by
    intro i hi
    interval_cases i
    · exact ⟨_, by with_unfolding_all rfl, by with_unfolding_all decide⟩
    · exact ⟨_, by with_unfolding_all rfl, by with_unfolding_all decide⟩
    · exact ⟨_, by with_unfolding_all rfl, by with_unfolding_all decide⟩)
  have hc : ∃ m, (MidiMet.new 0).clicks 3 = .ok m ∧ m.nextTick = 144000 :=
    ⟨_, by with_unfolding_all rfl, by with_unfolding_all rfl⟩
  obtain ⟨m, em, hm⟩ := hc
  have k2 : (MidiMet.new 0).clicks 3 = .ok s1.toMidiMet := k1
  rw [em] at k2
  injection k2 with k2
  refine ⟨hv, hn, hdue, s1, e1, k1, ?_, ?_⟩
  · show s1.toMidiMet.nextTick = _
    rw [← k2]
    exact hm
  · have := on1 rfl
    simpa using this
